import Mathlib

/-!
# QuickFAST segment encoder: presence-map placement and buffer discipline

A shallow embedding of `src/fast/codecs/Encoder.cpp` (the message / segment /
group encoder) together with the collaborators it drives (`DataDestination`,
`PresenceMap`, `Context`, `TemplateRegistry`, `FieldInstruction`), which are
modelled from the written specification.

C++ exceptions leave every mutation made before the `throw` in place (the
destination and the context are passed by reference), so every operation that
may throw returns an `Outcome`: the state reached, and the exception if one was
thrown.
-/

namespace QuickFAST

/-- An unsigned byte of the wire format, kept as a natural number. -/
abbrev uchar := Nat

/-- A template identifier (`template_id_t`). -/
abbrev template_id_t := Nat

/-- The exceptions the encoder can raise: `EncodingError` is the class thrown by
`Encoder::encodeSegment`; the others are the error kinds of the specification. -/
inductive Exception where
  | EncodingError (message : String)
  | TemplateInvariantViolated
  | FieldRequiredButAbsent
  | ValueOutOfRange
  | UsageError (message : String)
  deriving DecidableEq, Repr

/-- The result of running code that may throw: either it ran to its end in
state `s`, or it threw `e` having reached state `s`. -/
inductive Outcome (σ : Type) where
  | done (s : σ)
  | threw (e : Exception) (s : σ)
  deriving DecidableEq, Repr

/-- The state in which the code stopped, normally or by an exception. -/
def Outcome.state {σ : Type} : Outcome σ → σ
  | .done s => s
  | .threw _ s => s

/-- The exception thrown, if any. -/
def Outcome.exception {σ : Type} : Outcome σ → Option Exception
  | .done _ => none
  | .threw e _ => some e

/-- Sequencing: run `f` on the state reached unless an exception is in flight. -/
def Outcome.andThen {σ : Type} (o : Outcome σ) (f : σ → Outcome σ) : Outcome σ :=
  match o with
  | .done s => f s
  | .threw e s => .threw e s

/-- Transport of the state of an outcome (used when a local variable goes out
of scope on return or during unwinding). -/
def Outcome.mapState {σ τ : Type} (g : σ → τ) : Outcome σ → Outcome τ
  | .done s => .done (g s)
  | .threw e s => .threw e (g s)

/-- A field identity: local name and namespace. -/
structure FieldIdentity where
  localName : String
  fieldNamespace : String
  deriving DecidableEq, Repr

/-! ## DataDestination -/

/-- A handle on one of the buffers of a destination: its position in creation
order. -/
abbrev BufferHandle := Nat

/-- The boundary markers a destination is told about; they carry no bytes. -/
inductive DestinationEvent where
  | startMessage (id : template_id_t)
  | endMessage
  | startField (identity : FieldIdentity)
  | endField (identity : FieldIdentity)
  deriving DecidableEq, Repr

/-- Modelled from the spec: `DataDestination` (declared in
`Codecs/DataDestination.h`, which `Encoder.cpp` only includes). An ordered list
of buffers in creation order, the handle of the current buffer, the boundary markers received so far, and the messages handed
to the consumer by `end_message`. A handle is valid when it is the position of
an existing buffer; a destination without buffers has no valid handle. -/
structure DataDestination where
  buffers : List (List uchar)
  active : Nat
  events : List DestinationEvent
  delivered : List (List uchar)
  deriving DecidableEq, Repr

/-- Append `bytes` to the buffer at position `h`. -/
def appendAt : List (List uchar) → Nat → List uchar → List (List uchar)
  | [], _, _ => []
  | b :: bs, 0, bytes => (b ++ bytes) :: bs
  | b :: bs, h + 1, bytes => b :: appendAt bs h bytes

namespace DataDestination

/-- A destination that has not been used yet. -/
def fresh : DataDestination :=
  { buffers := [], active := 0, events := [], delivered := [] }

/-- Modelled from the spec: `start_buffer() → BufferHandle` appends a new empty
buffer at the end and makes it current. -/
def startBuffer (d : DataDestination) : BufferHandle × DataDestination :=
  (d.buffers.length, { d with buffers := d.buffers ++ [[]], active := d.buffers.length })

/-- Modelled from the spec: `get_current() → BufferHandle`. -/
def getBuffer (d : DataDestination) : BufferHandle := d.active

/-- Modelled from the spec: `select_buffer(h)` makes `h` current; an invalid
handle is API misuse (`UsageError`). -/
def selectBuffer (d : DataDestination) (h : BufferHandle) : Outcome DataDestination :=
  if h < d.buffers.length then .done { d with active := h }
  else .threw (.UsageError "Invalid buffer handle.") d

/-- Modelled from the spec: one byte written to the current buffer; without a
current buffer the write is a usage error. -/
def putByte (d : DataDestination) (byte : uchar) : Outcome DataDestination :=
  if d.active < d.buffers.length then
    .done { d with buffers := appendAt d.buffers d.active [byte] }
  else .threw (.UsageError "No current buffer.") d

/-- Modelled from the spec: `write(bytes)` to the current buffer, byte by byte. -/
def write (d : DataDestination) : List uchar → Outcome DataDestination
  | [] => .done d
  | byte :: rest => (d.putByte byte).andThen (fun d1 => write d1 rest)

/-- Modelled from the spec: `start_message(template_id)`, a boundary marker. -/
def startMessage (d : DataDestination) (id : template_id_t) : DataDestination :=
  { d with events := d.events ++ [.startMessage id] }

/-- Modelled from the spec: on `end_message` the destination concatenates all
buffers in insertion order and hands the result to the consumer. -/
def endMessage (d : DataDestination) : DataDestination :=
  { d with events := d.events ++ [.endMessage], delivered := d.delivered ++ [d.buffers.flatten] }

/-- Modelled from the spec: `start_field(identity)`, a structural hook, no bytes. -/
def startField (d : DataDestination) (identity : FieldIdentity) : DataDestination :=
  { d with events := d.events ++ [.startField identity] }

/-- Modelled from the spec: `end_field(identity)`, a structural hook, no bytes. -/
def endField (d : DataDestination) (identity : FieldIdentity) : DataDestination :=
  { d with events := d.events ++ [.endField identity] }

/-- The final byte stream: all buffers concatenated in creation order. -/
def stream (d : DataDestination) : List uchar := d.buffers.flatten

end DataDestination

/-! ## PresenceMap -/

/-- Modelled from the spec: `PresenceMap`, an ordered sequence of bits with the
fixed maximum length given at construction. -/
structure PresenceMap where
  bitCapacity : Nat
  bits : List Bool
  deriving DecidableEq, Repr

/-- Seven bits per byte, the first bit of a byte in its most significant data
position (`0x40`); `mask` is the position of the next bit and `cur` the byte
under construction. -/
def packBits : List Bool → Nat → uchar → List uchar
  | [], mask, cur => if mask = 64 then [] else [cur]
  | b :: bs, mask, cur =>
    if mask = 1 then (if b then cur + mask else cur) :: packBits bs 64 0
    else packBits bs (mask / 2) (if b then cur + mask else cur)

/-- Drop the trailing all-zero bytes. -/
def trimTrailingZeros (bytes : List uchar) : List uchar :=
  (bytes.reverse.dropWhile (fun b => b == 0)).reverse

/-- Set the high bit of the final byte; an empty map still yields one byte. -/
def markStop : List uchar → List uchar
  | [] => [128]
  | [b] => [b + 128]
  | b :: c :: rest => b :: markStop (c :: rest)

namespace PresenceMap

/-- Modelled from the spec: a presence map constructed with a declared maximum
bit capacity and no bits. -/
def new (bitCount : Nat) : PresenceMap := { bitCapacity := bitCount, bits := [] }

/-- Modelled from the spec: `set_next(bit)` appends one bit; appending beyond
the declared capacity fails with `TemplateInvariantViolated`. -/
def setNextField (p : PresenceMap) (present : Bool) : Outcome PresenceMap :=
  if p.bits.length < p.bitCapacity then .done { p with bits := p.bits ++ [present] }
  else .threw .TemplateInvariantViolated p

/-- Modelled from the spec: the byte form of the map: bits packed seven per
byte from the most significant data bit of byte 0, trailing all-zero bytes
trimmed, high bit of the final byte set; always at least one byte. -/
def encodedBytes (p : PresenceMap) : List uchar :=
  markStop (trimTrailingZeros (packBits p.bits 64 0))

/-- Modelled from the spec: `encode(dest)` writes the byte form to the current
buffer of the destination. -/
def encode (p : PresenceMap) (d : DataDestination) : Outcome DataDestination :=
  d.write p.encodedBytes

end PresenceMap

/-! ## Stop-bit unsigned integers -/

/-- The septets of `value` above the last one, most significant first; `fuel`
bounds their number (a 64-bit value has at most nine of them). -/
def highSeptets : Nat → Nat → List uchar
  | 0, _ => []
  | fuel + 1, value => if value = 0 then [] else highSeptets fuel (value / 128) ++ [value % 128]

/-- Modelled from the spec: the stop-bit encoding of an unsigned integer
(`uint64` in `FieldInstruction::encodeUnsignedInteger`): seven data bits per
byte, most significant first, high bit set on the final byte only. -/
def stopBitUnsigned (value : Nat) : List uchar :=
  highSeptets 9 ((value % 2 ^ 64) / 128) ++ [(value % 2 ^ 64) % 128 + 128]

/-- Modelled from the spec: `FieldInstruction::encodeUnsignedInteger(destination,
workingBuffer, value)` writes the stop-bit bytes of `value` to the current
buffer (the working buffer is scratch space and carries no state across calls). -/
def encodeUnsignedInteger (d : DataDestination) (value : Nat) : Outcome DataDestination :=
  d.write (stopBitUnsigned value)

/-! ## Context -/

/-- Modelled from the spec: the operator dictionaries, opaque to the encoder;
an entry is keyed by a dictionary key and holds the remembered value. -/
abbrev Dictionary := List (String × Nat)

/-- Modelled from the spec: the mutable part of `EncoderContext` (the base class
`Context` of `Encoder`): the last emitted template id (`templateId_`, optional)
and the dictionaries. The registry is immutable and passed separately. -/
structure Context where
  templateId_ : Option template_id_t
  dictionary : Dictionary
  deriving DecidableEq, Repr

namespace Context

/-- A context at the start of a session. -/
def fresh : Context := { templateId_ := none, dictionary := [] }

/-- Modelled from the spec: `reset(clear_template_id)` zeroes all dictionary
entries and, when `clear_template_id` is true, clears `last_template_id`. -/
def reset (c : Context) (resetTemplateId : Bool) : Context :=
  { templateId_ := if resetTemplateId then none else c.templateId_, dictionary := [] }

end Context

/-! ## Field instructions, segment bodies, templates -/

/-- Modelled from the spec: what the operator of a primitive field decides from
the accessor and the dictionary (§4.4, steps 1 to 5): the presence-map bit it
uses, if it uses one, the bytes it emits, and the dictionary after its update. -/
structure FieldOutput where
  pmapBit : Option Bool
  bytes : List uchar
  dictionary : Dictionary
  deriving DecidableEq, Repr

mutual
/-- Modelled from the spec: `FieldInstruction`, polymorphic over the accessor
type `A`. A primitive `field` runs its operator; the composite instructions
delegate to the encoder: a `group` encodes its body as a nested segment from
the accessor of the group, a `sequence` encodes its length field and then one
nested segment per entry. -/
inductive FieldInstruction (A : Type) : Type where
  | field (identity : FieldIdentity)
      (operator : A → Dictionary → Except Exception FieldOutput)
  | group (identity : FieldIdentity) (nested : A → A) (segmentBody : SegmentBody A)
  | sequence (identity : FieldIdentity)
      (lengthOperator : A → Dictionary → Except Exception FieldOutput)
      (entries : A → List A) (segmentBody : SegmentBody A)
/-- Modelled from the spec: `SegmentBody`, the declared presence-map bit count
and the ordered instructions. -/
inductive SegmentBody (A : Type) : Type where
  | mk (presenceMapBitCount : Nat) (instructions : List (FieldInstruction A))
end

variable {A : Type}

/-- The identity of an instruction (`instruction->getIdentity()`). -/
def FieldInstruction.getIdentity : FieldInstruction A → FieldIdentity
  | .field identity _ => identity
  | .group identity _ _ => identity
  | .sequence identity _ _ _ => identity

/-- The declared number of presence-map bits of a segment body. -/
def SegmentBody.presenceMapBitCount : SegmentBody A → Nat
  | .mk n _ => n

/-- The instructions of a segment body, in order. -/
def SegmentBody.instructions : SegmentBody A → List (FieldInstruction A)
  | .mk _ l => l

/-- Modelled from the spec: `Template`, a segment body with an id and a reset
flag. -/
structure Template (A : Type) where
  templateId : template_id_t
  reset : Bool
  segmentBody : SegmentBody A

/-- The reset flag of a template (`getReset()`). -/
def Template.getReset (t : Template A) : Bool := t.reset

/-- The presence-map bit count of the top-level segment of a template. -/
def Template.presenceMapBitCount (t : Template A) : Nat := t.segmentBody.presenceMapBitCount

/-- Modelled from the spec: `TemplateRegistry`, an immutable lookup from
template id to template. -/
structure TemplateRegistry (A : Type) where
  templates : List (Template A)

/-- Lookup by template id: the template, or an absent result. -/
def TemplateRegistry.getTemplate (r : TemplateRegistry A) (templateId : template_id_t) :
    Option (Template A) :=
  r.templates.find? (fun t => t.templateId == templateId)

/-! ## Encoder state -/

/-- What an encoder call can mutate: the destination and the context. -/
structure EncoderState where
  destination : DataDestination
  context : Context
  deriving DecidableEq, Repr

/-- The state while the body of a segment is encoded: the destination, the
presence map of the segment (a local variable of the enclosing call) and the
context. -/
structure SegmentState where
  destination : DataDestination
  pmap : PresenceMap
  context : Context
  deriving DecidableEq, Repr

/-- What remains of a segment state when the presence map goes out of scope. -/
def SegmentState.toEncoderState (s : SegmentState) : EncoderState :=
  { destination := s.destination, context := s.context }

/-- The segment state after a nested encoder call returned in state `t`: the
presence map of the enclosing segment is not reachable from the nested call and
is the one before the call. -/
def SegmentState.resume (s : SegmentState) (t : EncoderState) : SegmentState :=
  { s with destination := t.destination, context := t.context }

/-- The call `pmap.setNextField(present)` inside a segment. -/
def SegmentState.setNextField (s : SegmentState) (present : Bool) : Outcome SegmentState :=
  (s.pmap.setNextField present).mapState (fun p => { s with pmap := p })

/-- Bytes written to the destination inside a segment. -/
def SegmentState.write (s : SegmentState) (bytes : List uchar) : Outcome SegmentState :=
  (s.destination.write bytes).mapState (fun d => { s with destination := d })

/-- Modelled from the spec: the encode of a primitive field (§4.4): the
operator is consulted, its presence-map bit (if any) is appended, its bytes are
written to the current buffer, and the dictionary entry is updated. -/
def applyOperator (operator : A → Dictionary → Except Exception FieldOutput)
    (accessor : A) (s : SegmentState) : Outcome SegmentState :=
  match operator accessor s.context.dictionary with
  | .error e => .threw e s
  | .ok out =>
    ((match out.pmapBit with
      | some b => s.setNextField b
      | none => .done s).andThen (fun s1 => s1.write out.bytes)).andThen
      (fun s2 => .done { s2 with context := { s2.context with dictionary := out.dictionary } })

/-! ## Encoder (`src/fast/codecs/Encoder.cpp`) -/

/-- The synthetic identity of the presence map of a message segment
(`pmapIdentity("PMAP", "Message")`). -/
def pmapIdentityMessage : FieldIdentity := { localName := "PMAP", fieldNamespace := "Message" }

/-- The synthetic identity of the presence map of a group
(`pmapIdentity("PMAP", "Group")`). -/
def pmapIdentityGroup : FieldIdentity := { localName := "PMAP", fieldNamespace := "Group" }

/-- The back-patching step shared by `encodeSegment` and `encodeGroup`:
`selectBuffer(pmapBuffer); startField(pmapIdentity); pmap.encode(destination);
endField(pmapIdentity)`. -/
def writePresenceMap (pmapBuffer : BufferHandle) (pmapIdentity : FieldIdentity)
    (pmap : PresenceMap) (d : DataDestination) : Outcome DataDestination :=
  (d.selectBuffer pmapBuffer).andThen (fun d1 =>
    (pmap.encode (d1.startField pmapIdentity)).andThen (fun d2 =>
      .done (d2.endField pmapIdentity)))

/-- The loop of a sequence over its entries: `encodeEntry` for each entry
accessor in order, stopping at the first exception. -/
def forEachEntry {σ : Type} (encodeEntry : A → σ → Outcome σ) : List A → σ → Outcome σ
  | [], s => .done s
  | entry :: rest, s => (encodeEntry entry s).andThen (fun t => forEachEntry encodeEntry rest t)

mutual
/-- The call `instruction->encode(destination, pmap, *this, accessor)`. -/
def FieldInstruction.encode : FieldInstruction A → A → SegmentState → Outcome SegmentState
  | .field _ operator, accessor, s => applyOperator operator accessor s
  | .group _ nested segmentBody, accessor, s =>
    (encodeGroup segmentBody (nested accessor) s.toEncoderState).mapState s.resume
  | .sequence _ lengthOperator entries segmentBody, accessor, s =>
    (applyOperator lengthOperator accessor s).andThen (fun s1 =>
      (forEachEntry (fun entry t => encodeGroup segmentBody entry t)
        (entries accessor) s1.toEncoderState).mapState s1.resume)
/-- The method `Encoder::encodeGroup(destination, group, accessor)`. -/
def encodeGroup : SegmentBody A → A → EncoderState → Outcome EncoderState
  | .mk presenceMapBits instructions, accessor, s =>
    let pmapBuffer := s.destination.getBuffer
    let d1 := if presenceMapBits > 0 then s.destination.startBuffer.2 else s.destination
    match encodeSegmentBody instructions accessor
        { destination := d1, pmap := PresenceMap.new presenceMapBits, context := s.context } with
    | .threw e s1 => .threw e s1.toEncoderState
    | .done s1 =>
      let bodyBuffer := s1.destination.getBuffer
      ((if presenceMapBits > 0 then
          writePresenceMap pmapBuffer pmapIdentityGroup s1.pmap s1.destination
        else .done s1.destination).andThen
        (fun d2 => d2.selectBuffer bodyBuffer)).mapState
        (fun d => { destination := d, context := s1.context })
/-- The method `Encoder::encodeSegmentBody(destination, pmap, segment, accessor)`:
each instruction in order, between its `startField` and `endField` markers. The
segment is its list of instructions: `size()` is the length of the list and
`getInstruction(nField, _)` yields the instruction at every index below it. -/
def encodeSegmentBody : List (FieldInstruction A) → A → SegmentState → Outcome SegmentState
  | [], _, s => .done s
  | instruction :: rest, accessor, s =>
    ((instruction.encode accessor
        { s with destination := s.destination.startField instruction.getIdentity }).andThen
      (fun s1 => .done
        { s1 with destination := s1.destination.endField instruction.getIdentity })).andThen
      (fun s2 => encodeSegmentBody rest accessor s2)
end

/-- Lines 85 to 94 of `Encoder::encodeSegment`: the template-id copy bit. When
the id equals the remembered one the bit is `false`; otherwise the bit is
`true`, the id is written as a stop-bit unsigned integer and remembered. -/
def encodeTemplateId (templateId : template_id_t) (s : SegmentState) : Outcome SegmentState :=
  if some templateId = s.context.templateId_ then
    s.setNextField false
  else
    (s.setNextField true).andThen (fun s1 =>
      ((encodeUnsignedInteger s1.destination templateId).mapState
        (fun d => { s1 with destination := d })).andThen (fun s2 =>
          .done { s2 with context := { s2.context with templateId_ := some templateId } }))

/-- Lines 75 to 83 of `Encoder::encodeSegment`: the optional reset, the new
presence map, and the two buffers (header, then body, which is current). -/
def openSegment (template : Template A) (s : EncoderState) : BufferHandle × SegmentState :=
  let context := if template.getReset then s.context.reset true else s.context
  let header := s.destination.startBuffer
  (header.1,
    { destination := header.2.startBuffer.2,
      pmap := PresenceMap.new template.presenceMapBitCount,
      context := context })

/-- Lines 97 to 103 of `Encoder::encodeSegment`: remember the current buffer,
write the presence map into the header buffer, select the remembered buffer. -/
def closeSegment (header : BufferHandle) (s : SegmentState) : Outcome EncoderState :=
  let savedBuffer := s.destination.getBuffer
  ((writePresenceMap header pmapIdentityMessage s.pmap s.destination).andThen
    (fun d => d.selectBuffer savedBuffer)).mapState
    (fun d => { destination := d, context := s.context })

/-- The method `Encoder::encodeSegment(destination, templateId, accessor)`. -/
def encodeSegment (registry : TemplateRegistry A) (templateId : template_id_t) (accessor : A)
    (s : EncoderState) : Outcome EncoderState :=
  match registry.getTemplate templateId with
  | some template =>
    let opened := openSegment template s
    match (encodeTemplateId templateId opened.2).andThen
        (fun s1 => encodeSegmentBody template.segmentBody.instructions accessor s1) with
    | .threw e s2 => .threw e s2.toEncoderState
    | .done s2 => closeSegment opened.1 s2
  | none => .threw (.EncodingError "[ERR D9] Unknown template ID.") s

/-- The method `Encoder::encodeMessage(destination, templateId, accessor)`. -/
def encodeMessage (registry : TemplateRegistry A) (templateId : template_id_t) (accessor : A)
    (s : EncoderState) : Outcome EncoderState :=
  (encodeSegment registry templateId accessor
      { s with destination := s.destination.startMessage templateId }).andThen
    (fun s1 => .done { s1 with destination := s1.destination.endMessage })

/-! ## The wire format, as a reference encoder without buffers

The specification describes a segment on the wire as `[PMAP] body`: a group
inlines its presence map (if it has one) and then its body at the place of the
group, a sequence emits its length and then its entries likewise. The
definitions below produce that byte sequence directly, left to right; the
encoder above is compared with them. -/

/-- The state of the reference encoder: the presence map of the segment, the
context, and the bytes of the segment body produced so far, in wire order. -/
structure WireState where
  pmap : PresenceMap
  context : Context
  wire : List uchar
  deriving DecidableEq, Repr

/-- The wire effect of a primitive field: its bit joins the presence map, its
bytes follow the bytes already produced. -/
def wireOperator (operator : A → Dictionary → Except Exception FieldOutput)
    (accessor : A) (w : WireState) : Outcome WireState :=
  match operator accessor w.context.dictionary with
  | .error e => .threw e w
  | .ok out =>
    ((match out.pmapBit with
      | some b => (w.pmap.setNextField b).mapState (fun p => { w with pmap := p })
      | none => .done w).andThen
      (fun w1 => .done { w1 with wire := w1.wire ++ out.bytes })).andThen
      (fun w2 => .done { w2 with context := { w2.context with dictionary := out.dictionary } })

mutual
/-- The wire form of one instruction, appended to the bytes produced so far. -/
def FieldInstruction.wire : FieldInstruction A → A → WireState → Outcome WireState
  | .field _ operator, accessor, w => wireOperator operator accessor w
  | .group _ nested segmentBody, accessor, w => wireGroup segmentBody (nested accessor) w
  | .sequence _ lengthOperator entries segmentBody, accessor, w =>
    (wireOperator lengthOperator accessor w).andThen (fun w1 =>
      forEachEntry (fun entry t => wireGroup segmentBody entry t) (entries accessor) w1)
/-- The wire form of a nested segment: its presence map, when it declares one,
then its body. When the body fails the bytes it had produced remain, without a
presence map. The presence map of the enclosing segment is not touched. -/
def wireGroup : SegmentBody A → A → WireState → Outcome WireState
  | .mk presenceMapBits instructions, accessor, w =>
    match wireBody instructions accessor
        { pmap := PresenceMap.new presenceMapBits, context := w.context, wire := [] } with
    | .threw e g => .threw e { w with context := g.context, wire := w.wire ++ g.wire }
    | .done g => .done
        { w with
          context := g.context
          wire := w.wire ++ (if presenceMapBits > 0 then g.pmap.encodedBytes else []) ++ g.wire }
/-- The wire form of the instructions of a segment body, in order. -/
def wireBody : List (FieldInstruction A) → A → WireState → Outcome WireState
  | [], _, w => .done w
  | instruction :: rest, accessor, w =>
    (instruction.wire accessor w).andThen (fun w1 => wireBody rest accessor w1)
end

/-- The context with which the body of a message segment is encoded: reset
first if the template says so. -/
def segmentContext (template : Template A) (c : Context) : Context :=
  if template.getReset then c.reset true else c

/-- Whether the template id is copied, that is, not sent: it equals the
remembered id (as it stands after the optional reset). -/
def templateIdCopied (template : Template A) (templateId : template_id_t) (c : Context) : Bool :=
  decide (some templateId = (segmentContext template c).templateId_)

/-- The bytes of the template id on the wire: none when it is copied. -/
def templateIdBytes (template : Template A) (templateId : template_id_t) (c : Context) :
    List uchar :=
  if templateIdCopied template templateId c then [] else stopBitUnsigned templateId

/-- The reference state in which the body of a message segment starts: the
presence map holds the template-id bit only, the template id is remembered, and
no body byte has been produced. -/
def wireSegmentStart (template : Template A) (templateId : template_id_t) (c : Context) :
    WireState :=
  { pmap := { bitCapacity := template.presenceMapBitCount,
              bits := [!templateIdCopied template templateId c] }
    context := { segmentContext template c with templateId_ := some templateId }
    wire := [] }

/-- The reference encoder for a message segment: the body after the
template-id bit; a template that declares no presence-map bit cannot take the
template-id bit. -/
def wireSegment (template : Template A) (templateId : template_id_t) (accessor : A)
    (c : Context) : Outcome WireState :=
  if 0 < template.presenceMapBitCount then
    wireBody template.segmentBody.instructions accessor (wireSegmentStart template templateId c)
  else
    .threw .TemplateInvariantViolated
      { pmap := PresenceMap.new template.presenceMapBitCount
        context := segmentContext template c
        wire := [] }

/-! ## Invariants and the simulation relation -/

/-- The current buffer of the destination is its most recently created one. -/
def DataDestination.currentIsLast (d : DataDestination) : Prop :=
  d.buffers.length = d.active + 1

/-- The destination `d` extends `d0` by `bytes`: the buffers created before the
current buffer of `d0` are untouched, the stream of `d` is the stream of `d0`
followed by `bytes`, the current buffer of `d` is its last one, and nothing was
handed to the consumer in between. -/
structure Extends (d0 d : DataDestination) (bytes : List uchar) : Prop where
  length_le : d0.buffers.length ≤ d.buffers.length
  take_eq : d.buffers.take (d0.buffers.length - 1) = d0.buffers.take (d0.buffers.length - 1)
  stream_eq : d.stream = d0.stream ++ bytes
  current : d.currentIsLast
  delivered_eq : d.delivered = d0.delivered

/-- A segment state of the encoder matches a state of the reference encoder,
relative to the destination `d0` in which the segment body started. -/
structure Matches (d0 : DataDestination) (s : SegmentState) (w : WireState) : Prop where
  pmap_eq : s.pmap = w.pmap
  context_eq : s.context = w.context
  ext : Extends d0 s.destination w.wire

/-- The presence map `q` is `p` with bits appended: the capacity is the same,
the bits of `p` come first, and the capacity is still respected if it was. -/
def PresenceMap.Grown (p q : PresenceMap) : Prop :=
  q.bitCapacity = p.bitCapacity ∧ (∃ extra, q.bits = p.bits ++ extra) ∧
    (p.bits.length ≤ p.bitCapacity → q.bits.length ≤ q.bitCapacity)

/-- The destination has a current buffer. -/
def DataDestination.hasCurrent (d : DataDestination) : Prop :=
  d.active < d.buffers.length

instance (d : DataDestination) : Decidable d.hasCurrent :=
  inferInstanceAs (Decidable (d.active < d.buffers.length))

instance (d : DataDestination) : Decidable d.currentIsLast :=
  inferInstanceAs (Decidable (d.buffers.length = d.active + 1))

/-- From `d` to `e` no buffer was removed, and a current buffer was kept if
there was one. -/
def DataDestination.Grows (d e : DataDestination) : Prop :=
  d.buffers.length ≤ e.buffers.length ∧ (d.hasCurrent → e.hasCurrent)

/-- The outcome of `encodeSegment` started in state `s` agrees with the outcome
of the reference encoder: on success the destination has gained the buffer of
the presence map followed by buffers that hold the template-id bytes `tid` and
the body, and its current buffer is the last one. -/
def SegmentAgrees (s : EncoderState) (tid : List uchar) :
    Outcome EncoderState → Outcome WireState → Prop
  | .done t, .done w =>
    t.context = w.context ∧ t.destination.currentIsLast ∧
      t.destination.delivered = s.destination.delivered ∧
      ∃ r, t.destination.buffers = s.destination.buffers ++ w.pmap.encodedBytes :: r ∧
        r.flatten = tid ++ w.wire
  | .threw e t, .threw e1 w =>
    e = e1 ∧ t.context = w.context ∧ t.destination.delivered = s.destination.delivered
  | _, _ => False

/-- What every operation on a destination keeps: no buffer is removed, a
current buffer is kept if there was one, and nothing is handed to the consumer. -/
def DataDestination.Kept (d e : DataDestination) : Prop :=
  d.Grows e ∧ e.delivered = d.delivered

/-- What the body of a segment and a nested segment keep of the encoder state:
the remembered template id, and the destination as in `Kept`. -/
def EncoderState.Frame (a b : EncoderState) : Prop :=
  b.context.templateId_ = a.context.templateId_ ∧ a.destination.Kept b.destination

/-- Two outcomes agree: both ran to their end or both threw the same exception,
in related states. -/
def Agree {σ τ : Type} (r : σ → τ → Prop) : Outcome σ → Outcome τ → Prop
  | .done s, .done w => r s w
  | .threw e s, .threw e1 w => e = e1 ∧ r s w
  | _, _ => False

/-! ## Operators and templates of the worked scenarios -/

/-- The accessor of the scenarios: the unsigned value of a field, looked up by
the local name of its identity; absent when the list has no such name. -/
abbrev ScenarioAccessor := List (String × Nat)

/-- Modelled from the spec: a mandatory `u32` field under the constant
operator (§8, property 5 and scenario S2): the declared constant emits no byte
and uses no presence-map bit; any other value violates the template
(`[ERR D7]`), an absent value is a missing mandatory field (`[ERR D5]`). -/
def constantUnsigned (identity : FieldIdentity) (value : Nat) :
    FieldInstruction ScenarioAccessor :=
  .field identity (fun accessor dictionary =>
    match accessor.lookup identity.localName with
    | some v =>
      if v = value then .ok { pmapBit := none, bytes := [], dictionary := dictionary }
      else .error .TemplateInvariantViolated
    | none => .error .FieldRequiredButAbsent)

/-- Modelled from the spec: a mandatory `u32` field under the copy operator
(scenario S1): when the dictionary already holds the value the bit is 0 and no
byte is sent; otherwise the bit is 1, the value is sent as a stop-bit unsigned
integer and remembered. -/
def copyUnsigned (identity : FieldIdentity) : FieldInstruction ScenarioAccessor :=
  .field identity (fun accessor dictionary =>
    match accessor.lookup identity.localName with
    | some v =>
      if dictionary.lookup identity.localName = some v then
        .ok { pmapBit := some false, bytes := [], dictionary := dictionary }
      else
        .ok { pmapBit := some true, bytes := stopBitUnsigned v
              dictionary := (identity.localName, v) :: dictionary }
    | none => .error .FieldRequiredButAbsent)

/-- A field identity without namespace. -/
def plainIdentity (localName : String) : FieldIdentity :=
  { localName := localName, fieldNamespace := "" }

/-- The template of scenario S2: id 7, one mandatory `u32` field with the
constant 5, with the declared presence-map bit count and reset flag. -/
def constantTemplate (presenceMapBits : Nat) (reset : Bool) : Template ScenarioAccessor :=
  { templateId := 7, reset := reset
    segmentBody := .mk presenceMapBits [constantUnsigned (plainIdentity "value") 5] }

/-- A template with a copy field, a group with its own presence map that holds
a copy field, and a trailing copy field. -/
def groupTemplate (reset : Bool) : Template ScenarioAccessor :=
  { templateId := 8, reset := reset
    segmentBody := .mk 3
      [copyUnsigned (plainIdentity "price"),
       .group (plainIdentity "leg") id (.mk 1 [copyUnsigned (plainIdentity "quantity")]),
       copyUnsigned (plainIdentity "size")] }

/-- A template that declares no presence-map bit and has no instruction. -/
def emptyTemplate : Template ScenarioAccessor :=
  { templateId := 1, reset := false, segmentBody := .mk 0 [] }

/-- A template with the reset flag, one presence-map bit and no instruction. -/
def resetTemplate : Template ScenarioAccessor :=
  { templateId := 2, reset := true, segmentBody := .mk 1 [] }

/-- The registry of the scenarios. -/
def scenarioRegistry : TemplateRegistry ScenarioAccessor :=
  { templates := [emptyTemplate, resetTemplate, constantTemplate 1 false, groupTemplate false,
      { groupTemplate true with templateId := 9 }] }

/-- An accessor that yields 5 for the constant field and values for the copy
fields. -/
def scenarioAccessor : ScenarioAccessor :=
  [("value", 5), ("price", 1000), ("quantity", 3), ("size", 9)]

/-- A second accessor: the quantity differs from the first one. -/
def secondAccessor : ScenarioAccessor :=
  [("value", 5), ("price", 1000), ("quantity", 4), ("size", 9)]

/-- A destination in use: two buffers, the second one current. -/
def usedDestination : DataDestination :=
  { buffers := [[1], [2, 3]], active := 1, events := [.startMessage 4], delivered := [] }

/-- The state after a first message of the given template was encoded from the
first accessor into the destination in use, from a fresh context. -/
def firstEncoded (templateId : template_id_t) : EncoderState :=
  (encodeMessage scenarioRegistry templateId scenarioAccessor
    { destination := usedDestination, context := Context.fresh }).state

/-- The state after a group with one presence-map bit and the copy field
`quantity` was encoded into the destination in use: the presence map `0xC0` of
the group is at the end of the buffer that was current, the quantity `0x83` in
a new buffer. -/
def groupEncoded : EncoderState :=
  { destination :=
      { buffers := [[1], [2, 3, 192], [131]]
        active := 2
        events := usedDestination.events ++
          [.startField (plainIdentity "quantity"), .endField (plainIdentity "quantity"),
           .startField pmapIdentityGroup, .endField pmapIdentityGroup]
        delivered := [] }
    context := { templateId_ := none, dictionary := [("quantity", 3)] } }

/-! ## `Encoder::encodeMessages`, the loop of `encodeSegmentBody`, sequences of calls -/

/-- The method `Encoder::encodeMessages(destination, accessor)`:
`while(accessor.pickTemplate(templateId)) encodeMessage(destination, templateId,
accessor)`. The accessor operation `pickTemplate` belongs to the caller (the
interface `Messages/MessageAccessor.h`) and is a parameter: it yields the next
template id and the accessor advanced to that message, or nothing at the end.
The loop has no bound of its own, so the model takes `fuel`, the number of
times the loop condition may be evaluated, and yields `none` when it runs out. -/
def encodeMessages (pickTemplate : A → Option (template_id_t × A))
    (registry : TemplateRegistry A) : Nat → A → EncoderState → Option (Outcome EncoderState)
  | 0, _, _ => none
  | fuel + 1, accessor, s =>
    match pickTemplate accessor with
    | none => some (.done s)
    | some (templateId, picked) =>
      match encodeMessage registry templateId picked s with
      | .threw e s1 => some (.threw e s1)
      | .done s1 => encodeMessages pickTemplate registry fuel picked s1

/-- The accessor yields exactly the messages `picks` (template id and accessor
positioned on the message), in this order, and then reports no further one. -/
def PicksTemplates (pickTemplate : A → Option (template_id_t × A)) :
    A → List (template_id_t × A) → Prop
  | accessor, [] => pickTemplate accessor = none
  | accessor, pick :: rest =>
    pickTemplate accessor = some pick ∧ PicksTemplates pickTemplate pick.2 rest

/-- The message encodings of `picks` one after the other, stopping at the first
one that throws. -/
def encodeMessageList (registry : TemplateRegistry A) :
    List (template_id_t × A) → EncoderState → Outcome EncoderState
  | [], s => .done s
  | pick :: rest, s =>
    (encodeMessage registry pick.1 pick.2 s).andThen (fun s1 => encodeMessageList registry rest s1)

/-- The loop of `Encoder::encodeSegmentBody` as it is written:
`for(nField = 0; nField < instructionCount; ++nField)` with the test
`if(segment->getInstruction(nField, instruction))`. The segment is given by its
`getInstruction`; `remaining` is `instructionCount - nField`. -/
def encodeSegmentBodyLoop (getInstruction : Nat → Option (FieldInstruction A)) (accessor : A) :
    Nat → Nat → SegmentState → Outcome SegmentState
  | 0, _, s => .done s
  | remaining + 1, nField, s =>
    match getInstruction nField with
    | some instruction =>
      ((instruction.encode accessor
          { s with destination := s.destination.startField instruction.getIdentity }).andThen
        (fun s1 => .done
          { s1 with destination := s1.destination.endField instruction.getIdentity })).andThen
        (fun s2 => encodeSegmentBodyLoop getInstruction accessor remaining (nField + 1) s2)
    | none => encodeSegmentBodyLoop getInstruction accessor remaining (nField + 1) s

/-- A call of one of the two entry points that take a template id. -/
inductive EncoderCall (A : Type) : Type where
  | segment (templateId : template_id_t) (accessor : A)
  | message (templateId : template_id_t) (accessor : A)

/-- The template id passed to the call. -/
def EncoderCall.templateId : EncoderCall A → template_id_t
  | .segment templateId _ => templateId
  | .message templateId _ => templateId

/-- The call itself. -/
def EncoderCall.run (registry : TemplateRegistry A) :
    EncoderCall A → EncoderState → Outcome EncoderState
  | .segment templateId accessor, s => encodeSegment registry templateId accessor s
  | .message templateId accessor, s => encodeMessage registry templateId accessor s

/-- A sequence of calls on the same encoder and destination; a call that throws
leaves the state it reached to the next call. -/
def runCalls (registry : TemplateRegistry A) : List (EncoderCall A) → EncoderState → EncoderState
  | [], s => s
  | call :: rest, s => runCalls registry rest (call.run registry s).state

/-- Whether a call with this template id, made in context `c`, writes the bytes
of the template id: the template is found, its presence map takes the
template-id bit, and the id is not copied. -/
def templateIdWritten (registry : TemplateRegistry A) (templateId : template_id_t)
    (c : Context) : Bool :=
  match registry.getTemplate templateId with
  | none => false
  | some template =>
    decide (0 < template.presenceMapBitCount) && !templateIdCopied template templateId c

/-- The template id whose bytes were written last, after a sequence of calls;
`written` is that id before the sequence (absent if none was written yet). -/
def lastWritten (registry : TemplateRegistry A) :
    List (EncoderCall A) → EncoderState → Option template_id_t → Option template_id_t
  | [], _, written => written
  | call :: rest, s, written =>
    lastWritten registry rest (call.run registry s).state
      (if templateIdWritten registry call.templateId s.context then some call.templateId
       else written)

/-- The accessor of the scenarios as a source of messages: an entry `next`
announces a message with that template id; the fields of the message follow. -/
def scenarioPick : ScenarioAccessor → Option (template_id_t × ScenarioAccessor)
  | [] => none
  | entry :: rest => if entry.1 = "next" then some (entry.2, rest) else scenarioPick rest

/-- Two messages: template 7 with the value 6 (the constant is 5), then
template 2. -/
def failingMessages : ScenarioAccessor := [("next", 7), ("value", 6), ("next", 2)]

/-- Two messages: template 7 with the value 5, then template 2. -/
def passingMessages : ScenarioAccessor := [("next", 7), ("value", 5), ("next", 2)]

/-! ## FieldSet (`src/fast/messages/FieldSet.cpp`) -/

/-- Modelled from the spec: a field as the field set uses it (the class of
`Messages/Field.h`, which `FieldSet.cpp` only calls): whether it is defined
(`isDefined()`), and its content; `operator !=` compares two fields by value. -/
structure Field where
  defined : Bool
  content : Nat
  deriving DecidableEq, Repr

/-- The method `Field::isDefined()`. -/
def Field.isDefined (f : Field) : Bool := f.defined

/-- An entry of a field set (`MessageField`): the identity and the field. -/
structure MessageField where
  identity : FieldIdentity
  field : Field
  deriving DecidableEq, Repr

/-- The method `MessageField::getIdentity()`. -/
def MessageField.getIdentity (m : MessageField) : FieldIdentity := m.identity

/-- The method `MessageField::getField()`. -/
def MessageField.getField (m : MessageField) : Field := m.field

/-- The method `MessageField::name()`: the local name of the identity. -/
def MessageField.name (m : MessageField) : String := m.identity.localName

/-- A `FieldCPtr` variable of a caller: empty, or pointing to a field. -/
abbrev FieldCPtr := Option Field

/-- The state of a `FieldSet`: `fields_` holds the constructed entries
`fields_[0] .. fields_[used_ - 1]` in index order (the raw storage beyond them
is zeroed memory and is not represented), `capacity_` is the number of entries
the storage has room for, and `used_` is the number of constructed entries. -/
structure FieldSet where
  fields_ : List MessageField
  capacity_ : Nat
  applicationType_ : String
  applicationTypeNs_ : String
  deriving DecidableEq, Repr

namespace FieldSet

/-- The member `used_`. -/
def used_ (s : FieldSet) : Nat := s.fields_.length

/-- The constructor `FieldSet::FieldSet(res)`: no entry, room for `res`. -/
def new (res : Nat) : FieldSet :=
  { fields_ := [], capacity_ := res, applicationType_ := "", applicationTypeNs_ := "" }

/-- The copy loop of `reserve`: `for(nField = 0; nField < used_; ++nField)
new(&buffer[nField]) MessageField(fields_[nField])`. -/
def copyFields (fields : List MessageField) (used : Nat) : List MessageField :=
  (List.range used).filterMap (fun nField => fields[nField]?)

/-- The method `FieldSet::reserve(capacity)`: when `capacity` exceeds the
present one, the entries are copied to a new storage of that capacity. -/
def reserve (s : FieldSet) (capacity : Nat) : FieldSet :=
  if capacity > s.capacity_ then
    { s with fields_ := copyFields s.fields_ s.used_, capacity_ := capacity }
  else s

/-- The method `FieldSet::clear(capacity)`: every entry is destroyed, then the
storage grows to `capacity` if that is more than it has. -/
def clear (s : FieldSet) (capacity : Nat) : FieldSet :=
  reserve { s with fields_ := [] } capacity

/-- The method `FieldSet::operator[](index)`. The exception is
`UsageError("Coding Error", "Accessing FieldSet entry: index out of range.")`,
kept by its description. The method is `const`: it yields a result and no new
state. -/
def get (s : FieldSet) (index : Nat) : Except Exception MessageField :=
  if h : index ≥ s.used_ then
    .error (.UsageError "Accessing FieldSet entry: index out of range.")
  else .ok (s.fields_.get ⟨index, Nat.lt_of_not_le h⟩)

/-- The loop of `isPresent` over `fields_[index]`, `index < used_`, in order. -/
def isPresentLoop (identity : FieldIdentity) : List MessageField → Bool
  | [] => false
  | m :: rest =>
    if identity = m.getIdentity then m.getField.isDefined else isPresentLoop identity rest

/-- The method `FieldSet::isPresent(identity)`. -/
def isPresent (s : FieldSet) (identity : FieldIdentity) : Bool :=
  isPresentLoop identity s.fields_

/-- The size type `size_t`: 64 bits. -/
def sizeModulus : Nat := 2 ^ 64

/-- The method `FieldSet::addField(identity, value)`: when the storage is full
it grows to `((used_ + 1) * 3) / 2`, computed in `size_t`; the new entry is
constructed at index `used_`. -/
def addField (s : FieldSet) (identity : FieldIdentity) (value : Field) : FieldSet :=
  let grown :=
    if s.used_ ≥ s.capacity_ then s.reserve (((s.used_ + 1) * 3) % sizeModulus / 2) else s
  { grown with fields_ := grown.fields_ ++ [{ identity := identity, field := value }] }

/-- The loop of `getField`: the first entry with the identity decides; `value`
is the variable of the caller, assigned only when an entry is found. -/
def getFieldLoop (identity : FieldIdentity) (value : FieldCPtr) :
    List MessageField → Bool × FieldCPtr
  | [] => (false, value)
  | m :: rest =>
    if identity = m.getIdentity then (m.getField.isDefined, some m.getField)
    else getFieldLoop identity value rest

/-- The method `FieldSet::getField(identity, value)`: the returned boolean and
the variable `value` after the call. -/
def getField (s : FieldSet) (identity : FieldIdentity) (value : FieldCPtr) : Bool × FieldCPtr :=
  getFieldLoop identity value s.fields_

/-- The loop of `equals` over `nField < used_` (both sets have `used_` entries
when it runs): the names of the two entries are compared, then `f1` and `f2`,
which are both taken from the left entry (`fields_[nField].getField()`). -/
def equalsLoop : List MessageField → List MessageField → Bool
  | l :: ls, r :: rs =>
    if l.name ≠ r.name then false
    else if l.getField ≠ l.getField then false
    else equalsLoop ls rs
  | _, _ => true

/-- The method `FieldSet::equals(rhs, reason)`; the text sent to `reason` is
not modelled. -/
def equals (s rhs : FieldSet) : Bool :=
  if s.used_ ≠ rhs.used_ then false
  else if s.applicationType_ ≠ "any" ∧ rhs.applicationType_ ≠ "any" then
    if s.applicationType_ ≠ rhs.applicationType_ then false
    else if s.applicationTypeNs_ ≠ "" ∧ rhs.applicationTypeNs_ ≠ "" ∧
        s.applicationTypeNs_ ≠ rhs.applicationTypeNs_ then false
    else equalsLoop s.fields_ rhs.fields_
  else equalsLoop s.fields_ rhs.fields_

/-- Several fields added one after the other. -/
def addFields (s : FieldSet) : List (FieldIdentity × Field) → FieldSet
  | [] => s
  | entry :: rest => addFields (s.addField entry.1 entry.2) rest

end FieldSet

/-- A field set with two entries of the same identity `price` and one `size`. -/
def sampleFieldSet : FieldSet :=
  { fields_ :=
      [{ identity := plainIdentity "price", field := { defined := false, content := 0 } },
       { identity := plainIdentity "size", field := { defined := true, content := 9 } },
       { identity := plainIdentity "price", field := { defined := true, content := 1000 } }]
    capacity_ := 3
    applicationType_ := "order"
    applicationTypeNs_ := "fix" }

/-- The same names as `sampleFieldSet`, other values, other application type
namespace, application type `any`. -/
def otherFieldSet : FieldSet :=
  { fields_ :=
      [{ identity := plainIdentity "price", field := { defined := true, content := 1 } },
       { identity := plainIdentity "size", field := { defined := false, content := 2 } },
       { identity := plainIdentity "price", field := { defined := true, content := 3 } }]
    capacity_ := 8
    applicationType_ := "any"
    applicationTypeNs_ := "other" }

/-- A registry for scenario S5: template 1 with a copy field, template 2
without instruction, both without reset. -/
def elisionRegistry : TemplateRegistry ScenarioAccessor :=
  { templates :=
      [{ templateId := 1, reset := false
         segmentBody := .mk 2 [copyUnsigned (plainIdentity "price")] },
       { templateId := 2, reset := false, segmentBody := .mk 1 [] }] }

/-- A sequence of calls on the registry of the scenarios: a message of template
8, a segment with the unregistered id 3, a message of template 1 (which cannot
take the template-id bit), a message of template 7 whose constant is violated. -/
def scenarioCalls : List (EncoderCall ScenarioAccessor) :=
  [.message 8 scenarioAccessor, .segment 3 scenarioAccessor, .message 1 scenarioAccessor,
   .message 7 [("value", 6)]]

/-- Scenario S5, the state after the first message (template 1). -/
def elisionFirst : EncoderState :=
  (encodeMessage elisionRegistry 1 scenarioAccessor
    { destination := DataDestination.fresh, context := Context.fresh }).state

/-- Scenario S5, the state after the second message (template 2). -/
def elisionSecond : EncoderState :=
  (encodeMessage elisionRegistry 2 scenarioAccessor elisionFirst).state

/-- Scenario S5, the state after the third message (template 1 again). -/
def elisionThird : EncoderState :=
  (encodeMessage elisionRegistry 1 scenarioAccessor elisionSecond).state

/-! ## Lemmas on buffers -/

theorem length_appendAt (l : List (List uchar)) (h : Nat) (bytes : List uchar) :
    (appendAt l h bytes).length = l.length := by
  induction l generalizing h with
  | nil => rfl
  | cons b bs ih =>
    cases h with
    | zero => rfl
    | succ k => simp [appendAt, ih]

theorem appendAt_empty (l : List (List uchar)) (h : Nat) : appendAt l h [] = l := by
  induction l generalizing h with
  | nil => rfl
  | cons b bs ih =>
    cases h with
    | zero => simp [appendAt]
    | succ k => simp [appendAt, ih]

theorem appendAt_appendAt (l : List (List uchar)) (h : Nat) (x y : List uchar) :
    appendAt (appendAt l h x) h y = appendAt l h (x ++ y) := by
  induction l generalizing h with
  | nil => rfl
  | cons b bs ih =>
    cases h with
    | zero => simp [appendAt]
    | succ k => simp [appendAt, ih]

theorem appendAt_append_left (l r : List (List uchar)) (h : Nat) (x : List uchar)
    (hh : h < l.length) : appendAt (l ++ r) h x = appendAt l h x ++ r := by
  induction l generalizing h with
  | nil => simp at hh
  | cons b bs ih =>
    cases h with
    | zero => simp [appendAt]
    | succ k =>
      have hk : k < bs.length := by simpa using hh
      simp [appendAt, ih k hk]

theorem appendAt_length_append (p : List (List uchar)) (b x : List uchar)
    (r : List (List uchar)) :
    appendAt (p ++ b :: r) p.length x = p ++ (b ++ x) :: r := by
  induction p with
  | nil => rfl
  | cons c cs ih => simp [appendAt, ih]

theorem take_appendAt (l : List (List uchar)) (h : Nat) (x : List uchar) :
    (appendAt l h x).take h = l.take h := by
  induction l generalizing h with
  | nil => rfl
  | cons b bs ih =>
    cases h with
    | zero => rfl
    | succ k => simp [appendAt, ih]

theorem flatten_appendAt_last (l : List (List uchar)) (h : Nat) (x : List uchar)
    (hh : h + 1 = l.length) : (appendAt l h x).flatten = l.flatten ++ x := by
  induction l generalizing h with
  | nil => simp at hh
  | cons b bs ih =>
    cases h with
    | zero =>
      have hbs : bs = [] := by
        cases bs with
        | nil => rfl
        | cons c cs => simp at hh
      subst hbs
      simp [appendAt]
    | succ k =>
      have hk : k + 1 = bs.length := by simpa using hh
      simp [appendAt, ih k hk]

/-! ## Lemmas on the destination -/

theorem putByte_of_lt (d : DataDestination) (byte : uchar) (h : d.active < d.buffers.length) :
    d.putByte byte = .done { d with buffers := appendAt d.buffers d.active [byte] } := by
  simp [DataDestination.putByte, h]

theorem write_of_lt (d : DataDestination) (bytes : List uchar)
    (h : d.active < d.buffers.length) :
    d.write bytes = .done { d with buffers := appendAt d.buffers d.active bytes } := by
  induction bytes generalizing d with
  | nil => simp [DataDestination.write, appendAt_empty]
  | cons b rest ih =>
    have h1 : (appendAt d.buffers d.active [b]).length = d.buffers.length :=
      length_appendAt _ _ _
    rw [DataDestination.write, putByte_of_lt d b h, Outcome.andThen, ih]
    · simp [appendAt_appendAt]
    · simpa [h1] using h

theorem selectBuffer_of_lt (d : DataDestination) (h : BufferHandle)
    (hh : h < d.buffers.length) : d.selectBuffer h = .done { d with active := h } := by
  simp [DataDestination.selectBuffer, hh]

theorem writePresenceMap_patch (p : List (List uchar)) (b : List uchar)
    (r : List (List uchar)) (d : DataDestination) (hb : d.buffers = p ++ b :: r)
    (pmapIdentity : FieldIdentity) (pmap : PresenceMap) (saved : BufferHandle)
    (hs : saved < d.buffers.length) :
    (writePresenceMap p.length pmapIdentity pmap d).andThen (fun d1 => d1.selectBuffer saved)
      = .done { d with
          buffers := p ++ (b ++ pmap.encodedBytes) :: r
          active := saved
          events := d.events ++ [.startField pmapIdentity, .endField pmapIdentity] } := by
  have hp : p.length < d.buffers.length := by simp [hb]
  have hlen : (p ++ (b ++ pmap.encodedBytes) :: r).length = d.buffers.length := by simp [hb]
  rw [writePresenceMap, selectBuffer_of_lt d _ hp]
  simp only [Outcome.andThen, PresenceMap.encode]
  rw [write_of_lt]
  · simp only [DataDestination.startField, DataDestination.endField, Outcome.andThen]
    rw [selectBuffer_of_lt]
    · simp [hb, appendAt_length_append]
    · simpa [hb, appendAt_length_append] using hs
  · simpa [DataDestination.startField] using hp

/-! ## Lemmas on `Extends` -/

theorem Extends.refl_ext (d : DataDestination) (h : d.currentIsLast) : Extends d d [] :=
  { length_le := Nat.le_refl _
    take_eq := rfl
    stream_eq := by simp
    current := h
    delivered_eq := rfl }

theorem Extends.trans_ext {a b c : DataDestination} {x y : List uchar}
    (h1 : Extends a b x) (h2 : Extends b c y) : Extends a c (x ++ y) :=
  { length_le := Nat.le_trans h1.length_le h2.length_le
    take_eq := by
      have hle : a.buffers.length - 1 ≤ b.buffers.length - 1 :=
        Nat.sub_le_sub_right h1.length_le 1
      have e1 : c.buffers.take (a.buffers.length - 1)
          = (c.buffers.take (b.buffers.length - 1)).take (a.buffers.length - 1) := by
        rw [List.take_take, Nat.min_eq_left hle]
      have e2 : b.buffers.take (a.buffers.length - 1)
          = (b.buffers.take (b.buffers.length - 1)).take (a.buffers.length - 1) := by
        rw [List.take_take, Nat.min_eq_left hle]
      rw [e1, h2.take_eq, ← e2, h1.take_eq]
    stream_eq := by rw [h2.stream_eq, h1.stream_eq, List.append_assoc]
    current := h2.current
    delivered_eq := by rw [h2.delivered_eq, h1.delivered_eq] }

theorem Extends.congr {d0 d d1 : DataDestination} {x : List uchar} (h : Extends d0 d x)
    (hb : d1.buffers = d.buffers) (ha : d1.active = d.active)
    (hd : d1.delivered = d.delivered) : Extends d0 d1 x :=
  { length_le := by rw [hb]; exact h.length_le
    take_eq := by rw [hb]; exact h.take_eq
    stream_eq := by
      have := h.stream_eq
      simpa [DataDestination.stream, hb] using this
    current := by
      have := h.current
      simpa [DataDestination.currentIsLast, hb, ha] using this
    delivered_eq := by rw [hd]; exact h.delivered_eq }

theorem Extends.startBuffer (d : DataDestination) : Extends d d.startBuffer.2 [] :=
  { length_le := by simp [DataDestination.startBuffer]
    take_eq := by
      simp only [DataDestination.startBuffer]
      rw [List.take_append_of_le_length (Nat.sub_le _ _)]
    stream_eq := by simp [DataDestination.startBuffer, DataDestination.stream]
    current := by simp [DataDestination.startBuffer, DataDestination.currentIsLast]
    delivered_eq := rfl }

theorem Extends.written (d : DataDestination) (bytes : List uchar) (h : d.currentIsLast) :
    Extends d { d with buffers := appendAt d.buffers d.active bytes } bytes :=
  { length_le := by simp [length_appendAt]
    take_eq := by
      have ha : d.buffers.length - 1 = d.active := by
        have h1 : d.buffers.length = d.active + 1 := h
        omega
      simp only [ha]
      exact take_appendAt _ _ _
    stream_eq := by
      simp only [DataDestination.stream]
      exact flatten_appendAt_last _ _ _ h.symm
    current := by
      have := h
      simpa [DataDestination.currentIsLast, length_appendAt] using this
    delivered_eq := rfl }

/-! ## The encoder agrees with the reference encoder -/

theorem Agree.andThen {σ τ : Type} {r : σ → τ → Prop} {o : Outcome σ} {a : Outcome τ}
    {f : σ → Outcome σ} {g : τ → Outcome τ} (h : Agree r o a)
    (hfg : ∀ s w, r s w → Agree r (f s) (g w)) : Agree r (o.andThen f) (a.andThen g) := by
  cases o with
  | done s =>
    cases a with
    | done w => exact hfg s w h
    | threw e w => exact absurd h (by simp [Agree])
  | threw e s =>
    cases a with
    | done w => exact absurd h (by simp [Agree])
    | threw e1 w => exact h

theorem Agree.andThen_done {σ τ : Type} {r : σ → τ → Prop} {o : Outcome σ} {a : Outcome τ}
    {f : σ → σ} (h : Agree r o a) (hf : ∀ s w, r s w → r (f s) w) :
    Agree r (o.andThen (fun s => .done (f s))) a := by
  cases o with
  | done s =>
    cases a with
    | done w => exact hf s w h
    | threw e w => exact absurd h (by simp [Agree])
  | threw e s =>
    cases a with
    | done w => exact absurd h (by simp [Agree])
    | threw e1 w => exact h

theorem Matches.setNextField {d0 : DataDestination} {s : SegmentState} {w : WireState}
    (h : Matches d0 s w) (present : Bool) :
    Agree (Matches d0) (s.setNextField present)
      ((w.pmap.setNextField present).mapState (fun p => { w with pmap := p })) := by
  unfold SegmentState.setNextField PresenceMap.setNextField
  rw [h.pmap_eq]
  by_cases hc : w.pmap.bits.length < w.pmap.bitCapacity
  · simp only [hc, if_true, Outcome.mapState, Agree]
    exact { pmap_eq := rfl, context_eq := h.context_eq, ext := h.ext }
  · simp only [hc, if_false, Outcome.mapState, Agree]
    exact ⟨trivial, { pmap_eq := rfl, context_eq := h.context_eq, ext := h.ext }⟩

theorem Matches.write {d0 : DataDestination} {s : SegmentState} {w : WireState}
    (h : Matches d0 s w) (bytes : List uchar) :
    Agree (Matches d0) (s.write bytes) (.done { w with wire := w.wire ++ bytes }) := by
  have hc : s.destination.buffers.length = s.destination.active + 1 := h.ext.current
  have hlt : s.destination.active < s.destination.buffers.length := by
    rw [hc]; exact Nat.lt_succ_self _
  unfold SegmentState.write
  rw [write_of_lt _ _ hlt]
  simp only [Outcome.mapState, Agree]
  exact { pmap_eq := h.pmap_eq, context_eq := h.context_eq
          ext := h.ext.trans_ext (Extends.written _ bytes h.ext.current) }

theorem applyOperator_agrees (operator : A → Dictionary → Except Exception FieldOutput)
    (accessor : A) {d0 : DataDestination} {s : SegmentState} {w : WireState}
    (h : Matches d0 s w) :
    Agree (Matches d0) (applyOperator operator accessor s) (wireOperator operator accessor w) := by
  unfold applyOperator wireOperator
  rw [h.context_eq]
  cases operator accessor w.context.dictionary with
  | error e => exact ⟨rfl, h⟩
  | ok out =>
    refine Agree.andThen (Agree.andThen ?_ ?_) ?_
    · cases out.pmapBit with
      | none => exact h
      | some b => exact h.setNextField b
    · intro s1 w1 h1
      exact h1.write out.bytes
    · intro s2 w2 h2
      exact { pmap_eq := h2.pmap_eq
              context_eq := by
                show ({ s2.context with dictionary := out.dictionary } : Context)
                  = { w2.context with dictionary := out.dictionary }
                rw [h2.context_eq]
              ext := h2.ext }

theorem exists_snoc_of_length {α : Type} (l : List α) (k : Nat) (h : l.length = k + 1) :
    ∃ p b, l = p ++ [b] ∧ p.length = k := by
  have hne : l ≠ [] := by
    intro hnil
    simp [hnil] at h
  refine ⟨l.dropLast, l.getLast hne, (List.dropLast_append_getLast hne).symm, ?_⟩
  simp [h]

/-- Back-patching after a body: when the body started in a destination whose
last two buffers were the presence-map buffer `b` and the body buffer `c`, the
presence map lands right after `b`, before everything the body produced. -/
theorem patch_after_body (p : List (List uchar)) (b c : List uchar)
    {d1 d2 : DataDestination} {g : List uchar} (hb1 : d1.buffers = p ++ [b] ++ [c])
    (h : Extends d1 d2 g) (pmapIdentity : FieldIdentity) (pmap : PresenceMap) :
    ∃ r, d2.buffers = p ++ b :: r ∧ r.flatten = c ++ g ∧
      (writePresenceMap p.length pmapIdentity pmap d2).andThen
          (fun x => x.selectBuffer d2.active)
        = .done { d2 with
            buffers := p ++ (b ++ pmap.encodedBytes) :: r
            active := d2.active
            events := d2.events ++ [.startField pmapIdentity, .endField pmapIdentity] } := by
  have hlen1 : d1.buffers.length - 1 = p.length + 1 := by simp [hb1]
  have htake : d2.buffers.take (p.length + 1) = p ++ [b] := by
    have := h.take_eq
    rw [hlen1, hb1] at this
    rw [this, List.take_append_of_le_length (by simp)]
    simp
  have hsplit : d2.buffers = p ++ b :: d2.buffers.drop (p.length + 1) := by
    have := (List.take_append_drop (p.length + 1) d2.buffers).symm
    rw [htake] at this
    simpa using this
  have hflat : (d2.buffers.drop (p.length + 1)).flatten = c ++ g := by
    have hs := h.stream_eq
    simp only [DataDestination.stream] at hs
    rw [hb1] at hs
    rw [hsplit] at hs
    simp only [List.flatten_append, List.flatten_cons, List.flatten_nil, List.append_nil,
      List.append_assoc] at hs
    exact List.append_cancel_left (List.append_cancel_left hs)
  have hcur : d2.buffers.length = d2.active + 1 := h.current
  have hsaved : d2.active < d2.buffers.length := by
    rw [hcur]; exact Nat.lt_succ_self _
  exact ⟨_, hsplit, hflat, writePresenceMap_patch p b _ d2 hsplit pmapIdentity pmap _ hsaved⟩

/-- The destination after a group with a presence map was patched extends the
destination in which the group started by the presence map and then the body. -/
theorem Extends.patched {d d2 : DataDestination} {g : List uchar} (hd : d.currentIsLast)
    (h : Extends d.startBuffer.2 d2 g) (pmapIdentity : FieldIdentity) (pmap : PresenceMap) :
    ∃ d4, (writePresenceMap d.active pmapIdentity pmap d2).andThen
        (fun x => x.selectBuffer d2.active) = .done d4 ∧
      Extends d d4 (pmap.encodedBytes ++ g) := by
  have hlen : d.buffers.length = d.active + 1 := hd
  obtain ⟨p, b, hpb, hp⟩ := exists_snoc_of_length d.buffers d.active hlen
  have hb1 : d.startBuffer.2.buffers = p ++ [b] ++ [[]] := by
    simp [DataDestination.startBuffer, hpb]
  obtain ⟨r, hsplit, hflat, hrun⟩ := patch_after_body p b [] hb1 h pmapIdentity pmap
  rw [hp] at hrun
  refine ⟨_, hrun, ?_⟩
  have hcur : d2.buffers.length = d2.active + 1 := h.current
  exact
    { length_le := by
        have h1 : (p ++ (b ++ pmap.encodedBytes) :: r).length = d2.buffers.length := by
          simp [hsplit]
        have h2 := h.length_le
        simp only [DataDestination.startBuffer, List.length_append] at h2
        show d.buffers.length ≤ (p ++ (b ++ pmap.encodedBytes) :: r).length
        rw [h1]
        omega
      take_eq := by
        show (p ++ (b ++ pmap.encodedBytes) :: r).take (d.buffers.length - 1)
          = d.buffers.take (d.buffers.length - 1)
        have hl : d.buffers.length - 1 = p.length := by simp [hpb]
        rw [hl, hpb]
        simp
      stream_eq := by
        show (p ++ (b ++ pmap.encodedBytes) :: r).flatten = d.buffers.flatten ++ _
        rw [hpb]
        simp [hflat]
      current := by
        show (p ++ (b ++ pmap.encodedBytes) :: r).length = d2.active + 1
        rw [← hcur, hsplit]
        simp
      delivered_eq := by
        show d2.delivered = d.delivered
        rw [h.delivered_eq]
        rfl }

theorem encodeGroup_agrees (presenceMapBits : Nat) (instructions : List (FieldInstruction A))
    (ih : ∀ (accessor : A) (d0 : DataDestination) (s : SegmentState) (w : WireState),
      Matches d0 s w →
      Agree (Matches d0) (encodeSegmentBody instructions accessor s)
        (wireBody instructions accessor w))
    (accessor : A) {d0 : DataDestination} {s : SegmentState} {w : WireState}
    (h : Matches d0 s w) :
    Agree (Matches d0)
      ((encodeGroup (.mk presenceMapBits instructions) accessor s.toEncoderState).mapState
        s.resume)
      (wireGroup (.mk presenceMapBits instructions) accessor w) := by
  rw [encodeGroup, wireGroup]
  have hcur : s.destination.currentIsLast := h.ext.current
  by_cases hn : presenceMapBits > 0
  · simp only [hn, if_true, SegmentState.toEncoderState, DataDestination.getBuffer]
    have hm : Matches s.destination.startBuffer.2
        { destination := s.destination.startBuffer.2, pmap := PresenceMap.new presenceMapBits,
          context := s.context }
        { pmap := PresenceMap.new presenceMapBits, context := w.context, wire := [] } :=
      { pmap_eq := rfl, context_eq := h.context_eq
        ext := Extends.refl_ext _ (Extends.startBuffer s.destination).current }
    have hag := ih accessor _ _ _ hm
    revert hag
    cases encodeSegmentBody instructions accessor
        { destination := s.destination.startBuffer.2, pmap := PresenceMap.new presenceMapBits,
          context := s.context } with
    | threw e s1 =>
      cases wireBody instructions accessor
          { pmap := PresenceMap.new presenceMapBits, context := w.context, wire := [] } with
      | done g => intro hag; exact absurd hag (by simp [Agree])
      | threw e1 g =>
        intro hag
        obtain ⟨he, hg⟩ := hag
        refine ⟨he, ?_⟩
        exact { pmap_eq := h.pmap_eq, context_eq := hg.context_eq
                ext := h.ext.trans_ext ((Extends.startBuffer s.destination).trans_ext hg.ext) }
    | done s1 =>
      cases wireBody instructions accessor
          { pmap := PresenceMap.new presenceMapBits, context := w.context, wire := [] } with
      | threw e1 g => intro hag; exact absurd hag (by simp [Agree])
      | done g =>
        intro hg
        have hg1 : Matches s.destination.startBuffer.2 s1 g := hg
        obtain ⟨d4, hrun, hext⟩ :=
          Extends.patched hcur hg1.ext pmapIdentityGroup s1.pmap
        simp only [hrun, Outcome.mapState, Agree]
        exact { pmap_eq := h.pmap_eq, context_eq := hg1.context_eq
                ext := by
                  have := h.ext.trans_ext hext
                  rw [hg1.pmap_eq] at this
                  simpa [SegmentState.resume, List.append_assoc] using this }
  · simp only [hn, if_false, SegmentState.toEncoderState, DataDestination.getBuffer]
    have hm : Matches s.destination
        { destination := s.destination, pmap := PresenceMap.new presenceMapBits,
          context := s.context }
        { pmap := PresenceMap.new presenceMapBits, context := w.context, wire := [] } :=
      { pmap_eq := rfl, context_eq := h.context_eq, ext := Extends.refl_ext _ hcur }
    have hag := ih accessor _ _ _ hm
    revert hag
    cases encodeSegmentBody instructions accessor
        { destination := s.destination, pmap := PresenceMap.new presenceMapBits,
          context := s.context } with
    | threw e s1 =>
      cases wireBody instructions accessor
          { pmap := PresenceMap.new presenceMapBits, context := w.context, wire := [] } with
      | done g => intro hag; exact absurd hag (by simp [Agree])
      | threw e1 g =>
        intro hag
        obtain ⟨he, hg⟩ := hag
        refine ⟨he, ?_⟩
        exact { pmap_eq := h.pmap_eq, context_eq := hg.context_eq
                ext := h.ext.trans_ext hg.ext }
    | done s1 =>
      cases wireBody instructions accessor
          { pmap := PresenceMap.new presenceMapBits, context := w.context, wire := [] } with
      | threw e1 g => intro hag; exact absurd hag (by simp [Agree])
      | done g =>
        intro hg
        have hg1 : Matches s.destination s1 g := hg
        have hc1 : s1.destination.buffers.length = s1.destination.active + 1 := hg1.ext.current
        have hlt : s1.destination.active < s1.destination.buffers.length := by
          rw [hc1]; exact Nat.lt_succ_self _
        simp only [Outcome.andThen, selectBuffer_of_lt _ _ hlt, Outcome.mapState, Agree]
        exact { pmap_eq := h.pmap_eq, context_eq := hg1.context_eq
                ext := by
                  have := h.ext.trans_ext hg1.ext
                  simpa [SegmentState.resume] using this }

/-- Simultaneous induction over instructions, segment bodies and instruction
lists. -/
theorem instruction_induction {P1 : FieldInstruction A → Prop} {P2 : SegmentBody A → Prop}
    {P3 : List (FieldInstruction A) → Prop}
    (hfield : ∀ identity operator, P1 (.field identity operator))
    (hgroup : ∀ identity nested body, P2 body → P1 (.group identity nested body))
    (hsequence : ∀ identity lengthOperator entries body, P2 body →
      P1 (.sequence identity lengthOperator entries body))
    (hmk : ∀ n l, P3 l → P2 (.mk n l))
    (hnil : P3 [])
    (hcons : ∀ i l, P1 i → P3 l → P3 (i :: l)) :
    (∀ i, P1 i) ∧ (∀ b, P2 b) ∧ (∀ l, P3 l) :=
  ⟨fun i => @FieldInstruction.rec A P1 P2 P3 hfield hgroup hsequence hmk hnil hcons i,
   fun b => @SegmentBody.rec A P1 P2 P3 hfield hgroup hsequence hmk hnil hcons b,
   fun l => @FieldInstruction.rec_1 A P1 P2 P3 hfield hgroup hsequence hmk hnil hcons l⟩

theorem SegmentState.resume_toEncoderState (s : SegmentState) : s.resume s.toEncoderState = s :=
  rfl

theorem SegmentState.toEncoderState_resume (s : SegmentState) (t : EncoderState) :
    (s.resume t).toEncoderState = t := rfl

theorem SegmentState.resume_resume (s : SegmentState) (t : EncoderState) :
    (s.resume t).resume = s.resume := rfl

theorem forEachEntry_agrees (body : SegmentBody A)
    (hbody : ∀ (accessor : A) (d0 : DataDestination) (s : SegmentState) (w : WireState),
      Matches d0 s w →
      Agree (Matches d0) ((encodeGroup body accessor s.toEncoderState).mapState s.resume)
        (wireGroup body accessor w))
    (entries : List A) (d0 : DataDestination) (s : SegmentState) (w : WireState)
    (h : Matches d0 s w) :
    Agree (Matches d0)
      ((forEachEntry (fun entry t => encodeGroup body entry t) entries
        s.toEncoderState).mapState s.resume)
      (forEachEntry (fun entry t => wireGroup body entry t) entries w) := by
  induction entries generalizing s w with
  | nil => exact h
  | cons e rest ih =>
    have hb := hbody e d0 s w h
    simp only [forEachEntry]
    revert hb
    cases encodeGroup body e s.toEncoderState with
    | threw x t =>
      cases wireGroup body e w with
      | done w1 => intro hb; exact absurd hb (by simp [Outcome.mapState, Agree])
      | threw x1 w1 => intro hb; exact hb
    | done t =>
      cases wireGroup body e w with
      | threw x1 w1 => intro hb; exact absurd hb (by simp [Outcome.mapState, Agree])
      | done w1 =>
        intro hb
        have hb1 : Matches d0 (s.resume t) w1 := hb
        exact ih (s.resume t) w1 hb1

/-- The encoder and the reference encoder agree on every instruction, every
nested segment and every list of instructions. -/
theorem encoder_agrees :
    (∀ (i : FieldInstruction A) (accessor : A) (d0 : DataDestination) (s : SegmentState)
        (w : WireState), Matches d0 s w →
        Agree (Matches d0) (i.encode accessor s) (i.wire accessor w)) ∧
    (∀ (body : SegmentBody A) (accessor : A) (d0 : DataDestination) (s : SegmentState)
        (w : WireState), Matches d0 s w →
        Agree (Matches d0) ((encodeGroup body accessor s.toEncoderState).mapState s.resume)
          (wireGroup body accessor w)) ∧
    (∀ (l : List (FieldInstruction A)) (accessor : A) (d0 : DataDestination)
        (s : SegmentState) (w : WireState), Matches d0 s w →
        Agree (Matches d0) (encodeSegmentBody l accessor s) (wireBody l accessor w)) := by
  apply instruction_induction
  · intro identity operator accessor d0 s w h
    rw [FieldInstruction.encode, FieldInstruction.wire]
    exact applyOperator_agrees operator accessor h
  · intro identity nested body hbody accessor d0 s w h
    rw [FieldInstruction.encode, FieldInstruction.wire]
    exact hbody (nested accessor) d0 s w h
  · intro identity lengthOperator entries body hbody accessor d0 s w h
    rw [FieldInstruction.encode, FieldInstruction.wire]
    refine Agree.andThen (applyOperator_agrees lengthOperator accessor h) ?_
    intro s1 w1 h1
    exact forEachEntry_agrees body hbody (entries accessor) d0 s1 w1 h1
  · intro n l hl accessor d0 s w h
    exact encodeGroup_agrees n l hl accessor h
  · intro accessor d0 s w h
    rw [encodeSegmentBody, wireBody]
    exact h
  · intro i l hi hl accessor d0 s w h
    rw [encodeSegmentBody, wireBody]
    refine Agree.andThen (Agree.andThen_done ?_ ?_) ?_
    · exact hi accessor d0 _ w
        { pmap_eq := h.pmap_eq, context_eq := h.context_eq
          ext := h.ext.congr rfl rfl rfl }
    · intro s1 w1 h1
      exact { pmap_eq := h1.pmap_eq, context_eq := h1.context_eq
              ext := h1.ext.congr rfl rfl rfl }
    · intro s2 w2 h2
      exact hl accessor d0 s2 w2 h2

/-! ## The presence map of a segment only grows, within its capacity -/

theorem Outcome.andThen_state_rel {σ : Type} {r : σ → σ → Prop}
    (htrans : ∀ a b c, r a b → r b c → r a c) {s : σ} {o : Outcome σ} {f : σ → Outcome σ}
    (h1 : r s o.state) (h2 : ∀ s1, r s1 (f s1).state) : r s (o.andThen f).state := by
  cases o with
  | done s1 => exact htrans _ _ _ h1 (h2 s1)
  | threw e s1 => exact h1

theorem PresenceMap.Grown.refl_grown (p : PresenceMap) : p.Grown p :=
  ⟨rfl, ⟨[], by simp⟩, fun h => h⟩

theorem PresenceMap.Grown.trans_grown {p q r : PresenceMap} (h1 : p.Grown q) (h2 : q.Grown r) :
    p.Grown r := by
  obtain ⟨c1, ⟨x1, e1⟩, b1⟩ := h1
  obtain ⟨c2, ⟨x2, e2⟩, b2⟩ := h2
  refine ⟨by rw [c2, c1], ⟨x1 ++ x2, by rw [e2, e1, List.append_assoc]⟩, fun h => b2 (b1 h)⟩

theorem PresenceMap.setNextField_grown (p : PresenceMap) (present : Bool) :
    p.Grown (p.setNextField present).state := by
  unfold PresenceMap.setNextField
  by_cases hc : p.bits.length < p.bitCapacity
  · simp only [hc, if_true, Outcome.state]
    refine ⟨rfl, ⟨[present], rfl⟩, fun _ => ?_⟩
    simp only [List.length_append, List.length_singleton]
    omega
  · simp only [hc, if_false, Outcome.state]
    exact PresenceMap.Grown.refl_grown p

theorem Outcome.mapState_state {σ τ : Type} (g : σ → τ) (o : Outcome σ) :
    (o.mapState g).state = g o.state := by
  cases o <;> rfl

theorem applyOperator_pmap (operator : A → Dictionary → Except Exception FieldOutput)
    (accessor : A) (s : SegmentState) :
    s.pmap.Grown (applyOperator operator accessor s).state.pmap := by
  unfold applyOperator
  cases operator accessor s.context.dictionary with
  | error e => exact PresenceMap.Grown.refl_grown _
  | ok out =>
    refine Outcome.andThen_state_rel (r := fun (a b : SegmentState) => a.pmap.Grown b.pmap)
      (fun a b c h1 h2 => h1.trans_grown h2) ?_ (fun s1 => PresenceMap.Grown.refl_grown _)
    refine Outcome.andThen_state_rel (r := fun (a b : SegmentState) => a.pmap.Grown b.pmap)
      (fun a b c h1 h2 => h1.trans_grown h2) ?_ ?_
    · cases out.pmapBit with
      | none => exact PresenceMap.Grown.refl_grown _
      | some b =>
        simp only [SegmentState.setNextField, Outcome.mapState_state]
        exact PresenceMap.setNextField_grown _ _
    · intro s1
      simp only [SegmentState.write, Outcome.mapState_state]
      exact PresenceMap.Grown.refl_grown _

theorem FieldInstruction.encode_pmap (i : FieldInstruction A) (accessor : A) (s : SegmentState) :
    s.pmap.Grown (i.encode accessor s).state.pmap := by
  cases i with
  | field identity operator =>
    rw [FieldInstruction.encode]
    exact applyOperator_pmap operator accessor s
  | group identity nested body =>
    rw [FieldInstruction.encode, Outcome.mapState_state]
    exact PresenceMap.Grown.refl_grown _
  | sequence identity lengthOperator entries body =>
    rw [FieldInstruction.encode]
    refine Outcome.andThen_state_rel (r := fun (a b : SegmentState) => a.pmap.Grown b.pmap)
      (fun a b c h1 h2 => h1.trans_grown h2) (applyOperator_pmap lengthOperator accessor s) ?_
    intro s1
    rw [Outcome.mapState_state]
    exact PresenceMap.Grown.refl_grown _

theorem encodeSegmentBody_pmap (l : List (FieldInstruction A)) (accessor : A)
    (s : SegmentState) : s.pmap.Grown (encodeSegmentBody l accessor s).state.pmap := by
  induction l generalizing s with
  | nil => exact PresenceMap.Grown.refl_grown _
  | cons i rest ih =>
    rw [encodeSegmentBody]
    refine Outcome.andThen_state_rel (r := fun (a b : SegmentState) => a.pmap.Grown b.pmap)
      (fun a b c h1 h2 => h1.trans_grown h2) ?_ (fun s2 => ih s2)
    refine Outcome.andThen_state_rel (r := fun (a b : SegmentState) => a.pmap.Grown b.pmap)
      (fun a b c h1 h2 => h1.trans_grown h2) ?_ (fun s1 => PresenceMap.Grown.refl_grown _)
    exact FieldInstruction.encode_pmap i accessor _

/-! ## Message segments -/

theorem encodeTemplateId_done (templateId : template_id_t) (d : DataDestination)
    (c1 : Context) (cap : Nat) (hcap : 0 < cap) :
    encodeTemplateId templateId
        { destination := d.startBuffer.2.startBuffer.2, pmap := PresenceMap.new cap,
          context := c1 }
      = .done
        { destination :=
            { d with
              buffers := d.buffers ++
                [[], if some templateId = c1.templateId_ then [] else stopBitUnsigned templateId]
              active := d.buffers.length + 1 }
          pmap := { bitCapacity := cap, bits := [!decide (some templateId = c1.templateId_)] }
          context := { c1 with templateId_ := some templateId } } := by
  have hset : ∀ b : Bool, (PresenceMap.new cap).setNextField b
      = .done { bitCapacity := cap, bits := [b] } := by
    intro b
    simp [PresenceMap.setNextField, PresenceMap.new, hcap]
  have hbuf : d.startBuffer.2.startBuffer.2
      = { d with buffers := d.buffers ++ [[], []], active := d.buffers.length + 1 } := by
    simp [DataDestination.startBuffer]
  rw [hbuf]
  by_cases hcopy : some templateId = c1.templateId_
  · have hctx : ({ c1 with templateId_ := some templateId } : Context) = c1 := by
      cases c1 with
      | mk tid dict =>
        simp only at hcopy
        rw [hcopy]
    rw [hctx]
    simp only [encodeTemplateId, hcopy, if_true, SegmentState.setNextField, hset,
      Outcome.mapState, decide_True, Bool.not_true]
  · have hw : ({ d with buffers := d.buffers ++ [[], []], active := d.buffers.length + 1 }
          : DataDestination).write (stopBitUnsigned templateId)
        = .done { d with
            buffers := d.buffers ++ [[], stopBitUnsigned templateId]
            active := d.buffers.length + 1 } := by
      rw [write_of_lt]
      · have e1 : d.buffers ++ [[], []] = (d.buffers ++ [[]]) ++ [] :: [] := by simp
        have e2 : d.buffers.length + 1 = (d.buffers ++ [[]]).length := by simp
        simp only
        rw [e1, e2, appendAt_length_append]
        simp
      · simp
    simp only [encodeTemplateId, hcopy, if_false, SegmentState.setNextField, hset,
      Outcome.mapState, Outcome.andThen, encodeUnsignedInteger, hw, decide_False,
      Bool.not_false]

theorem encodeTemplateId_open (template : Template A) (templateId : template_id_t)
    (s : EncoderState) (hcap : 0 < template.presenceMapBitCount) :
    encodeTemplateId templateId (openSegment template s).2 = .done
      { destination :=
          { s.destination with
            buffers := s.destination.buffers ++ [[], templateIdBytes template templateId s.context]
            active := s.destination.buffers.length + 1 }
        pmap := { bitCapacity := template.presenceMapBitCount
                  bits := [!templateIdCopied template templateId s.context] }
        context := { segmentContext template s.context with templateId_ := some templateId } } := by
  have h := encodeTemplateId_done templateId s.destination (segmentContext template s.context)
    template.presenceMapBitCount hcap
  have ho : (openSegment template s).2
      = { destination := s.destination.startBuffer.2.startBuffer.2
          pmap := PresenceMap.new template.presenceMapBitCount
          context := segmentContext template s.context } := rfl
  rw [ho, h]
  have hb : templateIdBytes template templateId s.context
      = if some templateId = (segmentContext template s.context).templateId_ then []
        else stopBitUnsigned templateId := by
    by_cases hc : some templateId = (segmentContext template s.context).templateId_
    · simp [templateIdBytes, templateIdCopied, hc]
    · simp [templateIdBytes, templateIdCopied, hc]
  rw [hb]
  rfl

theorem encodeTemplateId_full (template : Template A) (templateId : template_id_t)
    (s : EncoderState) (hcap : ¬ 0 < template.presenceMapBitCount) :
    encodeTemplateId templateId (openSegment template s).2
      = .threw .TemplateInvariantViolated (openSegment template s).2 := by
  have hset : ∀ b : Bool, (PresenceMap.new template.presenceMapBitCount).setNextField b
      = .threw .TemplateInvariantViolated (PresenceMap.new template.presenceMapBitCount) := by
    intro b
    simp only [PresenceMap.setNextField, PresenceMap.new, List.length_nil, hcap, if_false]
  by_cases hcopy : some templateId = (openSegment template s).2.context.templateId_
  · simp only [encodeTemplateId, hcopy, if_true, SegmentState.setNextField]
    have : (openSegment template s).2.pmap = PresenceMap.new template.presenceMapBitCount := rfl
    rw [this, hset]
    rfl
  · simp only [encodeTemplateId, hcopy, if_false, SegmentState.setNextField]
    have : (openSegment template s).2.pmap = PresenceMap.new template.presenceMapBitCount := rfl
    rw [this, hset]
    rfl

/-- The encoder of a message segment agrees with the reference encoder, from
any destination and any context. -/
theorem encodeSegment_agrees (registry : TemplateRegistry A) (templateId : template_id_t)
    (accessor : A) (s : EncoderState) (template : Template A)
    (hfound : registry.getTemplate templateId = some template) :
    SegmentAgrees s (templateIdBytes template templateId s.context)
      (encodeSegment registry templateId accessor s)
      (wireSegment template templateId accessor s.context) := by
  unfold encodeSegment wireSegment
  rw [hfound]
  by_cases hcap : 0 < template.presenceMapBitCount
  · simp only [hcap, if_true, encodeTemplateId_open template templateId s hcap,
      Outcome.andThen]
    have hm : Matches
        { s.destination with
          buffers := s.destination.buffers ++ [[], templateIdBytes template templateId s.context]
          active := s.destination.buffers.length + 1 }
        { destination :=
            { s.destination with
              buffers := s.destination.buffers ++
                [[], templateIdBytes template templateId s.context]
              active := s.destination.buffers.length + 1 }
          pmap := { bitCapacity := template.presenceMapBitCount
                    bits := [!templateIdCopied template templateId s.context] }
          context := { segmentContext template s.context with templateId_ := some templateId } }
        (wireSegmentStart template templateId s.context) :=
      { pmap_eq := rfl, context_eq := rfl
        ext := Extends.refl_ext _ (by simp [DataDestination.currentIsLast]) }
    have hag := encoder_agrees.2.2 template.segmentBody.instructions accessor _ _ _ hm
    revert hag
    cases encodeSegmentBody template.segmentBody.instructions accessor _ with
    | threw e s2 =>
      cases wireBody template.segmentBody.instructions accessor
          (wireSegmentStart template templateId s.context) with
      | done w => intro hag; exact absurd hag (by simp [Agree])
      | threw e1 w =>
        intro hag
        obtain ⟨he, hg⟩ := hag
        exact ⟨he, hg.context_eq, hg.ext.delivered_eq⟩
    | done s2 =>
      cases wireBody template.segmentBody.instructions accessor
          (wireSegmentStart template templateId s.context) with
      | threw e1 w => intro hag; exact absurd hag (by simp [Agree])
      | done w =>
        intro hag
        have hg : Matches _ s2 w := hag
        obtain ⟨r, hsplit, hflat, hrun⟩ :=
          patch_after_body s.destination.buffers []
            (templateIdBytes template templateId s.context) (by simp) hg.ext
            pmapIdentityMessage s2.pmap
        have hcur : s2.destination.buffers.length = s2.destination.active + 1 := hg.ext.current
        have hhead : (openSegment template s).1 = s.destination.buffers.length := rfl
        simp only [closeSegment, hhead, DataDestination.getBuffer, hrun, Outcome.mapState,
          SegmentAgrees]
        refine ⟨hg.context_eq, ?_, hg.ext.delivered_eq, r, ?_, hflat⟩
        · show (s.destination.buffers ++ ([] ++ s2.pmap.encodedBytes) :: r).length
            = s2.destination.active + 1
          rw [← hcur, hsplit]
          simp
        · rw [hg.pmap_eq]
          simp
  · simp only [hcap, if_false, encodeTemplateId_full template templateId s hcap,
      Outcome.andThen, SegmentAgrees]
    exact ⟨trivial, rfl, rfl⟩

/-! ## What the body of a segment keeps -/

theorem DataDestination.Kept.refl_kept (d : DataDestination) : d.Kept d :=
  ⟨⟨Nat.le_refl _, fun h => h⟩, rfl⟩

theorem DataDestination.Kept.trans_kept {a b c : DataDestination} (h1 : a.Kept b)
    (h2 : b.Kept c) : a.Kept c :=
  ⟨⟨Nat.le_trans h1.1.1 h2.1.1, fun h => h2.1.2 (h1.1.2 h)⟩, by rw [h2.2, h1.2]⟩

theorem DataDestination.kept_of_eq {d e : DataDestination} (hb : e.buffers = d.buffers)
    (ha : e.active = d.active) (hd : e.delivered = d.delivered) : d.Kept e :=
  ⟨⟨by rw [hb], fun h => by
      have h1 : d.active < d.buffers.length := h
      show e.active < e.buffers.length
      rw [hb, ha]; exact h1⟩, hd⟩

theorem DataDestination.startBuffer_kept (d : DataDestination) : d.Kept d.startBuffer.2 :=
  ⟨⟨by simp [DataDestination.startBuffer], fun _ => by
      simp [DataDestination.startBuffer, DataDestination.hasCurrent]⟩, rfl⟩

theorem DataDestination.selectBuffer_kept (d : DataDestination) (h : BufferHandle) :
    d.Kept (d.selectBuffer h).state := by
  unfold DataDestination.selectBuffer
  by_cases hh : h < d.buffers.length
  · simp only [hh, if_true, Outcome.state]
    exact ⟨⟨Nat.le_refl _, fun _ => hh⟩, rfl⟩
  · simp only [hh, if_false, Outcome.state]
    exact DataDestination.Kept.refl_kept d

theorem DataDestination.putByte_kept (d : DataDestination) (byte : uchar) :
    d.Kept (d.putByte byte).state := by
  unfold DataDestination.putByte
  by_cases hh : d.active < d.buffers.length
  · simp only [hh, if_true, Outcome.state]
    refine ⟨⟨by simp [length_appendAt], fun _ => ?_⟩, rfl⟩
    show d.active < (appendAt d.buffers d.active [byte]).length
    rw [length_appendAt]
    exact hh
  · simp only [hh, if_false, Outcome.state]
    exact DataDestination.Kept.refl_kept d

theorem DataDestination.write_kept (d : DataDestination) (bytes : List uchar) :
    d.Kept (d.write bytes).state := by
  induction bytes generalizing d with
  | nil => exact DataDestination.Kept.refl_kept d
  | cons b rest ih =>
    rw [DataDestination.write]
    exact Outcome.andThen_state_rel (r := DataDestination.Kept)
      (fun a b c h1 h2 => h1.trans_kept h2) (DataDestination.putByte_kept d b) (fun d1 => ih d1)

theorem writePresenceMap_kept (pmapBuffer : BufferHandle) (pmapIdentity : FieldIdentity)
    (pmap : PresenceMap) (d : DataDestination) :
    d.Kept (writePresenceMap pmapBuffer pmapIdentity pmap d).state := by
  unfold writePresenceMap
  refine Outcome.andThen_state_rel (r := DataDestination.Kept)
    (fun a b c h1 h2 => h1.trans_kept h2) (DataDestination.selectBuffer_kept d pmapBuffer) ?_
  intro d1
  refine Outcome.andThen_state_rel (r := DataDestination.Kept)
    (fun a b c h1 h2 => h1.trans_kept h2) ?_ ?_
  · exact (DataDestination.kept_of_eq (d := d1) (e := d1.startField pmapIdentity)
      rfl rfl rfl).trans_kept (DataDestination.write_kept _ _)
  · intro d2
    exact DataDestination.kept_of_eq rfl rfl rfl

theorem EncoderState.Frame.refl_frame (a : EncoderState) : a.Frame a :=
  ⟨rfl, DataDestination.Kept.refl_kept _⟩

theorem EncoderState.Frame.trans_frame {a b c : EncoderState} (h1 : a.Frame b)
    (h2 : b.Frame c) : a.Frame c :=
  ⟨by rw [h2.1, h1.1], h1.2.trans_kept h2.2⟩

theorem applyOperator_frame (operator : A → Dictionary → Except Exception FieldOutput)
    (accessor : A) (s : SegmentState) :
    s.toEncoderState.Frame (applyOperator operator accessor s).state.toEncoderState := by
  unfold applyOperator
  cases operator accessor s.context.dictionary with
  | error e => exact EncoderState.Frame.refl_frame _
  | ok out =>
    refine Outcome.andThen_state_rel
      (r := fun (a b : SegmentState) => a.toEncoderState.Frame b.toEncoderState)
      (fun a b c h1 h2 => h1.trans_frame h2) ?_ ?_
    · refine Outcome.andThen_state_rel
        (r := fun (a b : SegmentState) => a.toEncoderState.Frame b.toEncoderState)
        (fun a b c h1 h2 => h1.trans_frame h2) ?_ ?_
      · cases out.pmapBit with
        | none => exact EncoderState.Frame.refl_frame _
        | some b =>
          simp only [SegmentState.setNextField, Outcome.mapState_state]
          exact EncoderState.Frame.refl_frame _
      · intro s1
        simp only [SegmentState.write, Outcome.mapState_state]
        exact ⟨rfl, DataDestination.write_kept _ _⟩
    · intro s2
      exact ⟨rfl, DataDestination.Kept.refl_kept _⟩

theorem forEachEntry_frame (encodeEntry : A → EncoderState → Outcome EncoderState)
    (h : ∀ (entry : A) (t : EncoderState), t.Frame (encodeEntry entry t).state)
    (entries : List A)
    (s : EncoderState) : s.Frame (forEachEntry encodeEntry entries s).state := by
  induction entries generalizing s with
  | nil => exact EncoderState.Frame.refl_frame s
  | cons e rest ih =>
    rw [forEachEntry]
    exact Outcome.andThen_state_rel (r := EncoderState.Frame)
      (fun a b c h1 h2 => h1.trans_frame h2) (h e s) (fun t => ih t)

theorem encodeGroup_frame (presenceMapBits : Nat) (instructions : List (FieldInstruction A))
    (ih : ∀ (accessor : A) (s : SegmentState),
      s.toEncoderState.Frame (encodeSegmentBody instructions accessor s).state.toEncoderState)
    (accessor : A) (s : EncoderState) :
    s.Frame (encodeGroup (.mk presenceMapBits instructions) accessor s).state := by
  rw [encodeGroup]
  have h1 : s.Frame
      { destination :=
          if presenceMapBits > 0 then s.destination.startBuffer.2 else s.destination
        context := s.context } := by
    by_cases hn : presenceMapBits > 0
    · simp only [hn, if_true]
      exact ⟨rfl, DataDestination.startBuffer_kept _⟩
    · simp only [hn, if_false]
      exact EncoderState.Frame.refl_frame s
  have hb := ih accessor
    { destination := if presenceMapBits > 0 then s.destination.startBuffer.2 else s.destination
      pmap := PresenceMap.new presenceMapBits
      context := s.context }
  revert hb
  cases encodeSegmentBody instructions accessor _ with
  | threw e s1 =>
    intro hb
    exact h1.trans_frame hb
  | done s1 =>
    intro hb
    have h2 : s.Frame s1.toEncoderState := h1.trans_frame hb
    simp only [Outcome.mapState_state]
    have hk : s1.destination.Kept
        ((if presenceMapBits > 0 then
            writePresenceMap s.destination.getBuffer pmapIdentityGroup s1.pmap s1.destination
          else Outcome.done s1.destination).andThen
            (fun d2 => d2.selectBuffer s1.destination.getBuffer)).state := by
      refine Outcome.andThen_state_rel (r := DataDestination.Kept)
        (fun a b c h1 h2 => h1.trans_kept h2) ?_
        (fun d2 => DataDestination.selectBuffer_kept d2 _)
      by_cases hn : presenceMapBits > 0
      · simp only [hn, if_true]
        exact writePresenceMap_kept _ _ _ _
      · simp only [hn, if_false]
        exact DataDestination.Kept.refl_kept _
    exact ⟨h2.1, h2.2.trans_kept hk⟩

/-- The body of a segment, an instruction and a nested segment never change the
remembered template id, never remove a buffer, keep a current buffer if there
was one, and hand nothing to the consumer, whether they return or throw. -/
theorem encoder_frame :
    (∀ (i : FieldInstruction A) (accessor : A) (s : SegmentState),
        s.toEncoderState.Frame (i.encode accessor s).state.toEncoderState) ∧
    (∀ (body : SegmentBody A) (accessor : A) (s : EncoderState),
        s.Frame (encodeGroup body accessor s).state) ∧
    (∀ (l : List (FieldInstruction A)) (accessor : A) (s : SegmentState),
        s.toEncoderState.Frame (encodeSegmentBody l accessor s).state.toEncoderState) := by
  apply instruction_induction
  · intro identity operator accessor s
    rw [FieldInstruction.encode]
    exact applyOperator_frame operator accessor s
  · intro identity nested body hbody accessor s
    rw [FieldInstruction.encode, Outcome.mapState_state, SegmentState.toEncoderState_resume]
    exact hbody (nested accessor) s.toEncoderState
  · intro identity lengthOperator entries body hbody accessor s
    rw [FieldInstruction.encode]
    refine Outcome.andThen_state_rel
      (r := fun (a b : SegmentState) => a.toEncoderState.Frame b.toEncoderState)
      (fun a b c h1 h2 => h1.trans_frame h2) (applyOperator_frame lengthOperator accessor s) ?_
    intro s1
    rw [Outcome.mapState_state, SegmentState.toEncoderState_resume]
    exact forEachEntry_frame _ (fun entry t => hbody entry t) _ _
  · intro n l hl accessor s
    exact encodeGroup_frame n l hl accessor s
  · intro accessor s
    rw [encodeSegmentBody]
    exact EncoderState.Frame.refl_frame _
  · intro i l hi hl accessor s
    rw [encodeSegmentBody]
    refine Outcome.andThen_state_rel
      (r := fun (a b : SegmentState) => a.toEncoderState.Frame b.toEncoderState)
      (fun a b c h1 h2 => h1.trans_frame h2) ?_ (fun s2 => hl accessor s2)
    refine Outcome.andThen_state_rel
      (r := fun (a b : SegmentState) => a.toEncoderState.Frame b.toEncoderState)
      (fun a b c h1 h2 => h1.trans_frame h2) ?_
      (fun s1 => ⟨rfl, DataDestination.kept_of_eq rfl rfl rfl⟩)
    exact EncoderState.Frame.trans_frame (⟨rfl, DataDestination.kept_of_eq rfl rfl rfl⟩)
      (hi accessor _)

/-! ## Messages against the reference encoder -/

theorem encodeMessage_of_wire_done (registry : TemplateRegistry A) (templateId : template_id_t)
    (accessor : A) (s : EncoderState) (template : Template A) (w : WireState)
    (hfound : registry.getTemplate templateId = some template)
    (hw : wireSegment template templateId accessor s.context = .done w) :
    ∃ s1 r, encodeMessage registry templateId accessor s = .done s1 ∧
      s1.context = w.context ∧
      s1.destination.buffers = s.destination.buffers ++ w.pmap.encodedBytes :: r ∧
      r.flatten = templateIdBytes template templateId s.context ++ w.wire ∧
      s1.destination.currentIsLast ∧
      s1.destination.delivered = s.destination.delivered ++ [s1.destination.stream] := by
  have hag := encodeSegment_agrees registry templateId accessor
    { s with destination := s.destination.startMessage templateId } template hfound
  unfold encodeMessage
  revert hag
  cases encodeSegment registry templateId accessor
      { s with destination := s.destination.startMessage templateId } with
  | threw e t => intro hag; rw [hw] at hag; exact absurd hag (by simp [SegmentAgrees])
  | done t =>
    intro hag
    rw [hw] at hag
    obtain ⟨hc, hcur, hd, r, hb, hr⟩ := hag
    refine ⟨_, r, rfl, hc, hb, hr, hcur, ?_⟩
    show t.destination.delivered ++ [t.destination.buffers.flatten] = _
    rw [hd]
    rfl

theorem wire_done_of_encodeMessage (registry : TemplateRegistry A) (templateId : template_id_t)
    (accessor : A) (s s1 : EncoderState) (template : Template A)
    (hfound : registry.getTemplate templateId = some template)
    (hdone : encodeMessage registry templateId accessor s = .done s1) :
    ∃ w r, wireSegment template templateId accessor s.context = .done w ∧
      s1.context = w.context ∧
      s1.destination.buffers = s.destination.buffers ++ w.pmap.encodedBytes :: r ∧
      r.flatten = templateIdBytes template templateId s.context ++ w.wire ∧
      s1.destination.currentIsLast ∧
      s1.destination.delivered = s.destination.delivered ++ [s1.destination.stream] := by
  have hag := encodeSegment_agrees registry templateId accessor
    { s with destination := s.destination.startMessage templateId } template hfound
  unfold encodeMessage at hdone
  revert hag hdone
  cases encodeSegment registry templateId accessor
      { s with destination := s.destination.startMessage templateId } with
  | threw e t => intro hdone hag; exact absurd hdone (by simp [Outcome.andThen])
  | done t =>
    intro hdone hag
    simp only [Outcome.andThen, Outcome.done.injEq] at hdone
    revert hag
    cases hws : wireSegment template templateId accessor s.context with
    | threw e w => intro hag; exact absurd hag (by simp [SegmentAgrees])
    | done w =>
      intro hag
      obtain ⟨hc, hcur, hd, r, hb, hr⟩ := hag
      subst hdone
      refine ⟨w, r, rfl, hc, hb, hr, hcur, ?_⟩
      show t.destination.delivered ++ [t.destination.buffers.flatten] = _
      rw [hd]
      rfl

/-- The reference encoder of a body keeps the bits already in the presence map
and the remembered template id. -/
theorem wireBody_frame (l : List (FieldInstruction A)) (accessor : A) (w0 : WireState) :
    w0.pmap.Grown (wireBody l accessor w0).state.pmap ∧
      (wireBody l accessor w0).state.context.templateId_ = w0.context.templateId_ := by
  have hm : Matches { buffers := [[]], active := 0, events := [], delivered := [] }
      { destination := { buffers := [w0.wire], active := 0, events := [], delivered := [] }
        pmap := w0.pmap, context := w0.context } w0 :=
    { pmap_eq := rfl, context_eq := rfl
      ext := { length_le := Nat.le_refl _, take_eq := rfl
               stream_eq := by simp [DataDestination.stream]
               current := rfl, delivered_eq := rfl } }
  have hag := encoder_agrees.2.2 l accessor _ _ _ hm
  have hg := encodeSegmentBody_pmap l accessor
    { destination := { buffers := [w0.wire], active := 0, events := [], delivered := [] }
      pmap := w0.pmap, context := w0.context }
  have hf := (encoder_frame.2.2 l accessor
    { destination := { buffers := [w0.wire], active := 0, events := [], delivered := [] }
      pmap := w0.pmap, context := w0.context }).1
  revert hag hg hf
  cases encodeSegmentBody l accessor _ with
  | threw e s1 =>
    cases wireBody l accessor w0 with
    | done w => intro hag; exact absurd hag (by simp [Agree])
    | threw e1 w =>
      intro hag hg hf
      obtain ⟨_, hmw⟩ := hag
      simp only [Outcome.state, SegmentState.toEncoderState] at hg hf ⊢
      rw [← hmw.pmap_eq, ← hmw.context_eq]
      exact ⟨hg, hf⟩
  | done s1 =>
    cases wireBody l accessor w0 with
    | threw e1 w => intro hag; exact absurd hag (by simp [Agree])
    | done w =>
      intro hag hg hf
      have hmw : Matches _ s1 w := hag
      simp only [Outcome.state, SegmentState.toEncoderState] at hg hf ⊢
      rw [← hmw.pmap_eq, ← hmw.context_eq]
      exact ⟨hg, hf⟩

theorem wireSegment_done (template : Template A) (templateId : template_id_t) (accessor : A)
    (c : Context) (w : WireState) (hw : wireSegment template templateId accessor c = .done w) :
    0 < template.presenceMapBitCount ∧
      wireBody template.segmentBody.instructions accessor
        (wireSegmentStart template templateId c) = .done w := by
  unfold wireSegment at hw
  by_cases hcap : 0 < template.presenceMapBitCount
  · simp only [hcap, if_true] at hw
    exact ⟨hcap, hw⟩
  · simp only [hcap, if_false] at hw
    exact absurd hw (by simp)

theorem wireSegment_reset (template : Template A) (templateId : template_id_t) (accessor : A)
    (c c1 : Context) (hreset : template.reset = true) :
    wireSegment template templateId accessor c = wireSegment template templateId accessor c1 ∧
      templateIdBytes template templateId c = stopBitUnsigned templateId := by
  have hc : ∀ c2 : Context, segmentContext template c2 = Context.fresh := by
    intro c2
    simp [segmentContext, Template.getReset, hreset, Context.reset, Context.fresh]
  constructor
  · simp only [wireSegment, wireSegmentStart, templateIdCopied, hc]
  · simp [templateIdBytes, templateIdCopied, hc, Context.fresh]

theorem write_of_currentIsLast (d : DataDestination) (bytes : List uchar)
    (h : d.currentIsLast) :
    ∃ e, d.write bytes = .done e ∧ e.stream = d.stream ++ bytes ∧ e.currentIsLast := by
  have hc : d.buffers.length = d.active + 1 := h
  have hlt : d.active < d.buffers.length := by
    rw [hc]; exact Nat.lt_succ_self _
  refine ⟨_, write_of_lt d bytes hlt, ?_, ?_⟩
  · exact (Extends.written d bytes h).stream_eq
  · exact (Extends.written d bytes h).current

/-! ## The template-id copy bit -/

/-- C1 (as amended): for a template found in the registry that declares at
least one presence-map bit, from every state, `encodeSegment` reaches the body
having appended exactly one bit to the empty presence map of the segment: the
bit is `false` and the body buffer is empty when the id equals the remembered
one (after the optional reset), and otherwise the bit is `true` and the body
buffer holds the stop-bit bytes of the id; in both cases the id is remembered,
the rest of the call is the body followed by the back-patching, and whatever
the body does, this bit stays the first bit of the presence map. -/
theorem encodeSegment_templateId_bit (registry : TemplateRegistry A)
    (templateId : template_id_t) (accessor : A) (s : EncoderState) (template : Template A)
    (hfound : registry.getTemplate templateId = some template)
    (hcap : 0 < template.presenceMapBitCount) :
    ∃ s1 : SegmentState,
      encodeTemplateId templateId (openSegment template s).2 = .done s1 ∧
      encodeSegment registry templateId accessor s
        = (match encodeSegmentBody template.segmentBody.instructions accessor s1 with
           | .threw e s2 => .threw e s2.toEncoderState
           | .done s2 => closeSegment s.destination.buffers.length s2) ∧
      s1.pmap.bits = [!decide (some templateId = (segmentContext template s.context).templateId_)] ∧
      s1.pmap.bitCapacity = template.presenceMapBitCount ∧
      s1.destination.buffers = s.destination.buffers ++
        [[], if some templateId = (segmentContext template s.context).templateId_ then []
             else stopBitUnsigned templateId] ∧
      s1.destination.active = s.destination.buffers.length + 1 ∧
      s1.destination.events = s.destination.events ∧
      s1.context.templateId_ = some templateId ∧
      s1.context.dictionary = (segmentContext template s.context).dictionary ∧
      (encodeSegmentBody template.segmentBody.instructions accessor s1).state.pmap.bits.head?
        = some (!decide (some templateId = (segmentContext template s.context).templateId_)) := by
  have hopen := encodeTemplateId_done templateId s.destination
    (segmentContext template s.context) template.presenceMapBitCount hcap
  have ho : (openSegment template s).2
      = { destination := s.destination.startBuffer.2.startBuffer.2
          pmap := PresenceMap.new template.presenceMapBitCount
          context := segmentContext template s.context } := rfl
  refine ⟨_, by rw [ho, hopen], ?_, rfl, rfl, rfl, rfl, rfl, rfl, rfl, ?_⟩
  · unfold encodeSegment
    rw [hfound]
    simp only [ho, hopen, Outcome.andThen]
    rfl
  · obtain ⟨_, ⟨extra, hbits⟩, _⟩ := encodeSegmentBody_pmap
      template.segmentBody.instructions accessor
      { destination :=
          { s.destination with
            buffers := s.destination.buffers ++
              [[], if some templateId = (segmentContext template s.context).templateId_ then []
                   else stopBitUnsigned templateId]
            active := s.destination.buffers.length + 1 }
        pmap := { bitCapacity := template.presenceMapBitCount
                  bits := [!decide (some templateId
                    = (segmentContext template s.context).templateId_)] }
        context := { segmentContext template s.context with templateId_ := some templateId } }
    rw [hbits]
    rfl

/-- C1, witness: template 8 (three declared bits) in a destination in use and
a fresh context. -/
theorem encodeSegment_templateId_bit_witness :
    scenarioRegistry.getTemplate 8 = some (groupTemplate false) ∧
    0 < (groupTemplate false).presenceMapBitCount ∧
    ∃ s1 : SegmentState,
      encodeTemplateId 8 (openSegment (groupTemplate false) ⟨usedDestination, .fresh⟩).2
        = .done s1 ∧
      encodeSegment scenarioRegistry 8 scenarioAccessor ⟨usedDestination, .fresh⟩
        = (match encodeSegmentBody (groupTemplate false).segmentBody.instructions
              scenarioAccessor s1 with
           | .threw e s2 => .threw e s2.toEncoderState
           | .done s2 => closeSegment usedDestination.buffers.length s2) ∧
      s1.pmap.bits = [!decide (some 8
        = (segmentContext (groupTemplate false) Context.fresh).templateId_)] ∧
      s1.pmap.bitCapacity = (groupTemplate false).presenceMapBitCount ∧
      s1.destination.buffers = usedDestination.buffers ++
        [[], if some 8 = (segmentContext (groupTemplate false) Context.fresh).templateId_
             then [] else stopBitUnsigned 8] ∧
      s1.destination.active = usedDestination.buffers.length + 1 ∧
      s1.destination.events = usedDestination.events ∧
      s1.context.templateId_ = some 8 ∧
      s1.context.dictionary = (segmentContext (groupTemplate false) Context.fresh).dictionary ∧
      (encodeSegmentBody (groupTemplate false).segmentBody.instructions scenarioAccessor
          s1).state.pmap.bits.head?
        = some (!decide (some 8
            = (segmentContext (groupTemplate false) Context.fresh).templateId_)) :=
  ⟨rfl, by decide,
    encodeSegment_templateId_bit scenarioRegistry 8 scenarioAccessor ⟨usedDestination, .fresh⟩
      (groupTemplate false) rfl (by decide)⟩

/-- C1, counterexample: the registered template 1 declares no presence-map
bit; `encodeSegment` then appends no bit at all: the append of the template-id
bit throws `TemplateInvariantViolated`, after the two buffers were started, and
the presence map is still empty. -/
theorem encodeSegment_templateId_bit_counterexample :
    scenarioRegistry.getTemplate 1 = some emptyTemplate ∧
    encodeTemplateId 1 (openSegment emptyTemplate ⟨DataDestination.fresh, Context.fresh⟩).2
      = .threw .TemplateInvariantViolated
          { destination := { buffers := [[], []], active := 1, events := [], delivered := [] }
            pmap := { bitCapacity := 0, bits := [] }
            context := Context.fresh } ∧
    encodeSegment scenarioRegistry 1 scenarioAccessor ⟨DataDestination.fresh, Context.fresh⟩
      = .threw .TemplateInvariantViolated
          { destination := { buffers := [[], []], active := 1, events := [], delivered := [] }
            context := Context.fresh } :=
  ⟨rfl, rfl, rfl⟩

/-! ## Unknown template ids -/

/-- C5: when the registry has no template for the id, `encodeSegment` throws
`EncodingError("[ERR D9] Unknown template ID.")` in the very state in which it
was called: no buffer started, no byte written, no marker, no reset, and the
remembered template id and the dictionaries as before. -/
theorem encodeSegment_unknown_template (registry : TemplateRegistry A)
    (templateId : template_id_t) (accessor : A) (s : EncoderState)
    (habsent : registry.getTemplate templateId = none) :
    encodeSegment registry templateId accessor s
      = .threw (.EncodingError "[ERR D9] Unknown template ID.") s := by
  unfold encodeSegment
  rw [habsent]

/-- C5, witness: id 3 is not registered; the destination is in use and the
context remembers template 8 and a dictionary entry. -/
theorem encodeSegment_unknown_template_witness :
    scenarioRegistry.getTemplate 3 = none ∧
    encodeSegment scenarioRegistry 3 scenarioAccessor
        ⟨usedDestination, { templateId_ := some 8, dictionary := [("price", 1000)] }⟩
      = .threw (.EncodingError "[ERR D9] Unknown template ID.")
          ⟨usedDestination, { templateId_ := some 8, dictionary := [("price", 1000)] }⟩ :=
  ⟨rfl, encodeSegment_unknown_template scenarioRegistry 3 scenarioAccessor _ rfl⟩

/-- C6: for an id absent from the registry `encodeMessage` throws `[ERR D9]`
having told the destination `startMessage(id)` once and nothing else: the
markers received are the former ones followed by that single `startMessage`,
no `endMessage` follows, nothing is handed to the consumer, and buffers and
context are untouched. -/
theorem encodeMessage_unknown_template (registry : TemplateRegistry A)
    (templateId : template_id_t) (accessor : A) (s : EncoderState)
    (habsent : registry.getTemplate templateId = none) :
    encodeMessage registry templateId accessor s
        = .threw (.EncodingError "[ERR D9] Unknown template ID.")
            { s with destination := s.destination.startMessage templateId } ∧
      (encodeMessage registry templateId accessor s).state.destination.events
        = s.destination.events ++ [.startMessage templateId] ∧
      (encodeMessage registry templateId accessor s).state.destination.delivered
        = s.destination.delivered ∧
      (encodeMessage registry templateId accessor s).state.destination.buffers
        = s.destination.buffers ∧
      (encodeMessage registry templateId accessor s).state.context = s.context := by
  have h : encodeMessage registry templateId accessor s
      = .threw (.EncodingError "[ERR D9] Unknown template ID.")
          { s with destination := s.destination.startMessage templateId } := by
    unfold encodeMessage encodeSegment
    rw [habsent]
    rfl
  rw [h]
  exact ⟨rfl, rfl, rfl, rfl, rfl⟩

/-- C6, witness: id 3 is not registered. -/
theorem encodeMessage_unknown_template_witness :
    scenarioRegistry.getTemplate 3 = none ∧
    (encodeMessage scenarioRegistry 3 scenarioAccessor ⟨usedDestination, .fresh⟩
        = .threw (.EncodingError "[ERR D9] Unknown template ID.")
            { destination := usedDestination.startMessage 3, context := .fresh } ∧
      (encodeMessage scenarioRegistry 3 scenarioAccessor
          ⟨usedDestination, .fresh⟩).state.destination.events
        = usedDestination.events ++ [.startMessage 3] ∧
      (encodeMessage scenarioRegistry 3 scenarioAccessor
          ⟨usedDestination, .fresh⟩).state.destination.delivered
        = usedDestination.delivered ∧
      (encodeMessage scenarioRegistry 3 scenarioAccessor
          ⟨usedDestination, .fresh⟩).state.destination.buffers
        = usedDestination.buffers ∧
      (encodeMessage scenarioRegistry 3 scenarioAccessor
          ⟨usedDestination, .fresh⟩).state.context = Context.fresh) :=
  ⟨rfl, encodeMessage_unknown_template scenarioRegistry 3 scenarioAccessor
    ⟨usedDestination, .fresh⟩ rfl⟩

/-! ## Scenario S2: a constant field -/

/-- C10 (as amended): from a fresh context and a fresh destination, a message
of template id 7 whose only instruction is the mandatory `u32` constant 5, from
an accessor that yields 5, is encoded as the presence-map byte `0xC0` (the
template-id bit is set, since the id is sent), then the template-id byte `0x87`,
and no field byte, whatever number of presence-map bits (at least one) and
whatever reset flag the template declares. -/
theorem constant_scenario_output (registry : TemplateRegistry ScenarioAccessor)
    (presenceMapBits : Nat) (reset : Bool) (accessor : ScenarioAccessor)
    (hfound : registry.getTemplate 7 = some (constantTemplate presenceMapBits reset))
    (hbits : 0 < presenceMapBits) (hvalue : accessor.lookup "value" = some 5) :
    encodeMessage registry 7 accessor ⟨DataDestination.fresh, Context.fresh⟩
      = .done
          { destination :=
              { buffers := [[192], [135]]
                active := 1
                events := [.startMessage 7, .startField (plainIdentity "value"),
                  .endField (plainIdentity "value"), .startField pmapIdentityMessage,
                  .endField pmapIdentityMessage, .endMessage]
                delivered := [[192, 135]] }
            context := { templateId_ := some 7, dictionary := [] } } := by
  have hctx : segmentContext (constantTemplate presenceMapBits reset) Context.fresh
      = Context.fresh := by
    cases reset <;> rfl
  have hopen := encodeTemplateId_done 7 (DataDestination.fresh.startMessage 7)
    Context.fresh presenceMapBits hbits
  have ho : (openSegment (constantTemplate presenceMapBits reset)
        ⟨DataDestination.fresh.startMessage 7, Context.fresh⟩).2
      = { destination := (DataDestination.fresh.startMessage 7).startBuffer.2.startBuffer.2
          pmap := PresenceMap.new presenceMapBits
          context := Context.fresh } := by
    simp only [openSegment, hctx, Template.getReset, Template.presenceMapBitCount,
      constantTemplate, SegmentBody.presenceMapBitCount]
    cases reset <;> rfl
  unfold encodeMessage encodeSegment
  simp only [hfound, ho, hopen, Outcome.andThen]
  simp only [constantTemplate, SegmentBody.instructions, encodeSegmentBody,
    FieldInstruction.encode, constantUnsigned, applyOperator, plainIdentity, hvalue,
    if_true, Outcome.andThen, SegmentState.write, DataDestination.write, Outcome.mapState,
    FieldInstruction.getIdentity]
  rfl

/-- C10, witness: the registry and the accessor of the scenarios. -/
theorem constant_scenario_output_witness :
    scenarioRegistry.getTemplate 7 = some (constantTemplate 1 false) ∧ 0 < 1 ∧
    scenarioAccessor.lookup "value" = some 5 ∧
    encodeMessage scenarioRegistry 7 scenarioAccessor ⟨DataDestination.fresh, Context.fresh⟩
      = .done
          { destination :=
              { buffers := [[192], [135]]
                active := 1
                events := [.startMessage 7, .startField (plainIdentity "value"),
                  .endField (plainIdentity "value"), .startField pmapIdentityMessage,
                  .endField pmapIdentityMessage, .endMessage]
                delivered := [[192, 135]] }
            context := { templateId_ := some 7, dictionary := [] } } :=
  ⟨rfl, by decide, rfl,
    constant_scenario_output scenarioRegistry 1 false scenarioAccessor rfl (by decide) rfl⟩

/-- C10, counterexample: the scenario with one declared presence-map bit
produces the bytes `0xC0 0x87`, not `0x80 0x87`: the presence-map byte carries
the template-id bit. -/
theorem constant_scenario_counterexample :
    (encodeMessage scenarioRegistry 7 scenarioAccessor
        ⟨DataDestination.fresh, Context.fresh⟩).state.destination.stream = [192, 135] ∧
    (encodeMessage scenarioRegistry 7 scenarioAccessor
        ⟨DataDestination.fresh, Context.fresh⟩).state.destination.delivered ≠ [[128, 135]] ∧
    (encodeMessage scenarioRegistry 7 scenarioAccessor
        ⟨DataDestination.fresh, Context.fresh⟩).state.destination.stream ≠ [128, 135] := by
  decide

/-! ## The presence map stays within the declared bit count -/

/-- C9: whenever `encodeSegment` succeeds, the presence map it writes into the
header buffer (the template-id bit included) has at most the number of bits the
template declares; whenever `encodeGroup` succeeds, the presence map of the
group has at most the number of bits the group body declares. -/
theorem presenceMap_within_declared_count :
    (∀ (registry : TemplateRegistry A) (templateId : template_id_t) (accessor : A)
        (s t : EncoderState) (template : Template A),
        registry.getTemplate templateId = some template →
        encodeSegment registry templateId accessor s = .done t →
        ∃ s2 : SegmentState,
          (encodeTemplateId templateId (openSegment template s).2).andThen
              (fun s1 => encodeSegmentBody template.segmentBody.instructions accessor s1)
            = .done s2 ∧
          closeSegment (openSegment template s).1 s2 = .done t ∧
          s2.pmap.bitCapacity = template.presenceMapBitCount ∧
          1 ≤ s2.pmap.bits.length ∧
          s2.pmap.bits.length ≤ template.presenceMapBitCount) ∧
    (∀ (presenceMapBits : Nat) (instructions : List (FieldInstruction A)) (accessor : A)
        (s t : EncoderState),
        encodeGroup (.mk presenceMapBits instructions) accessor s = .done t →
        ∃ s2 : SegmentState,
          encodeSegmentBody instructions accessor
              { destination :=
                  if presenceMapBits > 0 then s.destination.startBuffer.2 else s.destination
                pmap := PresenceMap.new presenceMapBits
                context := s.context }
            = .done s2 ∧
          t.context = s2.context ∧
          s2.pmap.bitCapacity = presenceMapBits ∧
          s2.pmap.bits.length ≤ presenceMapBits) := by
  constructor
  · intro registry templateId accessor s t template hfound hdone
    unfold encodeSegment at hdone
    rw [hfound] at hdone
    simp only at hdone
    by_cases hcap : 0 < template.presenceMapBitCount
    · have hopen := encodeTemplateId_open template templateId s hcap
      rw [hopen] at hdone ⊢
      simp only [Outcome.andThen] at hdone ⊢
      have hg := encodeSegmentBody_pmap template.segmentBody.instructions accessor
        { destination :=
            { s.destination with
              buffers := s.destination.buffers ++
                [[], templateIdBytes template templateId s.context]
              active := s.destination.buffers.length + 1 }
          pmap := { bitCapacity := template.presenceMapBitCount
                    bits := [!templateIdCopied template templateId s.context] }
          context := { segmentContext template s.context with templateId_ := some templateId } }
      revert hdone hg
      cases encodeSegmentBody template.segmentBody.instructions accessor _ with
      | threw e s2 => intro hdone; exact absurd hdone (by simp)
      | done s2 =>
        intro hdone hg
        obtain ⟨hc, ⟨extra, hbits⟩, hle⟩ := hg
        simp only [Outcome.state] at hc hbits hle
        refine ⟨s2, rfl, hdone, hc, ?_, ?_⟩
        · rw [hbits]
          simp
        · have := hle (by simpa using hcap)
          rw [hc] at this
          exact this
    · rw [encodeTemplateId_full template templateId s hcap] at hdone
      exact absurd hdone (by simp [Outcome.andThen])
  · intro presenceMapBits instructions accessor s t hdone
    rw [encodeGroup] at hdone
    have hg := encodeSegmentBody_pmap instructions accessor
      { destination :=
          if presenceMapBits > 0 then s.destination.startBuffer.2 else s.destination
        pmap := PresenceMap.new presenceMapBits
        context := s.context }
    revert hdone hg
    cases encodeSegmentBody instructions accessor _ with
    | threw e s2 => intro hdone; exact absurd hdone (by simp)
    | done s2 =>
      intro hdone hg
      obtain ⟨hc, _, hle⟩ := hg
      simp only [Outcome.state] at hc hle
      refine ⟨s2, rfl, ?_, hc, ?_⟩
      · simp only at hdone
        revert hdone
        cases ((if presenceMapBits > 0 then
            writePresenceMap s.destination.getBuffer pmapIdentityGroup s2.pmap s2.destination
          else Outcome.done s2.destination).andThen
            (fun d2 => d2.selectBuffer s2.destination.getBuffer)) with
        | threw e d => intro hdone; exact absurd hdone (by simp [Outcome.mapState])
        | done d =>
          intro hdone
          simp only [Outcome.mapState, Outcome.done.injEq] at hdone
          rw [← hdone]
      · have := hle (by simp [PresenceMap.new])
        rw [hc] at this
        exact this

/-! ## The layout of a message on the wire -/

/-- C2: when `encodeMessage` succeeds for a registered template on a
destination without buffers, the buffers of the destination, concatenated in
creation order, are the encoded presence map of the segment (whose first bit is
the template-id bit), then the stop-bit bytes of the template id exactly when
the id was not copied, then the bytes of the body instructions in instruction
order, a group standing for its presence map (if it has one) followed by its
body; and this is the message handed to the consumer. -/
theorem encodeMessage_stream (registry : TemplateRegistry A) (templateId : template_id_t)
    (accessor : A) (s s1 : EncoderState) (template : Template A)
    (hfound : registry.getTemplate templateId = some template)
    (hempty : s.destination.buffers = [])
    (hdone : encodeMessage registry templateId accessor s = .done s1) :
    ∃ w, wireBody template.segmentBody.instructions accessor
          (wireSegmentStart template templateId s.context) = .done w ∧
      s1.destination.stream
        = w.pmap.encodedBytes ++
          (if some templateId = (segmentContext template s.context).templateId_ then []
           else stopBitUnsigned templateId) ++ w.wire ∧
      (∃ rest, w.pmap.bits
        = (!decide (some templateId = (segmentContext template s.context).templateId_))
            :: rest) ∧
      s1.destination.delivered = s.destination.delivered ++ [s1.destination.stream] := by
  obtain ⟨w, r, hw, _, hb, hr, _, hd⟩ :=
    wire_done_of_encodeMessage registry templateId accessor s s1 template hfound hdone
  obtain ⟨_, hbody⟩ := wireSegment_done template templateId accessor s.context w hw
  have hfr := (wireBody_frame template.segmentBody.instructions accessor
    (wireSegmentStart template templateId s.context)).1
  rw [hbody] at hfr
  obtain ⟨_, ⟨extra, hbits⟩, _⟩ := hfr
  have htid : templateIdBytes template templateId s.context
      = if some templateId = (segmentContext template s.context).templateId_ then []
        else stopBitUnsigned templateId := by
    by_cases hc : some templateId = (segmentContext template s.context).templateId_
    · simp [templateIdBytes, templateIdCopied, hc]
    · simp [templateIdBytes, templateIdCopied, hc]
  refine ⟨w, hbody, ?_, ⟨extra, ?_⟩, hd⟩
  · simp only [DataDestination.stream]
    rw [hb, hempty, ← htid]
    simp [hr]
  · simp only [Outcome.state] at hbits
    rw [hbits]
    rfl

/-- C2, witness: template 8 (a copy field, a group with a presence map, a copy
field) from a fresh destination and a fresh context; the stream is the message
presence map `0xF0`, the template id `0x88`, the price `0x07 0xE8`, the group
presence map `0xC0`, the quantity `0x83`, the size `0x89`. -/
theorem encodeMessage_stream_witness :
    scenarioRegistry.getTemplate 8 = some (groupTemplate false) ∧
    DataDestination.fresh.buffers = [] ∧
    encodeMessage scenarioRegistry 8 scenarioAccessor ⟨.fresh, .fresh⟩
      = .done (encodeMessage scenarioRegistry 8 scenarioAccessor ⟨.fresh, .fresh⟩).state ∧
    (encodeMessage scenarioRegistry 8 scenarioAccessor ⟨.fresh, .fresh⟩).state.destination.stream
      = [240, 136, 7, 232, 192, 131, 137] ∧
    ∃ w, wireBody (groupTemplate false).segmentBody.instructions scenarioAccessor
          (wireSegmentStart (groupTemplate false) 8 Context.fresh) = .done w ∧
      (encodeMessage scenarioRegistry 8 scenarioAccessor
          ⟨.fresh, .fresh⟩).state.destination.stream
        = w.pmap.encodedBytes ++
          (if some 8 = (segmentContext (groupTemplate false) Context.fresh).templateId_ then []
           else stopBitUnsigned 8) ++ w.wire ∧
      (∃ rest, w.pmap.bits
        = (!decide (some 8 = (segmentContext (groupTemplate false) Context.fresh).templateId_))
            :: rest) ∧
      (encodeMessage scenarioRegistry 8 scenarioAccessor
          ⟨.fresh, .fresh⟩).state.destination.delivered
        = DataDestination.fresh.delivered ++
          [(encodeMessage scenarioRegistry 8 scenarioAccessor
            ⟨.fresh, .fresh⟩).state.destination.stream] :=
  ⟨rfl, rfl, by decide!, by decide!,
    encodeMessage_stream scenarioRegistry 8 scenarioAccessor ⟨.fresh, .fresh⟩ _
      (groupTemplate false) rfl rfl (by decide!)⟩

/-! ## Template-id elision and reset -/

/-- C3 (as amended): for a registered template without the reset flag, when two
successive messages with the same template id are encoded successfully (the
second one into any destination), the first message carries the stop-bit bytes
of the id, with first presence-map bit 1, exactly when the id differs from the
one remembered before it, and the second message carries no template-id bytes
and its first presence-map bit is 0: its buffers are its presence map, which
starts with the bit `false`, followed by its body alone. -/
theorem templateId_elision (registry : TemplateRegistry A) (templateId : template_id_t)
    (accessor1 accessor2 : A) (s s1 s2 : EncoderState) (d : DataDestination)
    (template : Template A)
    (hfound : registry.getTemplate templateId = some template)
    (hreset : template.reset = false)
    (hfirst : encodeMessage registry templateId accessor1 s = .done s1)
    (hsecond : encodeMessage registry templateId accessor2
      { destination := d, context := s1.context } = .done s2) :
    ∃ w1 w2 r1 r2,
      wireBody template.segmentBody.instructions accessor1
          (wireSegmentStart template templateId s.context) = .done w1 ∧
      s1.destination.buffers = s.destination.buffers ++ w1.pmap.encodedBytes :: r1 ∧
      r1.flatten
        = (if some templateId = s.context.templateId_ then []
           else stopBitUnsigned templateId) ++ w1.wire ∧
      (∃ rest, w1.pmap.bits = (!decide (some templateId = s.context.templateId_)) :: rest) ∧
      s1.context.templateId_ = some templateId ∧
      wireBody template.segmentBody.instructions accessor2
          { pmap := { bitCapacity := template.presenceMapBitCount, bits := [false] }
            context := s1.context, wire := [] } = .done w2 ∧
      s2.destination.buffers = d.buffers ++ w2.pmap.encodedBytes :: r2 ∧
      r2.flatten = w2.wire ∧
      (∃ rest, w2.pmap.bits = false :: rest) := by
  have hsc : ∀ c : Context, segmentContext template c = c := by
    intro c
    simp [segmentContext, Template.getReset, hreset]
  obtain ⟨w1, r1, hw1, hc1, hb1, hr1, _, _⟩ :=
    wire_done_of_encodeMessage registry templateId accessor1 s s1 template hfound hfirst
  obtain ⟨_, hbody1⟩ := wireSegment_done template templateId accessor1 s.context w1 hw1
  have hf1 := wireBody_frame template.segmentBody.instructions accessor1
    (wireSegmentStart template templateId s.context)
  rw [hbody1] at hf1
  obtain ⟨⟨_, ⟨extra1, hbits1⟩, _⟩, htid1⟩ := hf1
  simp only [Outcome.state] at hbits1 htid1
  have hremember : s1.context.templateId_ = some templateId := by
    rw [hc1, htid1]
    rfl
  have hcopied : templateIdCopied template templateId s1.context = true := by
    simp [templateIdCopied, hsc, hremember]
  have hstart : wireSegmentStart template templateId s1.context
      = { pmap := { bitCapacity := template.presenceMapBitCount, bits := [false] }
          context := s1.context, wire := [] } := by
    simp only [wireSegmentStart, hcopied, hsc, Bool.not_true]
    rw [← hremember]
  obtain ⟨w2, r2, hw2, _, hb2, hr2, _, _⟩ :=
    wire_done_of_encodeMessage registry templateId accessor2
      { destination := d, context := s1.context } s2 template hfound hsecond
  obtain ⟨_, hbody2⟩ := wireSegment_done template templateId accessor2 s1.context w2 hw2
  rw [hstart] at hbody2
  have hf2 := (wireBody_frame template.segmentBody.instructions accessor2
    { pmap := { bitCapacity := template.presenceMapBitCount, bits := [false] }
      context := s1.context, wire := [] }).1
  rw [hbody2] at hf2
  obtain ⟨_, ⟨extra2, hbits2⟩, _⟩ := hf2
  simp only [Outcome.state] at hbits2
  have htb1 : templateIdBytes template templateId s.context
      = if some templateId = s.context.templateId_ then [] else stopBitUnsigned templateId := by
    by_cases hc : some templateId = s.context.templateId_
    · simp [templateIdBytes, templateIdCopied, hsc, hc]
    · simp [templateIdBytes, templateIdCopied, hsc, hc]
  refine ⟨w1, w2, r1, r2, hbody1, hb1, ?_, ⟨extra1, ?_⟩, hremember, hbody2, hb2, ?_,
    ⟨extra2, ?_⟩⟩
  · rw [hr1, htb1]
  · rw [hbits1]
    simp [wireSegmentStart, templateIdCopied, hsc]
  · rw [hr2]
    simp [templateIdBytes, hcopied]
  · rw [hbits2]
    rfl

/-- C3, witness: template 8 twice, the second message from another accessor
into the same destination. -/
theorem templateId_elision_witness :
    scenarioRegistry.getTemplate 8 = some (groupTemplate false) ∧
    (groupTemplate false).reset = false ∧
    encodeMessage scenarioRegistry 8 scenarioAccessor ⟨usedDestination, .fresh⟩
      = .done (firstEncoded 8) ∧
    encodeMessage scenarioRegistry 8 secondAccessor
        { destination := (firstEncoded 8).destination, context := (firstEncoded 8).context }
      = .done (encodeMessage scenarioRegistry 8 secondAccessor (firstEncoded 8)).state ∧
    (encodeMessage scenarioRegistry 8 secondAccessor (firstEncoded 8)).state.destination.buffers
      = [[1], [2, 3], [240], [136, 7, 232, 192], [131, 137], [128], [192], [132]] ∧
    ∃ w1 w2 r1 r2,
      wireBody (groupTemplate false).segmentBody.instructions scenarioAccessor
          (wireSegmentStart (groupTemplate false) 8 Context.fresh) = .done w1 ∧
      (firstEncoded 8).destination.buffers = usedDestination.buffers ++ w1.pmap.encodedBytes :: r1 ∧
      r1.flatten
        = (if some 8 = Context.fresh.templateId_ then [] else stopBitUnsigned 8) ++ w1.wire ∧
      (∃ rest, w1.pmap.bits = (!decide (some 8 = Context.fresh.templateId_)) :: rest) ∧
      (firstEncoded 8).context.templateId_ = some 8 ∧
      wireBody (groupTemplate false).segmentBody.instructions secondAccessor
          { pmap := { bitCapacity := (groupTemplate false).presenceMapBitCount, bits := [false] }
            context := (firstEncoded 8).context, wire := [] } = .done w2 ∧
      (encodeMessage scenarioRegistry 8 secondAccessor
          (firstEncoded 8)).state.destination.buffers
        = (firstEncoded 8).destination.buffers ++ w2.pmap.encodedBytes :: r2 ∧
      r2.flatten = w2.wire ∧
      (∃ rest, w2.pmap.bits = false :: rest) :=
  ⟨rfl, rfl, by decide!, by decide!, by decide!,
    templateId_elision scenarioRegistry 8 scenarioAccessor secondAccessor
      ⟨usedDestination, .fresh⟩ (firstEncoded 8) _ (firstEncoded 8).destination
      (groupTemplate false) rfl rfl (by decide!) (by decide!)⟩

/-- C3, counterexample: template 2 has the reset flag. Two successive messages
with template id 2 both carry the template-id byte `0x82`, and the presence map
of the second message is `0xC0` as that of the first: its first bit is 1. -/
theorem templateId_elision_counterexample :
    scenarioRegistry.getTemplate 2 = some resetTemplate ∧
    (encodeMessage scenarioRegistry 2 scenarioAccessor
        ⟨DataDestination.fresh, Context.fresh⟩).state.destination.buffers = [[192], [130]] ∧
    ((encodeMessage scenarioRegistry 2 scenarioAccessor
        ⟨DataDestination.fresh, Context.fresh⟩).andThen
      (encodeMessage scenarioRegistry 2 scenarioAccessor))
      = .done
          { destination :=
              { buffers := [[192], [130], [192], [130]]
                active := 3
                events := [.startMessage 2, .startField pmapIdentityMessage,
                  .endField pmapIdentityMessage, .endMessage, .startMessage 2,
                  .startField pmapIdentityMessage, .endField pmapIdentityMessage, .endMessage]
                delivered := [[192, 130], [192, 130, 192, 130]] }
            context := { templateId_ := some 2, dictionary := [] } } ∧
    (encodeMessage scenarioRegistry 2 scenarioAccessor
        ⟨DataDestination.fresh, { templateId_ := some 2, dictionary := [] }⟩).state.destination.buffers
      = [[192], [130]] :=
  ⟨rfl, by decide!, by decide!, by decide!⟩

/-- C4: for a registered template with the reset flag, from every state, when
a message is encoded successfully, encoding the same message again (into any
destination, the same one included) succeeds as well and the buffers it adds
hold byte for byte what the buffers added by the first encoding hold; the
buffers that existed before are untouched and the context is the same after
both. Both encodings start their segment from the cleared dictionaries and the
cleared remembered template id. -/
theorem reset_discipline (registry : TemplateRegistry A) (templateId : template_id_t)
    (accessor : A) (s s1 : EncoderState) (d : DataDestination) (template : Template A)
    (hfound : registry.getTemplate templateId = some template)
    (hreset : template.reset = true)
    (hfirst : encodeMessage registry templateId accessor s = .done s1) :
    ∃ s2, encodeMessage registry templateId accessor
          { destination := d, context := s1.context } = .done s2 ∧
      (s2.destination.buffers.drop d.buffers.length).flatten
        = (s1.destination.buffers.drop s.destination.buffers.length).flatten ∧
      s1.destination.buffers.take s.destination.buffers.length = s.destination.buffers ∧
      s2.destination.buffers.take d.buffers.length = d.buffers ∧
      s2.context = s1.context ∧
      segmentContext template s.context = { templateId_ := none, dictionary := [] } ∧
      segmentContext template s1.context = { templateId_ := none, dictionary := [] } := by
  have hsc : ∀ c : Context,
      segmentContext template c = { templateId_ := none, dictionary := [] } := by
    intro c
    simp [segmentContext, Template.getReset, hreset, Context.reset]
  obtain ⟨w, r1, hw, hc1, hb1, hr1, _, _⟩ :=
    wire_done_of_encodeMessage registry templateId accessor s s1 template hfound hfirst
  obtain ⟨hwe, htid⟩ := wireSegment_reset template templateId accessor s.context s1.context hreset
  obtain ⟨_, htid2⟩ := wireSegment_reset template templateId accessor s1.context s.context hreset
  rw [hwe] at hw
  obtain ⟨s2, r2, hdone2, hc2, hb2, hr2, _, _⟩ :=
    encodeMessage_of_wire_done registry templateId accessor
      { destination := d, context := s1.context } template w hfound hw
  refine ⟨s2, hdone2, ?_, ?_, ?_, ?_, hsc _, hsc _⟩
  · rw [hb2, hb1]
    simp only [List.drop_left, List.flatten_cons]
    rw [hr1, hr2, htid]
    show _ ++ (templateIdBytes template templateId s1.context ++ w.wire) = _
    rw [htid2]
  · rw [hb1]
    simp
  · rw [hb2]
    simp
  · rw [hc2, hc1]

/-- C4, witness: template 9 (the group template with the reset flag), encoded
twice into the same destination. -/
theorem reset_discipline_witness :
    scenarioRegistry.getTemplate 9 = some { groupTemplate true with templateId := 9 } ∧
    ({ groupTemplate true with templateId := 9 } : Template ScenarioAccessor).reset = true ∧
    encodeMessage scenarioRegistry 9 scenarioAccessor ⟨usedDestination, .fresh⟩
      = .done (firstEncoded 9) ∧
    (firstEncoded 9).destination.buffers
      = [[1], [2, 3], [240], [137, 7, 232, 192], [131, 137]] ∧
    ∃ s2, encodeMessage scenarioRegistry 9 scenarioAccessor
          { destination := (firstEncoded 9).destination, context := (firstEncoded 9).context }
        = .done s2 ∧
      (s2.destination.buffers.drop (firstEncoded 9).destination.buffers.length).flatten
        = ((firstEncoded 9).destination.buffers.drop usedDestination.buffers.length).flatten ∧
      (firstEncoded 9).destination.buffers.take usedDestination.buffers.length
        = usedDestination.buffers ∧
      s2.destination.buffers.take (firstEncoded 9).destination.buffers.length
        = (firstEncoded 9).destination.buffers ∧
      s2.context = (firstEncoded 9).context ∧
      segmentContext ({ groupTemplate true with templateId := 9 } : Template ScenarioAccessor)
          Context.fresh = { templateId_ := none, dictionary := [] } ∧
      segmentContext ({ groupTemplate true with templateId := 9 } : Template ScenarioAccessor)
          (firstEncoded 9).context = { templateId_ := none, dictionary := [] } :=
  ⟨rfl, rfl, by decide!, by decide!,
    reset_discipline scenarioRegistry 9 scenarioAccessor ⟨usedDestination, .fresh⟩
      (firstEncoded 9) (firstEncoded 9).destination _ rfl rfl (by decide!)⟩

/-! ## Groups -/

/-- C7: for a group body that declares no presence-map bit, `encodeGroup`
leaves exactly the state in which the body of the group, started in the
destination as it was on entry (same buffers, same current buffer) with an
empty presence map, leaves it: `encodeGroup` itself creates no buffer, writes
no presence-map byte and sends no presence-map field marker; and when a current
buffer exists on entry it returns or throws exactly as the body does. -/
theorem encodeGroup_without_presenceMap (instructions : List (FieldInstruction A))
    (accessor : A) (s : EncoderState) :
    (encodeGroup (.mk 0 instructions) accessor s).state
        = (encodeSegmentBody instructions accessor
            { destination := s.destination, pmap := PresenceMap.new 0,
              context := s.context }).state.toEncoderState ∧
      (s.destination.hasCurrent →
        encodeGroup (.mk 0 instructions) accessor s
          = (encodeSegmentBody instructions accessor
              { destination := s.destination, pmap := PresenceMap.new 0,
                context := s.context }).mapState SegmentState.toEncoderState) := by
  have hf := (encoder_frame.2.2 instructions accessor
    { destination := s.destination, pmap := PresenceMap.new 0, context := s.context }).2.1.2
  rw [encodeGroup]
  simp only [gt_iff_lt, Nat.lt_irrefl, if_false, DataDestination.getBuffer]
  revert hf
  cases encodeSegmentBody instructions accessor
      { destination := s.destination, pmap := PresenceMap.new 0, context := s.context } with
  | threw e s1 =>
    intro _
    exact ⟨rfl, fun _ => rfl⟩
  | done s1 =>
    intro hf
    simp only [Outcome.andThen, Outcome.state, SegmentState.toEncoderState, Outcome.mapState]
    by_cases hc : s1.destination.active < s1.destination.buffers.length
    · rw [selectBuffer_of_lt _ _ hc]
      exact ⟨rfl, fun _ => rfl⟩
    · refine ⟨?_, fun hcur => absurd (hf hcur) hc⟩
      simp [DataDestination.selectBuffer, hc, Outcome.mapState, Outcome.state]

/-- C7, witness: a group without presence map that holds the constant field,
entered with a current buffer. -/
theorem encodeGroup_without_presenceMap_witness :
    usedDestination.hasCurrent ∧
    encodeGroup (.mk 0 [constantUnsigned (plainIdentity "value") 5]) scenarioAccessor
        ⟨usedDestination, .fresh⟩
      = (encodeSegmentBody [constantUnsigned (plainIdentity "value") 5] scenarioAccessor
          { destination := usedDestination, pmap := PresenceMap.new 0,
            context := Context.fresh }).mapState SegmentState.toEncoderState ∧
    encodeGroup (.mk 0 [constantUnsigned (plainIdentity "value") 5]) scenarioAccessor
        ⟨usedDestination, .fresh⟩
      = .done
          { destination :=
              { usedDestination with
                events := usedDestination.events ++
                  [.startField (plainIdentity "value"), .endField (plainIdentity "value")] }
            context := Context.fresh } :=
  ⟨by decide,
    (encodeGroup_without_presenceMap [constantUnsigned (plainIdentity "value") 5]
      scenarioAccessor ⟨usedDestination, .fresh⟩).2 (by decide),
    by decide!⟩

/-- C8: for a group body that declares at least one presence-map bit, entered
with the most recently created buffer current, when `encodeGroup` succeeds the
stream is: the stream before the call, then the encoded presence map of the
group, then the bytes of the body of the group; the current buffer is again the
most recently created one, so that whatever the parent writes next follows in
the stream. -/
theorem encodeGroup_stream (presenceMapBits : Nat) (instructions : List (FieldInstruction A))
    (accessor : A) (s t : EncoderState) (hbits : 0 < presenceMapBits)
    (hcur : s.destination.currentIsLast)
    (hdone : encodeGroup (.mk presenceMapBits instructions) accessor s = .done t) :
    ∃ g, wireBody instructions accessor
          { pmap := PresenceMap.new presenceMapBits, context := s.context, wire := [] }
        = .done g ∧
      t.destination.stream = s.destination.stream ++ g.pmap.encodedBytes ++ g.wire ∧
      t.context = g.context ∧
      t.destination.currentIsLast ∧
      ∀ bytes : List uchar, ∃ e, t.destination.write bytes = .done e ∧
        e.stream = s.destination.stream ++ g.pmap.encodedBytes ++ g.wire ++ bytes := by
  have hm : Matches s.destination
      { destination := s.destination, pmap := PresenceMap.new 0, context := s.context }
      { pmap := PresenceMap.new 0, context := s.context, wire := [] } :=
    { pmap_eq := rfl, context_eq := rfl, ext := Extends.refl_ext _ hcur }
  have hag := encoder_agrees.2.1 (.mk presenceMapBits instructions) accessor _ _ _ hm
  have hs : ({ destination := s.destination, pmap := PresenceMap.new 0, context := s.context }
      : SegmentState).toEncoderState = s := rfl
  rw [hs, hdone, wireGroup] at hag
  revert hag
  cases wireBody instructions accessor
      { pmap := PresenceMap.new presenceMapBits, context := s.context, wire := [] } with
  | threw e g => intro hag; exact absurd hag (by simp [Outcome.mapState, Agree])
  | done g =>
    intro hag
    have hmt : Matches s.destination _ _ := hag
    have hext := hmt.ext
    have hctx := hmt.context_eq
    simp only [SegmentState.resume, hbits, gt_iff_lt, if_true, List.nil_append] at hext hctx
    refine ⟨g, rfl, hext.stream_eq.trans (by simp), hctx, hext.current, ?_⟩
    intro bytes
    obtain ⟨e1, he1, hes1, _⟩ := write_of_currentIsLast t.destination bytes hext.current
    refine ⟨e1, he1, ?_⟩
    rw [hes1, hext.stream_eq]
    simp

/-- C8, witness: a group with one presence-map bit and a copy field, entered
in a destination whose stream is `1 2 3`; the stream becomes `1 2 3`, the group
presence map `0xC0`, the quantity `0x83`. -/
theorem encodeGroup_stream_witness :
    0 < 1 ∧ usedDestination.currentIsLast ∧
    encodeGroup (.mk 1 [copyUnsigned (plainIdentity "quantity")]) scenarioAccessor
        ⟨usedDestination, .fresh⟩ = .done groupEncoded ∧
    groupEncoded.destination.stream = [1, 2, 3, 192, 131] ∧
    ∃ g, wireBody [copyUnsigned (plainIdentity "quantity")] scenarioAccessor
          { pmap := PresenceMap.new 1, context := Context.fresh, wire := [] }
        = .done g ∧
      groupEncoded.destination.stream
        = usedDestination.stream ++ g.pmap.encodedBytes ++ g.wire ∧
      groupEncoded.context = g.context ∧
      groupEncoded.destination.currentIsLast ∧
      ∀ bytes : List uchar, ∃ e, groupEncoded.destination.write bytes = .done e ∧
        e.stream = usedDestination.stream ++ g.pmap.encodedBytes ++ g.wire ++ bytes :=
  ⟨by decide, by decide, by decide!, by decide!,
    encodeGroup_stream 1 [copyUnsigned (plainIdentity "quantity")] scenarioAccessor
      ⟨usedDestination, .fresh⟩ groupEncoded (by decide) (by decide) (by decide!)⟩

/-- C9, witness: the message segment of template 8 (three declared bits) and a
group with one declared bit. -/
theorem presenceMap_within_declared_count_witness :
    scenarioRegistry.getTemplate 8 = some (groupTemplate false) ∧
    encodeSegment scenarioRegistry 8 scenarioAccessor ⟨usedDestination, .fresh⟩
      = .done (encodeSegment scenarioRegistry 8 scenarioAccessor
          ⟨usedDestination, .fresh⟩).state ∧
    encodeGroup (.mk 1 [copyUnsigned (plainIdentity "quantity")]) scenarioAccessor
        ⟨usedDestination, .fresh⟩ = .done groupEncoded ∧
    (∃ s2 : SegmentState,
      (encodeTemplateId 8 (openSegment (groupTemplate false) ⟨usedDestination, .fresh⟩).2).andThen
          (fun s1 => encodeSegmentBody (groupTemplate false).segmentBody.instructions
            scenarioAccessor s1)
        = .done s2 ∧
      closeSegment (openSegment (groupTemplate false) ⟨usedDestination, .fresh⟩).1 s2
        = .done (encodeSegment scenarioRegistry 8 scenarioAccessor
            ⟨usedDestination, .fresh⟩).state ∧
      s2.pmap.bitCapacity = (groupTemplate false).presenceMapBitCount ∧
      1 ≤ s2.pmap.bits.length ∧
      s2.pmap.bits.length ≤ (groupTemplate false).presenceMapBitCount) ∧
    (∃ s2 : SegmentState,
      encodeSegmentBody [copyUnsigned (plainIdentity "quantity")] scenarioAccessor
          { destination := if 1 > 0 then usedDestination.startBuffer.2 else usedDestination
            pmap := PresenceMap.new 1
            context := Context.fresh }
        = .done s2 ∧
      groupEncoded.context = s2.context ∧
      s2.pmap.bitCapacity = 1 ∧
      s2.pmap.bits.length ≤ 1) :=
  ⟨rfl, by decide!, by decide!,
    (presenceMap_within_declared_count (A := ScenarioAccessor)).1 scenarioRegistry 8
      scenarioAccessor ⟨usedDestination, .fresh⟩ _ (groupTemplate false) rfl (by decide!),
    (presenceMap_within_declared_count (A := ScenarioAccessor)).2 1
      [copyUnsigned (plainIdentity "quantity")] scenarioAccessor ⟨usedDestination, .fresh⟩
      groupEncoded (by decide!)⟩

/-! ## The remembered template id -/

theorem encodeSegment_remembered (registry : TemplateRegistry A) (templateId : template_id_t)
    (accessor : A) (s : EncoderState) (template : Template A)
    (hfound : registry.getTemplate templateId = some template) :
    (encodeSegment registry templateId accessor s).state.context.templateId_
      = if 0 < template.presenceMapBitCount then some templateId
        else (segmentContext template s.context).templateId_ := by
  unfold encodeSegment
  rw [hfound]
  by_cases hcap : 0 < template.presenceMapBitCount
  · simp only [hcap, if_true, encodeTemplateId_open template templateId s hcap,
      Outcome.andThen]
    have hf := (encoder_frame.2.2 template.segmentBody.instructions accessor
      { destination :=
          { s.destination with
            buffers := s.destination.buffers ++
              [[], templateIdBytes template templateId s.context]
            active := s.destination.buffers.length + 1 }
        pmap := { bitCapacity := template.presenceMapBitCount
                  bits := [!templateIdCopied template templateId s.context] }
        context := { segmentContext template s.context with templateId_ := some templateId } }).1
    revert hf
    cases encodeSegmentBody template.segmentBody.instructions accessor _ with
    | threw e s2 => intro hf; exact hf
    | done s2 =>
      intro hf
      simp only [closeSegment, Outcome.mapState_state]
      exact hf
  · simp only [hcap, if_false, encodeTemplateId_full template templateId s hcap,
      Outcome.andThen]
    rfl

theorem encodeMessage_context (registry : TemplateRegistry A) (templateId : template_id_t)
    (accessor : A) (s : EncoderState) :
    (encodeMessage registry templateId accessor s).state.context
      = (encodeSegment registry templateId accessor
          { s with destination := s.destination.startMessage templateId }).state.context := by
  unfold encodeMessage
  cases encodeSegment registry templateId accessor
      { s with destination := s.destination.startMessage templateId } <;> rfl

theorem EncoderCall.run_remembered (registry : TemplateRegistry A) (call : EncoderCall A)
    (s : EncoderState) :
    (call.run registry s).state.context.templateId_
      = match registry.getTemplate call.templateId with
        | none => s.context.templateId_
        | some template =>
          if 0 < template.presenceMapBitCount then some call.templateId
          else (segmentContext template s.context).templateId_ := by
  cases call with
  | segment templateId accessor =>
    simp only [EncoderCall.run, EncoderCall.templateId]
    cases hfound : registry.getTemplate templateId with
    | none =>
      simp only [encodeSegment, hfound, Outcome.state]
    | some template =>
      exact encodeSegment_remembered registry templateId accessor s template hfound
  | message templateId accessor =>
    simp only [EncoderCall.run, EncoderCall.templateId, encodeMessage_context]
    cases hfound : registry.getTemplate templateId with
    | none =>
      simp only [encodeSegment, hfound, Outcome.state]
    | some template =>
      exact encodeSegment_remembered registry templateId accessor _ template hfound

theorem EncoderCall.run_invariant (registry : TemplateRegistry A) (call : EncoderCall A)
    (s : EncoderState) (written : Option template_id_t)
    (h : s.context.templateId_ = none ∨ s.context.templateId_ = written) :
    (call.run registry s).state.context.templateId_ = none ∨
      (call.run registry s).state.context.templateId_
        = (if templateIdWritten registry call.templateId s.context then some call.templateId
           else written) := by
  rw [EncoderCall.run_remembered]
  unfold templateIdWritten
  cases hfound : registry.getTemplate call.templateId with
  | none => simpa using h
  | some template =>
    have hsc : (segmentContext template s.context).templateId_ = none ∨
        (segmentContext template s.context).templateId_ = s.context.templateId_ := by
      unfold segmentContext
      cases template.getReset
      · right; rfl
      · left; rfl
    by_cases hcap : 0 < template.presenceMapBitCount
    · simp only [hcap, if_true, decide_True, Bool.true_and]
      by_cases hcopy : some call.templateId = (segmentContext template s.context).templateId_
      · have hc : templateIdCopied template call.templateId s.context = true := by
          simp [templateIdCopied, hcopy]
        simp only [hc, Bool.not_true, Bool.false_eq_true, if_false]
        right
        rcases hsc with h1 | h1
        · rw [h1] at hcopy
          exact absurd hcopy (by simp)
        · rw [h1] at hcopy
          rcases h with h2 | h2
          · rw [h2] at hcopy
            exact absurd hcopy (by simp)
          · rw [hcopy, h2]
      · have hc : templateIdCopied template call.templateId s.context = false := by
          simp [templateIdCopied, hcopy]
        simp only [hc, Bool.not_false, if_true]
        right
        trivial
    · simp only [hcap, if_false, decide_False, Bool.false_and, Bool.false_eq_true]
      rcases hsc with h1 | h1
      · left; exact h1
      · rw [h1]; exact h

theorem runCalls_invariant (registry : TemplateRegistry A) (calls : List (EncoderCall A))
    (s : EncoderState) (written : Option template_id_t)
    (h : s.context.templateId_ = none ∨ s.context.templateId_ = written) :
    (runCalls registry calls s).context.templateId_ = none ∨
      (runCalls registry calls s).context.templateId_ = lastWritten registry calls s written := by
  induction calls generalizing s written with
  | nil => exact h
  | cons call rest ih =>
    rw [runCalls, lastWritten]
    exact ih _ _ (EncoderCall.run_invariant registry call s written h)

theorem encodeMessage_done_found (registry : TemplateRegistry A) (templateId : template_id_t)
    (accessor : A) (s s1 : EncoderState)
    (hdone : encodeMessage registry templateId accessor s = .done s1) :
    ∃ template, registry.getTemplate templateId = some template := by
  cases hfound : registry.getTemplate templateId with
  | some template => exact ⟨template, rfl⟩
  | none =>
    unfold encodeMessage encodeSegment at hdone
    rw [hfound] at hdone
    exact absurd hdone (by simp [Outcome.andThen])

theorem encodeMessage_done_remembered (registry : TemplateRegistry A)
    (templateId : template_id_t) (accessor : A) (s s1 : EncoderState)
    (hdone : encodeMessage registry templateId accessor s = .done s1) :
    s1.context.templateId_ = some templateId := by
  obtain ⟨template, hfound⟩ := encodeMessage_done_found registry templateId accessor s s1 hdone
  obtain ⟨w, r, hw, _, _, _, _, _⟩ :=
    wire_done_of_encodeMessage registry templateId accessor s s1 template hfound hdone
  obtain ⟨hcap, _⟩ := wireSegment_done template templateId accessor s.context w hw
  have h1 := encodeMessage_context registry templateId accessor s
  have h2 := encodeSegment_remembered registry templateId accessor
    { s with destination := s.destination.startMessage templateId } template hfound
  rw [hdone] at h1
  have h3 : s1.context.templateId_
      = (encodeSegment registry templateId accessor
          { s with destination := s.destination.startMessage templateId }).state.context.templateId_ :=
    congrArg Context.templateId_ h1
  rw [h3, h2]
  simp [hcap]

/-- C11: from a state in which the remembered template id is absent or is the id
whose bytes were written last (a fresh context in particular), after any
sequence of `encodeSegment` and `encodeMessage` calls, each continuing from the
state the previous one reached whether it returned or threw, the remembered id
is again absent or the id whose bytes were written last. A call writes the
bytes of its id exactly in the template-id step of a found template that takes
the template-id bit and does not copy; a call whose lookup fails writes nothing
and changes nothing. In particular, when messages with ids `a`, `b`, `a`
(`a ≠ b`, such as 1, 2, 1) are encoded in that order, the third message writes
its id, its first presence-map bit is 1, and the remembered id is `a` at the
end. -/
theorem remembered_templateId_is_last_written :
    (∀ (registry : TemplateRegistry A) (calls : List (EncoderCall A)) (s : EncoderState)
        (written : Option template_id_t),
        (s.context.templateId_ = none ∨ s.context.templateId_ = written) →
        (runCalls registry calls s).context.templateId_ = none ∨
          (runCalls registry calls s).context.templateId_
            = lastWritten registry calls s written) ∧
    (∀ (registry : TemplateRegistry A) (templateId : template_id_t) (s : EncoderState)
        (template : Template A), registry.getTemplate templateId = some template →
        (encodeTemplateId templateId (openSegment template s).2).state.destination.buffers
          = s.destination.buffers ++
            [[], if templateIdWritten registry templateId s.context
                 then stopBitUnsigned templateId else []]) ∧
    (∀ (registry : TemplateRegistry A) (templateId : template_id_t) (accessor : A)
        (s : EncoderState), registry.getTemplate templateId = none →
        templateIdWritten registry templateId s.context = false ∧
          (encodeSegment registry templateId accessor s).state = s) ∧
    (∀ (registry : TemplateRegistry A) (a b : template_id_t) (accessor1 accessor2 accessor3 : A)
        (s s1 s2 s3 : EncoderState), a ≠ b →
        encodeMessage registry a accessor1 s = .done s1 →
        encodeMessage registry b accessor2 s1 = .done s2 →
        encodeMessage registry a accessor3 s2 = .done s3 →
        s3.context.templateId_ = some a ∧
          templateIdWritten registry a s2.context = true ∧
          ∃ template w r rest,
            registry.getTemplate a = some template ∧
            wireBody template.segmentBody.instructions accessor3
              (wireSegmentStart template a s2.context) = .done w ∧
            w.pmap.bits = true :: rest ∧
            s3.destination.buffers = s2.destination.buffers ++ w.pmap.encodedBytes :: r ∧
            r.flatten = stopBitUnsigned a ++ w.wire) := by
  refine ⟨runCalls_invariant, ?_, ?_, ?_⟩
  · intro registry templateId s template hfound
    unfold templateIdWritten
    rw [hfound]
    by_cases hcap : 0 < template.presenceMapBitCount
    · rw [encodeTemplateId_open template templateId s hcap]
      simp only [Outcome.state, hcap, decide_True, Bool.true_and, templateIdBytes]
      cases templateIdCopied template templateId s.context <;> simp
    · rw [encodeTemplateId_full template templateId s hcap]
      simp [Outcome.state, hcap, openSegment, DataDestination.startBuffer]
  · intro registry templateId accessor s habsent
    refine ⟨by simp [templateIdWritten, habsent], ?_⟩
    unfold encodeSegment
    rw [habsent]
    rfl
  · intro registry a b accessor1 accessor2 accessor3 s s1 s2 s3 hab h1 h2 h3
    have hrem2 := encodeMessage_done_remembered registry b accessor2 s1 s2 h2
    have hrem3 := encodeMessage_done_remembered registry a accessor3 s2 s3 h3
    obtain ⟨template, hfound⟩ := encodeMessage_done_found registry a accessor3 s2 s3 h3
    obtain ⟨w, r, hw, _, hb, hr, _, _⟩ :=
      wire_done_of_encodeMessage registry a accessor3 s2 s3 template hfound h3
    obtain ⟨hcap, hbody⟩ := wireSegment_done template a accessor3 s2.context w hw
    have hnot : templateIdCopied template a s2.context = false := by
      unfold templateIdCopied segmentContext
      cases template.getReset
      · simp [hrem2, hab]
      · simp [Context.reset]
    have hf := (wireBody_frame template.segmentBody.instructions accessor3
      (wireSegmentStart template a s2.context)).1
    rw [hbody] at hf
    obtain ⟨_, ⟨extra, hbits⟩, _⟩ := hf
    simp only [Outcome.state] at hbits
    refine ⟨hrem3, ?_, template, w, r, extra, hfound, hbody, ?_, hb, ?_⟩
    · simp [templateIdWritten, hfound, hcap, hnot]
    · rw [hbits]
      simp [wireSegmentStart, hnot]
    · rw [hr]
      simp [templateIdBytes, hnot]

/-- C11, witness: the calls of `scenarioCalls` from a fresh state (the last id
written is 7, by the message that then fails on its constant; the unregistered
id 3 and the id 1 that could not be sent are never remembered), and scenario
S5 on `elisionRegistry`: the third message is `0xC0 0x81`, presence map with
first bit 1 and the template id, and no price byte since the price is copied. -/
theorem remembered_templateId_is_last_written_witness :
    (runCalls scenarioRegistry scenarioCalls ⟨DataDestination.fresh, Context.fresh⟩).context.templateId_
      = some 7 ∧
    lastWritten scenarioRegistry scenarioCalls ⟨DataDestination.fresh, Context.fresh⟩ none
      = some 7 ∧
    ((runCalls scenarioRegistry scenarioCalls
          ⟨DataDestination.fresh, Context.fresh⟩).context.templateId_ = none ∨
      (runCalls scenarioRegistry scenarioCalls
          ⟨DataDestination.fresh, Context.fresh⟩).context.templateId_
        = lastWritten scenarioRegistry scenarioCalls ⟨DataDestination.fresh, Context.fresh⟩
            none) ∧
    (1 : template_id_t) ≠ 2 ∧
    encodeMessage elisionRegistry 1 scenarioAccessor ⟨DataDestination.fresh, Context.fresh⟩
      = .done elisionFirst ∧
    encodeMessage elisionRegistry 2 scenarioAccessor elisionFirst = .done elisionSecond ∧
    encodeMessage elisionRegistry 1 scenarioAccessor elisionSecond = .done elisionThird ∧
    elisionThird.destination.buffers = [[224], [129, 7, 232], [192], [130], [192], [129]] ∧
    (elisionThird.context.templateId_ = some 1 ∧
      templateIdWritten elisionRegistry 1 elisionSecond.context = true ∧
      ∃ template w r rest,
        elisionRegistry.getTemplate 1 = some template ∧
        wireBody template.segmentBody.instructions scenarioAccessor
          (wireSegmentStart template 1 elisionSecond.context) = .done w ∧
        w.pmap.bits = true :: rest ∧
        elisionThird.destination.buffers
          = elisionSecond.destination.buffers ++ w.pmap.encodedBytes :: r ∧
        r.flatten = stopBitUnsigned 1 ++ w.wire) :=
  ⟨by decide!, by decide!,
    (remembered_templateId_is_last_written (A := ScenarioAccessor)).1 scenarioRegistry
      scenarioCalls ⟨DataDestination.fresh, Context.fresh⟩ none (Or.inl rfl),
    by decide, by decide!, by decide!, by decide!, by decide!,
    (remembered_templateId_is_last_written (A := ScenarioAccessor)).2.2.2 elisionRegistry 1 2
      scenarioAccessor scenarioAccessor scenarioAccessor
      ⟨DataDestination.fresh, Context.fresh⟩ elisionFirst elisionSecond elisionThird
      (by decide) (by decide!) (by decide!) (by decide!)⟩

/-! ## `encodeMessages` -/

theorem encodeMessages_eq_list (pickTemplate : A → Option (template_id_t × A))
    (registry : TemplateRegistry A) (picks : List (template_id_t × A)) (accessor : A)
    (s : EncoderState) (fuel : Nat) (hpicks : PicksTemplates pickTemplate accessor picks)
    (hfuel : picks.length < fuel) :
    encodeMessages pickTemplate registry fuel accessor s
      = some (encodeMessageList registry picks s) := by
  induction picks generalizing accessor s fuel with
  | nil =>
    cases fuel with
    | zero => exact absurd hfuel (Nat.lt_irrefl 0)
    | succ k =>
      have hnone : pickTemplate accessor = none := hpicks
      simp [encodeMessages, hnone, encodeMessageList]
  | cons pick rest ih =>
    cases fuel with
    | zero => exact absurd hfuel (Nat.not_lt_zero _)
    | succ k =>
      obtain ⟨hsome, hrest⟩ := hpicks
      obtain ⟨templateId, picked⟩ := pick
      have hk : rest.length < k := by
        simp only [List.length_cons] at hfuel
        omega
      rw [encodeMessages, hsome, encodeMessageList]
      simp only
      cases hm : encodeMessage registry templateId picked s with
      | threw e s1 => rfl
      | done s1 =>
        simp only [Outcome.andThen]
        exact ih picked s1 k hrest hk

theorem encodeMessageList_delivered (registry : TemplateRegistry A)
    (picks : List (template_id_t × A)) (s t : EncoderState)
    (hdone : encodeMessageList registry picks s = .done t) :
    t.destination.delivered.length = s.destination.delivered.length + picks.length := by
  induction picks generalizing s with
  | nil =>
    simp only [encodeMessageList, Outcome.done.injEq] at hdone
    rw [← hdone]
    rfl
  | cons pick rest ih =>
    rw [encodeMessageList] at hdone
    cases hm : encodeMessage registry pick.1 pick.2 s with
    | threw e s1 =>
      rw [hm] at hdone
      exact absurd hdone (by simp [Outcome.andThen])
    | done s1 =>
      rw [hm] at hdone
      obtain ⟨template, hfound⟩ := encodeMessage_done_found registry pick.1 pick.2 s s1 hm
      obtain ⟨_, _, _, _, _, _, _, hd⟩ :=
        wire_done_of_encodeMessage registry pick.1 pick.2 s s1 template hfound hm
      have := ih s1 hdone
      rw [this, hd]
      simp only [List.length_append, List.length_cons, List.length_nil]
      omega

/-- C12 (as amended): for an accessor whose `pickTemplate` yields the messages
`picks` (n of them) and then reports no further one, `encodeMessages`
terminates (any fuel above n is enough) and is the message encodings of `picks`
in that order, each one `startMessage`, `encodeSegment`, `endMessage`, up to the
first encoding that throws: that exception ends the loop at once, without
`endMessage` and without the messages that follow. When no encoding throws,
exactly n messages are handed to the consumer; for n = 0 the destination and
the context are untouched. -/
theorem encodeMessages_sequence (pickTemplate : A → Option (template_id_t × A))
    (registry : TemplateRegistry A) (picks : List (template_id_t × A)) (accessor : A)
    (s : EncoderState) (fuel : Nat) (hpicks : PicksTemplates pickTemplate accessor picks)
    (hfuel : picks.length < fuel) :
    encodeMessages pickTemplate registry fuel accessor s
        = some (encodeMessageList registry picks s) ∧
      (picks = [] → encodeMessages pickTemplate registry fuel accessor s = some (.done s)) ∧
      (∀ (pick : template_id_t × A) (rest : List (template_id_t × A)) (s0 : EncoderState),
        encodeMessageList registry (pick :: rest) s0
          = match encodeSegment registry pick.1 pick.2
              { s0 with destination := s0.destination.startMessage pick.1 } with
            | .threw e s1 => .threw e s1
            | .done s1 =>
              encodeMessageList registry rest
                { s1 with destination := s1.destination.endMessage }) ∧
      (∀ t, encodeMessages pickTemplate registry fuel accessor s = some (.done t) →
        t.destination.delivered.length = s.destination.delivered.length + picks.length) := by
  have h := encodeMessages_eq_list pickTemplate registry picks accessor s fuel hpicks hfuel
  refine ⟨h, ?_, ?_, ?_⟩
  · intro hnil
    rw [h, hnil]
    rfl
  · intro pick rest s0
    rw [encodeMessageList, encodeMessage]
    cases encodeSegment registry pick.1 pick.2
        { s0 with destination := s0.destination.startMessage pick.1 } <;> rfl
  · intro t ht
    rw [h] at ht
    exact encodeMessageList_delivered registry picks s t (Option.some.inj ht)

/-- C12, witness: the accessor `passingMessages` yields template 7 and then
template 2; both messages are encoded and handed to the consumer. -/
theorem encodeMessages_sequence_witness :
    PicksTemplates scenarioPick passingMessages [(7, [("value", 5), ("next", 2)]), (2, [])] ∧
    [(7, [("value", 5), ("next", 2)]), ((2 : template_id_t), ([] : ScenarioAccessor))].length
      < 3 ∧
    (encodeMessages scenarioPick scenarioRegistry 3 passingMessages
        ⟨DataDestination.fresh, Context.fresh⟩).map
        (fun o => (o.exception, o.state.destination.delivered))
      = some (none, [[192, 135], [192, 135, 192, 130]]) ∧
    (encodeMessages scenarioPick scenarioRegistry 3 passingMessages
          ⟨DataDestination.fresh, Context.fresh⟩
        = some (encodeMessageList scenarioRegistry
            [(7, [("value", 5), ("next", 2)]), (2, [])]
            ⟨DataDestination.fresh, Context.fresh⟩) ∧
      ([(7, [("value", 5), ("next", 2)]), ((2 : template_id_t), ([] : ScenarioAccessor))] = [] →
        encodeMessages scenarioPick scenarioRegistry 3 passingMessages
            ⟨DataDestination.fresh, Context.fresh⟩
          = some (.done ⟨DataDestination.fresh, Context.fresh⟩)) ∧
      (∀ (pick : template_id_t × ScenarioAccessor)
          (rest : List (template_id_t × ScenarioAccessor)) (s0 : EncoderState),
        encodeMessageList scenarioRegistry (pick :: rest) s0
          = match encodeSegment scenarioRegistry pick.1 pick.2
              { s0 with destination := s0.destination.startMessage pick.1 } with
            | .threw e s1 => .threw e s1
            | .done s1 =>
              encodeMessageList scenarioRegistry rest
                { s1 with destination := s1.destination.endMessage }) ∧
      (∀ t, encodeMessages scenarioPick scenarioRegistry 3 passingMessages
            ⟨DataDestination.fresh, Context.fresh⟩ = some (.done t) →
        t.destination.delivered.length
          = DataDestination.fresh.delivered.length +
            [(7, [("value", 5), ("next", 2)]),
              ((2 : template_id_t), ([] : ScenarioAccessor))].length)) :=
  ⟨⟨rfl, rfl, rfl⟩, by decide, by decide!,
    encodeMessages_sequence scenarioPick scenarioRegistry
      [(7, [("value", 5), ("next", 2)]), (2, [])] passingMessages
      ⟨DataDestination.fresh, Context.fresh⟩ 3 ⟨rfl, rfl, rfl⟩ (by decide)⟩

/-- C12, counterexample: the accessor `failingMessages` yields the registered
template ids 7 and 2 and then no further message, but the first message
violates its constant: `encodeMessages` throws, having told the destination
`startMessage(7)` and `startField` only; there is no `endMessage`, nothing is
handed to the consumer, and the message of template 2 is never started: no
message encoding is performed in full, not two. -/
theorem encodeMessages_sequence_counterexample :
    PicksTemplates scenarioPick failingMessages [(7, [("value", 6), ("next", 2)]), (2, [])] ∧
    (scenarioRegistry.getTemplate 7).isSome = true ∧
    (scenarioRegistry.getTemplate 2).isSome = true ∧
    (encodeMessages scenarioPick scenarioRegistry 3 failingMessages
        ⟨DataDestination.fresh, Context.fresh⟩).map
        (fun o => (o.exception, o.state.destination.events, o.state.destination.delivered))
      = some (some .TemplateInvariantViolated,
          [.startMessage 7, .startField (plainIdentity "value")], []) :=
  ⟨⟨rfl, rfl, rfl⟩, rfl, rfl, by decide!⟩

/-! ## The loop of `encodeSegmentBody` -/

theorem encodeSegmentBodyLoop_append (p l : List (FieldInstruction A)) (accessor : A)
    (s : SegmentState) :
    encodeSegmentBodyLoop (fun n => (p ++ l)[n]?) accessor l.length p.length s
      = encodeSegmentBody l accessor s := by
  induction l generalizing p s with
  | nil => rfl
  | cons i rest ih =>
    have hget : (p ++ i :: rest)[p.length]? = some i := by
      rw [List.getElem?_append_right (Nat.le_refl _)]
      simp
    have hstep := ih (p ++ [i])
    simp only [List.append_assoc, List.singleton_append, List.length_append,
      List.length_singleton] at hstep
    simp only [List.length_cons, encodeSegmentBodyLoop, hget, encodeSegmentBody]
    congr 1
    funext s2
    exact hstep s2

/-- C13 (as amended): for a segment with instructions `i_0 .. i_(k-1)` the loop
of `encodeSegmentBody` visits the indices in increasing order and each
instruction once; at each one it sends `startField(identity)`, calls the encode
of that instruction with the destination, presence map, context and accessor
it has, and, if that encode returns, sends `endField(identity)` with the same
identity and goes on with the state reached. If the encode throws, the
exception propagates at once: no `endField` for that instruction and no later
instruction is visited. The loop writes no byte itself (the markers leave the
buffers alone), and it passes over an index exactly when `getInstruction`
reports no instruction there, which never happens below `size()`. -/
theorem encodeSegmentBody_loop :
    (∀ (l : List (FieldInstruction A)) (accessor : A) (s : SegmentState),
        encodeSegmentBodyLoop (fun n => l[n]?) accessor l.length 0 s
          = encodeSegmentBody l accessor s) ∧
    (∀ (i : FieldInstruction A) (rest : List (FieldInstruction A)) (accessor : A)
        (s : SegmentState),
        encodeSegmentBody (i :: rest) accessor s
          = match i.encode accessor
              { s with destination := s.destination.startField i.getIdentity } with
            | .threw e s1 => .threw e s1
            | .done s1 =>
              encodeSegmentBody rest accessor
                { s1 with destination := s1.destination.endField i.getIdentity }) ∧
    (∀ (accessor : A) (s : SegmentState), encodeSegmentBody [] accessor s = .done s) ∧
    (∀ (getInstruction : Nat → Option (FieldInstruction A)) (accessor : A)
        (remaining nField : Nat) (s : SegmentState) (i : FieldInstruction A),
        getInstruction nField = some i →
        encodeSegmentBodyLoop getInstruction accessor (remaining + 1) nField s
          = match i.encode accessor
              { s with destination := s.destination.startField i.getIdentity } with
            | .threw e s1 => .threw e s1
            | .done s1 =>
              encodeSegmentBodyLoop getInstruction accessor remaining (nField + 1)
                { s1 with destination := s1.destination.endField i.getIdentity }) ∧
    (∀ (getInstruction : Nat → Option (FieldInstruction A)) (accessor : A)
        (remaining nField : Nat) (s : SegmentState),
        getInstruction nField = none →
        encodeSegmentBodyLoop getInstruction accessor (remaining + 1) nField s
          = encodeSegmentBodyLoop getInstruction accessor remaining (nField + 1) s) ∧
    (∀ (l : List (FieldInstruction A)) (nField : Nat), nField < l.length →
        ∃ i, l[nField]? = some i) ∧
    (∀ (d : DataDestination) (identity : FieldIdentity),
        (d.startField identity).buffers = d.buffers ∧
        (d.startField identity).active = d.active ∧
        (d.endField identity).buffers = d.buffers ∧
        (d.endField identity).active = d.active) := by
  refine ⟨?_, ?_, fun _ _ => rfl, ?_, ?_, ?_, fun _ _ => ⟨rfl, rfl, rfl, rfl⟩⟩
  · intro l accessor s
    have h := encodeSegmentBodyLoop_append [] l accessor s
    simpa using h
  · intro i rest accessor s
    rw [encodeSegmentBody]
    cases i.encode accessor
        { s with destination := s.destination.startField i.getIdentity } <;> rfl
  · intro getInstruction accessor remaining nField s i hget
    rw [encodeSegmentBodyLoop]
    simp only [hget]
    cases i.encode accessor
        { s with destination := s.destination.startField i.getIdentity } <;> rfl
  · intro getInstruction accessor remaining nField s hget
    rw [encodeSegmentBodyLoop]
    simp only [hget]
  · intro l nField h
    exact ⟨l[nField], by simp [h]⟩

/-- C13, witness: a body with the constant field and a copy field; both are
visited, each between its markers, and a segment that reports no instruction at
index 0 has that index passed over. -/
theorem encodeSegmentBody_loop_witness :
    (encodeSegmentBody [constantUnsigned (plainIdentity "value") 5,
          copyUnsigned (plainIdentity "price")] scenarioAccessor
        ⟨usedDestination, PresenceMap.new 3, Context.fresh⟩).state.destination.events
      = usedDestination.events ++
        [.startField (plainIdentity "value"), .endField (plainIdentity "value"),
         .startField (plainIdentity "price"), .endField (plainIdentity "price")] ∧
    encodeSegmentBodyLoop
        (fun n => [constantUnsigned (plainIdentity "value") 5,
          copyUnsigned (plainIdentity "price")][n]?) scenarioAccessor 2 0
        ⟨usedDestination, PresenceMap.new 3, Context.fresh⟩
      = encodeSegmentBody [constantUnsigned (plainIdentity "value") 5,
          copyUnsigned (plainIdentity "price")] scenarioAccessor
          ⟨usedDestination, PresenceMap.new 3, Context.fresh⟩ ∧
    encodeSegmentBodyLoop (fun _ => (none : Option (FieldInstruction ScenarioAccessor)))
        scenarioAccessor (0 + 1) 0 ⟨usedDestination, PresenceMap.new 3, Context.fresh⟩
      = encodeSegmentBodyLoop (fun _ => none) scenarioAccessor 0 (0 + 1)
          ⟨usedDestination, PresenceMap.new 3, Context.fresh⟩ :=
  ⟨by decide!,
    (encodeSegmentBody_loop (A := ScenarioAccessor)).1
      [constantUnsigned (plainIdentity "value") 5, copyUnsigned (plainIdentity "price")]
      scenarioAccessor ⟨usedDestination, PresenceMap.new 3, Context.fresh⟩,
    (encodeSegmentBody_loop (A := ScenarioAccessor)).2.2.2.2.1 (fun _ => none) scenarioAccessor
      0 0 ⟨usedDestination, PresenceMap.new 3, Context.fresh⟩ rfl⟩

/-- C13, counterexample: the encode of the first instruction (the constant 5,
from an accessor that yields 6) throws: its `startField` was sent, its
`endField` never is, and the second instruction is not visited at all (no
marker for `price`, no dictionary entry, no byte). -/
theorem encodeSegmentBody_loop_counterexample :
    encodeSegmentBody [constantUnsigned (plainIdentity "value") 5,
          copyUnsigned (plainIdentity "price")] [("value", 6), ("price", 1000)]
        ⟨usedDestination, PresenceMap.new 3, Context.fresh⟩
      = .threw .TemplateInvariantViolated
          { destination :=
              { usedDestination with
                events := usedDestination.events ++ [.startField (plainIdentity "value")] }
            pmap := PresenceMap.new 3
            context := Context.fresh } := by
  decide!

/-! ## Where the presence map and the body of a segment lie -/

theorem exists_split_at {α : Type} (l : List α) (k : Nat) (h : k < l.length) :
    ∃ p b q, l = p ++ b :: q ∧ p.length = k := by
  induction l generalizing k with
  | nil => exact absurd h (Nat.not_lt_zero _)
  | cons a rest ih =>
    cases k with
    | zero => exact ⟨[], a, rest, rfl, rfl⟩
    | succ j =>
      have hj : j < rest.length := by simpa using h
      obtain ⟨p, b, q, hl, hp⟩ := ih j hj
      exact ⟨a :: p, b, q, by rw [hl]; rfl, by simp [hp]⟩

theorem encodeGroup_layout (presenceMapBits : Nat) (instructions : List (FieldInstruction A))
    (accessor : A) (s t : EncoderState) (hbits : 0 < presenceMapBits)
    (hcur : s.destination.active < s.destination.buffers.length)
    (hdone : encodeGroup (.mk presenceMapBits instructions) accessor s = .done t) :
    ∃ g r, wireBody instructions accessor
          { pmap := PresenceMap.new presenceMapBits, context := s.context, wire := [] }
        = .done g ∧
      t.destination.buffers
        = appendAt s.destination.buffers s.destination.active g.pmap.encodedBytes ++ r ∧
      r.flatten = g.wire ∧ t.destination.currentIsLast ∧ t.context = g.context := by
  have hm : Matches s.destination.startBuffer.2
      { destination := s.destination.startBuffer.2, pmap := PresenceMap.new presenceMapBits,
        context := s.context }
      { pmap := PresenceMap.new presenceMapBits, context := s.context, wire := [] } :=
    { pmap_eq := rfl, context_eq := rfl
      ext := Extends.refl_ext _ (Extends.startBuffer s.destination).current }
  have hag := encoder_agrees.2.2 instructions accessor _ _ _ hm
  rw [encodeGroup] at hdone
  simp only [hbits, gt_iff_lt, if_true, DataDestination.getBuffer] at hdone
  revert hag hdone
  cases encodeSegmentBody instructions accessor
      { destination := s.destination.startBuffer.2, pmap := PresenceMap.new presenceMapBits,
        context := s.context } with
  | threw e s1 => intro hag hdone; exact absurd hdone (by simp)
  | done s1 =>
    cases wireBody instructions accessor
        { pmap := PresenceMap.new presenceMapBits, context := s.context, wire := [] } with
    | threw e1 g => intro hag; exact absurd hag (by simp [Agree])
    | done g =>
      intro hag hdone
      have hg : Matches s.destination.startBuffer.2 s1 g := hag
      obtain ⟨p, b, q, hsplit, hp⟩ :=
        exists_split_at s.destination.buffers s.destination.active hcur
      have hlen1 : s.destination.startBuffer.2.buffers.length - 1
          = s.destination.buffers.length := by
        simp [DataDestination.startBuffer]
      have htake : s1.destination.buffers.take s.destination.buffers.length
          = s.destination.buffers := by
        have := hg.ext.take_eq
        rw [hlen1] at this
        rw [this]
        simp [DataDestination.startBuffer]
      have hs1 : s1.destination.buffers
          = p ++ b :: (q ++ s1.destination.buffers.drop s.destination.buffers.length) := by
        have := (List.take_append_drop s.destination.buffers.length
          s1.destination.buffers).symm
        rw [htake] at this
        rw [this, hsplit]
        simp
      have hflat : (s1.destination.buffers.drop s.destination.buffers.length).flatten
          = g.wire := by
        have hst := hg.ext.stream_eq
        have hsplit2 := (List.take_append_drop s.destination.buffers.length
          s1.destination.buffers).symm
        rw [htake] at hsplit2
        simp only [DataDestination.stream, DataDestination.startBuffer] at hst
        rw [hsplit2] at hst
        simp only [List.flatten_append, List.flatten_cons, List.flatten_nil,
          List.append_nil, List.append_assoc] at hst
        exact List.append_cancel_left hst
      have hcur1 : s1.destination.buffers.length = s1.destination.active + 1 := hg.ext.current
      have hsaved : s1.destination.active < s1.destination.buffers.length := by
        rw [hcur1]; exact Nat.lt_succ_self _
      have hrun := writePresenceMap_patch p b _ s1.destination hs1 pmapIdentityGroup s1.pmap
        s1.destination.active hsaved
      rw [hp] at hrun
      dsimp only at hdone
      rw [hrun] at hdone
      simp only [Outcome.mapState, Outcome.done.injEq] at hdone
      subst hdone
      refine ⟨g, _, rfl, ?_, hflat, ?_, hg.context_eq⟩
      · show p ++ (b ++ s1.pmap.encodedBytes) :: (q ++ _) = _
        rw [hsplit, ← hp, appendAt_length_append, hg.pmap_eq]
        simp
      · show (p ++ (b ++ s1.pmap.encodedBytes) :: (q ++ _)).length = s1.destination.active + 1
        rw [← hcur1]
        conv_rhs => rw [hs1]
        simp

theorem Agree.state_current {d0 : DataDestination} {o : Outcome SegmentState}
    {a : Outcome WireState} (h : Agree (Matches d0) o a) :
    o.state.destination.currentIsLast := by
  cases o with
  | done s =>
    cases a with
    | done w => exact (show Matches d0 s w from h).ext.current
    | threw e w => exact absurd h (by simp [Agree])
  | threw e s =>
    cases a with
    | done w => exact absurd h (by simp [Agree])
    | threw e1 w => exact h.2.ext.current

theorem encodeSegment_done_found (registry : TemplateRegistry A) (templateId : template_id_t)
    (accessor : A) (s t : EncoderState)
    (hdone : encodeSegment registry templateId accessor s = .done t) :
    ∃ template, registry.getTemplate templateId = some template := by
  cases hfound : registry.getTemplate templateId with
  | some template => exact ⟨template, rfl⟩
  | none =>
    unfold encodeSegment at hdone
    rw [hfound] at hdone
    exact absurd hdone (by simp)

theorem wire_done_of_encodeSegment (registry : TemplateRegistry A) (templateId : template_id_t)
    (accessor : A) (s t : EncoderState) (template : Template A)
    (hfound : registry.getTemplate templateId = some template)
    (hdone : encodeSegment registry templateId accessor s = .done t) :
    ∃ w r, wireBody template.segmentBody.instructions accessor
          (wireSegmentStart template templateId s.context) = .done w ∧
      t.context = w.context ∧
      t.destination.buffers = s.destination.buffers ++ w.pmap.encodedBytes :: r ∧
      r.flatten = templateIdBytes template templateId s.context ++ w.wire ∧
      t.destination.currentIsLast := by
  have hag := encodeSegment_agrees registry templateId accessor s template hfound
  rw [hdone] at hag
  revert hag
  cases hws : wireSegment template templateId accessor s.context with
  | threw e w => intro hag; exact absurd hag (by simp [SegmentAgrees])
  | done w =>
    intro hag
    obtain ⟨hc, hcur, _, r, hb, hr⟩ := hag
    obtain ⟨_, hbody⟩ := wireSegment_done template templateId accessor s.context w hws
    exact ⟨w, r, hbody, hc, hb, hr, hcur⟩

/-- C14: when `encodeSegment` succeeds, the buffers it leaves are the former
ones, then the header buffer, which holds the presence map of the segment and
nothing else, then the buffers that hold the template id and the body: the
presence map lies in a buffer created before every buffer with body bytes.
When `encodeGroup` succeeds for a body with at least one presence-map bit,
entered with a current buffer, the presence map of the group is appended to
that buffer, which existed before the call, and all the bytes of the body lie
in buffers created during the call, after all former ones. -/
theorem presenceMap_buffer_before_body :
    (∀ (registry : TemplateRegistry A) (templateId : template_id_t) (accessor : A)
        (s t : EncoderState) (template : Template A),
        registry.getTemplate templateId = some template →
        encodeSegment registry templateId accessor s = .done t →
        ∃ w r, wireBody template.segmentBody.instructions accessor
              (wireSegmentStart template templateId s.context) = .done w ∧
          t.destination.buffers = s.destination.buffers ++ w.pmap.encodedBytes :: r ∧
          r.flatten = templateIdBytes template templateId s.context ++ w.wire) ∧
    (∀ (presenceMapBits : Nat) (instructions : List (FieldInstruction A)) (accessor : A)
        (s t : EncoderState), 0 < presenceMapBits → s.destination.hasCurrent →
        encodeGroup (.mk presenceMapBits instructions) accessor s = .done t →
        ∃ g r, wireBody instructions accessor
              { pmap := PresenceMap.new presenceMapBits, context := s.context, wire := [] }
            = .done g ∧
          t.destination.buffers
            = appendAt s.destination.buffers s.destination.active g.pmap.encodedBytes ++ r ∧
          (appendAt s.destination.buffers s.destination.active g.pmap.encodedBytes).length
            = s.destination.buffers.length ∧
          s.destination.active < s.destination.buffers.length ∧
          r.flatten = g.wire) := by
  constructor
  · intro registry templateId accessor s t template hfound hdone
    obtain ⟨w, r, hbody, _, hb, hr, _⟩ :=
      wire_done_of_encodeSegment registry templateId accessor s t template hfound hdone
    exact ⟨w, r, hbody, hb, hr⟩
  · intro presenceMapBits instructions accessor s t hbits hcur hdone
    obtain ⟨g, r, hbody, hb, hr, _, _⟩ :=
      encodeGroup_layout presenceMapBits instructions accessor s t hbits hcur hdone
    exact ⟨g, r, hbody, hb, length_appendAt _ _ _, hcur, hr⟩

/-- C14, witness: the segment of template 8 into the destination in use (the
header buffer `0xF0` comes right after the two former buffers) and a group
entered with the first of the two buffers current. -/
theorem presenceMap_buffer_before_body_witness :
    scenarioRegistry.getTemplate 8 = some (groupTemplate false) ∧
    encodeSegment scenarioRegistry 8 scenarioAccessor ⟨usedDestination, .fresh⟩
      = .done (encodeSegment scenarioRegistry 8 scenarioAccessor
          ⟨usedDestination, .fresh⟩).state ∧
    (encodeSegment scenarioRegistry 8 scenarioAccessor
        ⟨usedDestination, .fresh⟩).state.destination.buffers
      = [[1], [2, 3], [240], [136, 7, 232, 192], [131, 137]] ∧
    (0 : Nat) < 1 ∧
    DataDestination.hasCurrent { usedDestination with active := 0 } ∧
    (encodeGroup (.mk 1 [copyUnsigned (plainIdentity "quantity")]) scenarioAccessor
        ⟨{ usedDestination with active := 0 }, .fresh⟩).state.destination.buffers
      = [[1, 192], [2, 3], [131]] ∧
    (∃ w r, wireBody (groupTemplate false).segmentBody.instructions scenarioAccessor
          (wireSegmentStart (groupTemplate false) 8 Context.fresh) = .done w ∧
      (encodeSegment scenarioRegistry 8 scenarioAccessor
          ⟨usedDestination, .fresh⟩).state.destination.buffers
        = usedDestination.buffers ++ w.pmap.encodedBytes :: r ∧
      r.flatten = templateIdBytes (groupTemplate false) 8 Context.fresh ++ w.wire) ∧
    (∃ g r, wireBody [copyUnsigned (plainIdentity "quantity")] scenarioAccessor
          { pmap := PresenceMap.new 1, context := Context.fresh, wire := [] }
        = .done g ∧
      (encodeGroup (.mk 1 [copyUnsigned (plainIdentity "quantity")]) scenarioAccessor
          ⟨{ usedDestination with active := 0 }, .fresh⟩).state.destination.buffers
        = appendAt usedDestination.buffers 0 g.pmap.encodedBytes ++ r ∧
      (appendAt usedDestination.buffers 0 g.pmap.encodedBytes).length
        = usedDestination.buffers.length ∧
      0 < usedDestination.buffers.length ∧
      r.flatten = g.wire) :=
  ⟨rfl, by decide!, by decide!, by decide, by decide, by decide!,
    (presenceMap_buffer_before_body (A := ScenarioAccessor)).1 scenarioRegistry 8
      scenarioAccessor ⟨usedDestination, .fresh⟩ _ (groupTemplate false) rfl (by decide!),
    (presenceMap_buffer_before_body (A := ScenarioAccessor)).2 1
      [copyUnsigned (plainIdentity "quantity")] scenarioAccessor
      ⟨{ usedDestination with active := 0 }, .fresh⟩
      (encodeGroup (.mk 1 [copyUnsigned (plainIdentity "quantity")]) scenarioAccessor
        ⟨{ usedDestination with active := 0 }, .fresh⟩).state
      (by decide) (by decide) (by decide!)⟩

/-- C15: the current buffer being the most recently created one is kept by
every instruction (primitive field, group, sequence) whether it returns or
throws; it holds on return from `encodeSegment` whatever buffer was current on
entry, and on return from `encodeGroup` when it held on entry. A write that
follows is therefore appended at the end of the stream. -/
theorem current_buffer_is_last_preserved :
    (∀ (i : FieldInstruction A) (accessor : A) (s : SegmentState),
        s.destination.currentIsLast →
        (i.encode accessor s).state.destination.currentIsLast) ∧
    (∀ (registry : TemplateRegistry A) (templateId : template_id_t) (accessor : A)
        (s t : EncoderState),
        encodeSegment registry templateId accessor s = .done t →
        t.destination.currentIsLast) ∧
    (∀ (body : SegmentBody A) (accessor : A) (s t : EncoderState),
        s.destination.currentIsLast → encodeGroup body accessor s = .done t →
        t.destination.currentIsLast) ∧
    (∀ (d : DataDestination) (bytes : List uchar), d.currentIsLast →
        ∃ e, d.write bytes = .done e ∧ e.stream = d.stream ++ bytes ∧ e.currentIsLast) := by
  refine ⟨?_, ?_, ?_, write_of_currentIsLast⟩
  · intro i accessor s hcur
    have hm : Matches s.destination s { pmap := s.pmap, context := s.context, wire := [] } :=
      { pmap_eq := rfl, context_eq := rfl, ext := Extends.refl_ext _ hcur }
    exact (encoder_agrees.1 i accessor _ _ _ hm).state_current
  · intro registry templateId accessor s t hdone
    obtain ⟨template, hfound⟩ := encodeSegment_done_found registry templateId accessor s t hdone
    obtain ⟨_, _, _, _, _, _, hcur⟩ :=
      wire_done_of_encodeSegment registry templateId accessor s t template hfound hdone
    exact hcur
  · intro body accessor s t hcur hdone
    have hm : Matches s.destination
        { destination := s.destination, pmap := PresenceMap.new 0, context := s.context }
        { pmap := PresenceMap.new 0, context := s.context, wire := [] } :=
      { pmap_eq := rfl, context_eq := rfl, ext := Extends.refl_ext _ hcur }
    have hag := encoder_agrees.2.1 body accessor _ _ _ hm
    have hs : SegmentState.toEncoderState
        { destination := s.destination, pmap := PresenceMap.new 0, context := s.context }
        = s := rfl
    rw [hs, hdone] at hag
    exact hag.state_current

/-- C15, witness: the group template encoded into a destination whose current
buffer is the first of two, and a group entered with the last buffer current. -/
theorem current_buffer_is_last_preserved_witness :
    encodeSegment scenarioRegistry 8 scenarioAccessor
        ⟨{ usedDestination with active := 0 }, .fresh⟩
      = .done (encodeSegment scenarioRegistry 8 scenarioAccessor
          ⟨{ usedDestination with active := 0 }, .fresh⟩).state ∧
    (encodeSegment scenarioRegistry 8 scenarioAccessor
        ⟨{ usedDestination with active := 0 }, .fresh⟩).state.destination.currentIsLast ∧
    usedDestination.currentIsLast ∧
    encodeGroup (.mk 1 [copyUnsigned (plainIdentity "quantity")]) scenarioAccessor
        ⟨usedDestination, .fresh⟩ = .done groupEncoded ∧
    groupEncoded.destination.currentIsLast :=
  ⟨by decide!,
    (current_buffer_is_last_preserved (A := ScenarioAccessor)).2.1 scenarioRegistry 8
      scenarioAccessor ⟨{ usedDestination with active := 0 }, .fresh⟩ _ (by decide!),
    by decide, by decide!,
    (current_buffer_is_last_preserved (A := ScenarioAccessor)).2.2.1
      (.mk 1 [copyUnsigned (plainIdentity "quantity")]) scenarioAccessor
      ⟨usedDestination, .fresh⟩ groupEncoded (by decide) (by decide!)⟩

/-! ## FieldSet: `equals` -/

theorem equalsLoop_of_names (l r : List MessageField)
    (hnames : l.map MessageField.name = r.map MessageField.name) :
    FieldSet.equalsLoop l r = true := by
  induction l generalizing r with
  | nil => rfl
  | cons a rest ih =>
    cases r with
    | nil => rfl
    | cons b rs =>
      simp only [List.map_cons, List.cons.injEq] at hnames
      simp only [FieldSet.equalsLoop, hnames.1, ne_eq, not_true_eq_false, if_false]
      exact ih rs hnames.2

theorem equalsLoop_right_names (l r r1 : List MessageField)
    (hnames : r.map MessageField.name = r1.map MessageField.name) :
    FieldSet.equalsLoop l r = FieldSet.equalsLoop l r1 := by
  induction l generalizing r r1 with
  | nil => rfl
  | cons a rest ih =>
    cases r with
    | nil =>
      cases r1 with
      | nil => rfl
      | cons c cs => simp at hnames
    | cons b rs =>
      cases r1 with
      | nil => simp at hnames
      | cons c cs =>
        simp only [List.map_cons, List.cons.injEq] at hnames
        simp only [FieldSet.equalsLoop, hnames.1, ne_eq, not_true_eq_false, if_false]
        rw [ih rs cs hnames.2]

/-- C16: `equals` never looks at a field value of the right-hand set: its
result is the same for every right-hand set with the same field names, in the
same order, and the same application type and namespace; and for two field
sets with the same number of fields, compatible application types (one of them
`any`, or equal types whose namespaces are equal or not both given) and
pairwise equal field names it returns `true`, whatever the field values are:
two sets that differ only in their values are reported equal. -/
theorem equals_ignores_values (lhs rhs : FieldSet)
    (hused : lhs.used_ = rhs.used_)
    (htypes : lhs.applicationType_ = "any" ∨ rhs.applicationType_ = "any" ∨
      (lhs.applicationType_ = rhs.applicationType_ ∧
        (lhs.applicationTypeNs_ = "" ∨ rhs.applicationTypeNs_ = "" ∨
          lhs.applicationTypeNs_ = rhs.applicationTypeNs_)))
    (hnames : lhs.fields_.map MessageField.name = rhs.fields_.map MessageField.name) :
    lhs.equals rhs = true ∧
      (∀ other : FieldSet,
        other.fields_.map MessageField.name = rhs.fields_.map MessageField.name →
        other.applicationType_ = rhs.applicationType_ →
        other.applicationTypeNs_ = rhs.applicationTypeNs_ →
        lhs.equals other = true) ∧
      (∀ a b : FieldSet,
        a.fields_.map MessageField.name = b.fields_.map MessageField.name →
        a.applicationType_ = b.applicationType_ →
        a.applicationTypeNs_ = b.applicationTypeNs_ →
        lhs.equals a = lhs.equals b) := by
  have key : ∀ other : FieldSet,
      other.fields_.map MessageField.name = rhs.fields_.map MessageField.name →
      other.applicationType_ = rhs.applicationType_ →
      other.applicationTypeNs_ = rhs.applicationTypeNs_ →
      lhs.equals other = true := by
    intro other hn ht hns
    have hlen : lhs.used_ = other.used_ := by
      have h1 := congrArg List.length hn
      simp only [List.length_map] at h1
      simp only [FieldSet.used_] at hused ⊢
      omega
    have hloop := equalsLoop_of_names lhs.fields_ other.fields_ (hnames.trans hn.symm)
    unfold FieldSet.equals
    simp only [hlen, ne_eq, not_true_eq_false, if_false, hloop, ht, hns]
    rcases htypes with h | h | ⟨h1, h2⟩
    · simp [h]
    · simp [h]
    · by_cases ha : rhs.applicationType_ = "any"
      · simp [ha]
      · have hl : lhs.applicationType_ ≠ "any" := by rw [h1]; exact ha
        simp only [hl, ha, not_false_eq_true, and_self, if_true, h1, not_true_eq_false,
          if_false]
        rcases h2 with h3 | h3 | h3
        · simp [h3]
        · simp [h3]
        · simp [h3]
  refine ⟨key rhs rfl rfl rfl, key, ?_⟩
  intro a b hn ht hns
  have hlen : a.used_ = b.used_ := by
    have h1 := congrArg List.length hn
    simpa only [List.length_map] using h1
  unfold FieldSet.equals
  rw [hlen, ht, hns, equalsLoop_right_names lhs.fields_ a.fields_ b.fields_ hn]

/-- C16, witness: two field sets with the same field names whose values all
differ (and whose second has the application type `any`) are reported equal. -/
theorem equals_ignores_values_witness :
    sampleFieldSet.used_ = otherFieldSet.used_ ∧
    (sampleFieldSet.applicationType_ = "any" ∨ otherFieldSet.applicationType_ = "any" ∨
      (sampleFieldSet.applicationType_ = otherFieldSet.applicationType_ ∧
        (sampleFieldSet.applicationTypeNs_ = "" ∨ otherFieldSet.applicationTypeNs_ = "" ∨
          sampleFieldSet.applicationTypeNs_ = otherFieldSet.applicationTypeNs_))) ∧
    sampleFieldSet.fields_.map MessageField.name
      = otherFieldSet.fields_.map MessageField.name ∧
    sampleFieldSet.fields_.map MessageField.getField
      ≠ otherFieldSet.fields_.map MessageField.getField ∧
    (sampleFieldSet.equals otherFieldSet = true ∧
      (∀ other : FieldSet,
        other.fields_.map MessageField.name = otherFieldSet.fields_.map MessageField.name →
        other.applicationType_ = otherFieldSet.applicationType_ →
        other.applicationTypeNs_ = otherFieldSet.applicationTypeNs_ →
        sampleFieldSet.equals other = true) ∧
      (∀ a b : FieldSet,
        a.fields_.map MessageField.name = b.fields_.map MessageField.name →
        a.applicationType_ = b.applicationType_ →
        a.applicationTypeNs_ = b.applicationTypeNs_ →
        sampleFieldSet.equals a = sampleFieldSet.equals b)) :=
  ⟨by decide, by decide, by decide, by decide,
    equals_ignores_values sampleFieldSet otherFieldSet (by decide) (by decide) (by decide)⟩

/-- C17: in `equals` the application type `any` matches anything: for two field
sets with equal field counts and pairwise equal field names, if the application
type of either set is `any` the result is `true`, whatever the other
application type and the two namespaces are. When neither type is `any`, the
result is `false` if the application types differ, and `false` if both
namespaces are non-empty and differ. -/
theorem equals_application_type :
    (∀ lhs rhs : FieldSet, lhs.used_ = rhs.used_ →
        lhs.fields_.map MessageField.name = rhs.fields_.map MessageField.name →
        (lhs.applicationType_ = "any" ∨ rhs.applicationType_ = "any") →
        lhs.equals rhs = true) ∧
    (∀ lhs rhs : FieldSet, lhs.applicationType_ ≠ "any" → rhs.applicationType_ ≠ "any" →
        lhs.applicationType_ ≠ rhs.applicationType_ → lhs.equals rhs = false) ∧
    (∀ lhs rhs : FieldSet, lhs.applicationType_ ≠ "any" → rhs.applicationType_ ≠ "any" →
        lhs.applicationTypeNs_ ≠ "" → rhs.applicationTypeNs_ ≠ "" →
        lhs.applicationTypeNs_ ≠ rhs.applicationTypeNs_ → lhs.equals rhs = false) := by
  refine ⟨?_, ?_, ?_⟩
  · intro lhs rhs hused hnames hany
    have hloop := equalsLoop_of_names lhs.fields_ rhs.fields_ hnames
    unfold FieldSet.equals
    simp only [hused, ne_eq, not_true_eq_false, if_false, hloop]
    rcases hany with h | h
    · simp [h]
    · simp [h]
  · intro lhs rhs hl hr hdiff
    unfold FieldSet.equals
    by_cases hu : lhs.used_ = rhs.used_
    · simp [hu, hl, hr, hdiff]
    · simp [hu]
  · intro lhs rhs hl hr hnl hnr hdiff
    unfold FieldSet.equals
    by_cases hu : lhs.used_ = rhs.used_
    · by_cases ht : lhs.applicationType_ = rhs.applicationType_
      · simp [hu, hl, hr, ht, hnl, hnr, hdiff]
      · simp [hu, hl, hr, ht]
    · simp [hu]

/-- C17, witness: `any` on the right with other namespaces gives `true`; the
types `order` and `quote` give `false`; equal types with the namespaces `fix`
and `other` give `false`. -/
theorem equals_application_type_witness :
    sampleFieldSet.equals otherFieldSet = true ∧
    sampleFieldSet.equals { otherFieldSet with applicationType_ := "quote" } = false ∧
    sampleFieldSet.equals { otherFieldSet with applicationType_ := "order" } = false ∧
    sampleFieldSet.equals
      { otherFieldSet with applicationType_ := "order", applicationTypeNs_ := "" } = true :=
  ⟨(equals_application_type).1 sampleFieldSet otherFieldSet (by decide) (by decide)
      (Or.inr (by decide)),
    (equals_application_type).2.1 sampleFieldSet
      { otherFieldSet with applicationType_ := "quote" } (by decide) (by decide) (by decide),
    (equals_application_type).2.2 sampleFieldSet
      { otherFieldSet with applicationType_ := "order" } (by decide) (by decide) (by decide)
      (by decide) (by decide),
    by decide⟩

/-! ## FieldSet: `isPresent` and `getField` -/

theorem isPresentLoop_eq_getFieldLoop (identity : FieldIdentity) (value : FieldCPtr)
    (l : List MessageField) :
    FieldSet.isPresentLoop identity l = (FieldSet.getFieldLoop identity value l).1 := by
  induction l with
  | nil => rfl
  | cons m rest ih =>
    by_cases h : identity = m.getIdentity
    · simp [FieldSet.isPresentLoop, FieldSet.getFieldLoop, h]
    · simp [FieldSet.isPresentLoop, FieldSet.getFieldLoop, h, ih]

theorem getFieldLoop_first (identity : FieldIdentity) (value : FieldCPtr)
    (pre : List MessageField) (m : MessageField) (post : List MessageField)
    (hpre : ∀ x ∈ pre, x.identity ≠ identity) (hm : m.identity = identity) :
    FieldSet.getFieldLoop identity value (pre ++ m :: post)
      = (m.field.defined, some m.field) := by
  induction pre with
  | nil =>
    simp [FieldSet.getFieldLoop, MessageField.getIdentity, hm, MessageField.getField,
      Field.isDefined]
  | cons a rest ih =>
    have ha : ¬ identity = a.getIdentity := by
      intro h
      exact hpre a (List.mem_cons_self _ _) h.symm
    simp only [List.cons_append, FieldSet.getFieldLoop, ha, if_false]
    exact ih (fun x hx => hpre x (List.mem_cons_of_mem _ hx))

theorem getFieldLoop_absent (identity : FieldIdentity) (value : FieldCPtr)
    (l : List MessageField) (h : ∀ x ∈ l, x.identity ≠ identity) :
    FieldSet.getFieldLoop identity value l = (false, value) := by
  induction l with
  | nil => rfl
  | cons a rest ih =>
    have ha : ¬ identity = a.getIdentity := by
      intro h1
      exact h a (List.mem_cons_self _ _) h1.symm
    simp only [FieldSet.getFieldLoop, ha, if_false]
    exact ih (fun x hx => h x (List.mem_cons_of_mem _ hx))

theorem exists_first_or_absent (identity : FieldIdentity) (l : List MessageField) :
    (∀ x ∈ l, x.identity ≠ identity) ∨
      ∃ pre m post, l = pre ++ m :: post ∧ (∀ x ∈ pre, x.identity ≠ identity) ∧
        m.identity = identity := by
  induction l with
  | nil => left; intro x hx; simp at hx
  | cons a rest ih =>
    by_cases ha : a.identity = identity
    · right
      exact ⟨[], a, rest, rfl, by intro x hx; simp at hx, ha⟩
    · rcases ih with h | ⟨pre, m, post, hl, hpre, hm⟩
      · left
        intro x hx
        rcases List.mem_cons.mp hx with h1 | h1
        · rw [h1]; exact ha
        · exact h x h1
      · right
        refine ⟨a :: pre, m, post, by rw [hl]; rfl, ?_, hm⟩
        intro x hx
        rcases List.mem_cons.mp hx with h1 | h1
        · rw [h1]; exact ha
        · exact hpre x h1

/-- C18: for every field set and identity, `isPresent` returns the same boolean
as `getField`; that boolean is `true` exactly when some field has the identity
and the first such field in insertion order is defined; the fields after that
first one are never consulted (replacing them by any others changes neither
result, and `getField` hands out the first field); when no field has the
identity both return `false` and `getField` leaves `value` unchanged. -/
theorem isPresent_agrees_with_getField (s : FieldSet) (identity : FieldIdentity)
    (value : FieldCPtr) :
    s.isPresent identity = (s.getField identity value).1 ∧
    (s.isPresent identity = true ↔
      ∃ pre m post, s.fields_ = pre ++ m :: post ∧ (∀ x ∈ pre, x.identity ≠ identity) ∧
        m.identity = identity ∧ m.field.isDefined = true) ∧
    (∀ pre m post, s.fields_ = pre ++ m :: post → (∀ x ∈ pre, x.identity ≠ identity) →
      m.identity = identity →
      ∀ later : List MessageField,
        FieldSet.isPresent { s with fields_ := pre ++ m :: later } identity = m.field.isDefined ∧
        FieldSet.getField { s with fields_ := pre ++ m :: later } identity value
          = (m.field.isDefined, some m.field)) ∧
    ((∀ x ∈ s.fields_, x.identity ≠ identity) →
      s.isPresent identity = false ∧ s.getField identity value = (false, value)) := by
  have hsame : ∀ l : List MessageField,
      FieldSet.isPresentLoop identity l = (FieldSet.getFieldLoop identity value l).1 :=
    isPresentLoop_eq_getFieldLoop identity value
  refine ⟨hsame s.fields_, ?_, ?_, ?_⟩
  · unfold FieldSet.isPresent
    rw [hsame]
    constructor
    · intro h
      rcases exists_first_or_absent identity s.fields_ with habs | ⟨pre, m, post, hl, hpre, hm⟩
      · rw [getFieldLoop_absent identity value _ habs] at h
        exact absurd h Bool.false_ne_true
      · rw [hl, getFieldLoop_first identity value pre m post hpre hm] at h
        exact ⟨pre, m, post, hl, hpre, hm, h⟩
    · rintro ⟨pre, m, post, hl, hpre, hm, hdef⟩
      rw [hl, getFieldLoop_first identity value pre m post hpre hm]
      exact hdef
  · intro pre m post _ hpre hm later
    unfold FieldSet.isPresent FieldSet.getField
    simp only
    rw [hsame, getFieldLoop_first identity value pre m later hpre hm]
    exact ⟨rfl, rfl⟩
  · intro habs
    unfold FieldSet.isPresent FieldSet.getField
    rw [hsame, getFieldLoop_absent identity value _ habs]
    exact ⟨rfl, rfl⟩

/-- C18, witness: in `sampleFieldSet` the first `price` field is undefined and
a later one is defined: both methods answer `false` and `getField` hands out
the first field; for the identity `volume`, which no field has, `value` keeps
what it held. -/
theorem isPresent_agrees_with_getField_witness :
    (sampleFieldSet.isPresent (plainIdentity "price") = false ∧
      sampleFieldSet.getField (plainIdentity "price") none
        = (false, some { defined := false, content := 0 })) ∧
    (sampleFieldSet.isPresent (plainIdentity "volume") = false ∧
      sampleFieldSet.getField (plainIdentity "volume") (some { defined := true, content := 4 })
        = (false, some { defined := true, content := 4 })) :=
  ⟨(isPresent_agrees_with_getField sampleFieldSet (plainIdentity "price") none).2.2.1
      []
      { identity := plainIdentity "price", field := { defined := false, content := 0 } }
      [{ identity := plainIdentity "size", field := { defined := true, content := 9 } },
       { identity := plainIdentity "price", field := { defined := true, content := 1000 } }]
      rfl (by intro x hx; simp at hx) rfl
      [{ identity := plainIdentity "size", field := { defined := true, content := 9 } },
       { identity := plainIdentity "price", field := { defined := true, content := 1000 } }],
    (isPresent_agrees_with_getField sampleFieldSet (plainIdentity "volume")
      (some { defined := true, content := 4 })).2.2.2 (by decide)⟩

/-! ## FieldSet: `reserve`, `addField` and `operator[]` -/

theorem copyFields_take (l : List MessageField) (n : Nat) (h : n ≤ l.length) :
    FieldSet.copyFields l n = l.take n := by
  unfold FieldSet.copyFields
  induction n with
  | zero => simp
  | succ k ih =>
    have hk : k < l.length := h
    rw [List.range_succ, List.filterMap_append, ih (Nat.le_of_lt hk), List.take_succ]
    simp [List.getElem?_eq_getElem hk]

theorem copyFields_all (l : List MessageField) : FieldSet.copyFields l l.length = l := by
  rw [copyFields_take l l.length (Nat.le_refl _), List.take_length]

theorem reserve_fields (s : FieldSet) (capacity : Nat) :
    (s.reserve capacity).fields_ = s.fields_ := by
  unfold FieldSet.reserve
  by_cases h : capacity > s.capacity_
  · rw [if_pos h]
    exact copyFields_all s.fields_
  · rw [if_neg h]

theorem reserve_capacity (s : FieldSet) (capacity : Nat) :
    (s.reserve capacity).capacity_ = max s.capacity_ capacity := by
  unfold FieldSet.reserve
  by_cases h : capacity > s.capacity_
  · rw [if_pos h]
    exact (Nat.max_eq_right (Nat.le_of_lt h)).symm
  · rw [if_neg h]
    exact (Nat.max_eq_left (Nat.le_of_not_lt h)).symm

theorem reserve_types (s : FieldSet) (capacity : Nat) :
    (s.reserve capacity).applicationType_ = s.applicationType_ ∧
      (s.reserve capacity).applicationTypeNs_ = s.applicationTypeNs_ := by
  unfold FieldSet.reserve
  by_cases h : capacity > s.capacity_
  · rw [if_pos h]
    exact ⟨rfl, rfl⟩
  · rw [if_neg h]
    exact ⟨rfl, rfl⟩

theorem addField_fields (s : FieldSet) (identity : FieldIdentity) (value : Field) :
    (s.addField identity value).fields_
      = s.fields_ ++ [{ identity := identity, field := value }] := by
  unfold FieldSet.addField
  by_cases h : s.used_ ≥ s.capacity_
  · simp only [if_pos h, reserve_fields]
  · simp only [if_neg h]

theorem addField_capacity (s : FieldSet) (identity : FieldIdentity) (value : Field) :
    (s.addField identity value).capacity_
      = if s.used_ ≥ s.capacity_ then
          max s.capacity_ (((s.used_ + 1) * 3) % FieldSet.sizeModulus / 2)
        else s.capacity_ := by
  unfold FieldSet.addField
  by_cases h : s.used_ ≥ s.capacity_
  · simp only [if_pos h, reserve_capacity]
  · simp only [if_neg h]

theorem addField_types (s : FieldSet) (identity : FieldIdentity) (value : Field) :
    (s.addField identity value).applicationType_ = s.applicationType_ ∧
      (s.addField identity value).applicationTypeNs_ = s.applicationTypeNs_ := by
  unfold FieldSet.addField
  by_cases h : s.used_ ≥ s.capacity_
  · rw [if_pos h]
    exact reserve_types s _
  · rw [if_neg h]
    exact ⟨rfl, rfl⟩

theorem addFields_fields (adds : List (FieldIdentity × Field)) (s : FieldSet) :
    (s.addFields adds).fields_
      = s.fields_ ++ adds.map (fun entry => { identity := entry.1, field := entry.2 }) := by
  induction adds generalizing s with
  | nil => simp [FieldSet.addFields]
  | cons entry rest ih =>
    simp only [FieldSet.addFields]
    rw [ih, addField_fields]
    simp

theorem get_of_lt (s : FieldSet) (index : Nat) (h : index < s.used_) :
    s.get index = .ok (s.fields_.get ⟨index, h⟩) := by
  unfold FieldSet.get
  rw [dif_neg (Nat.not_le.mpr h)]

theorem get_of_ge (s : FieldSet) (index : Nat) (h : index ≥ s.used_) :
    s.get index = .error (.UsageError "Accessing FieldSet entry: index out of range.") := by
  unfold FieldSet.get
  rw [dif_pos h]

theorem get_of_getElem (s : FieldSet) (index : Nat) (m : MessageField)
    (h : s.fields_[index]? = some m) : s.get index = .ok m := by
  have hlt : index < s.fields_.length := by
    by_contra hge
    rw [List.getElem?_eq_none (Nat.le_of_not_lt hge)] at h
    exact Option.noConfusion h
  rw [get_of_lt s index hlt]
  rw [List.getElem?_eq_getElem hlt] at h
  exact congrArg Except.ok (Option.some.inj h)

/-- C19: for every field set state (those with `used_ ≤ capacity_`, capacity 0
included, among them) whose growth computation `(used_ + 1) * 3` fits the size
type, and every identity and value, `addField` leaves `used_ + 1` entries, at most the new
capacity; the entries at the indices below `used_` are unchanged and in the same
order, also when the storage grows; the new entry is at index `used_`; the
capacity is unchanged when `used_ < capacity_`, and otherwise it becomes
`((used_ + 1) * 3) / 2`, which is more than `used_`; the application type and
its namespace are kept. -/
theorem addField_appends (s : FieldSet) (identity : FieldIdentity) (value : Field)
    (hsize : (s.used_ + 1) * 3 < FieldSet.sizeModulus) :
    (s.addField identity value).used_ = s.used_ + 1 ∧
    (s.addField identity value).used_ ≤ (s.addField identity value).capacity_ ∧
    (s.addField identity value).fields_.take s.used_ = s.fields_ ∧
    (∀ index, index < s.used_ → (s.addField identity value).get index = s.get index) ∧
    (s.addField identity value).get s.used_
      = .ok { identity := identity, field := value } ∧
    (s.used_ < s.capacity_ → (s.addField identity value).capacity_ = s.capacity_) ∧
    (s.used_ ≥ s.capacity_ →
      (s.addField identity value).capacity_ = ((s.used_ + 1) * 3) / 2 ∧
      s.used_ < ((s.used_ + 1) * 3) / 2) ∧
    (s.addField identity value).applicationType_ = s.applicationType_ ∧
    (s.addField identity value).applicationTypeNs_ = s.applicationTypeNs_ := by
  have hf := addField_fields s identity value
  have hc := addField_capacity s identity value
  rw [Nat.mod_eq_of_lt hsize] at hc
  have hlen : (s.addField identity value).used_ = s.used_ + 1 := by
    unfold FieldSet.used_
    rw [hf, List.length_append]
    rfl
  have hmore : s.used_ < ((s.used_ + 1) * 3) / 2 := by omega
  refine ⟨hlen, ?_, ?_, ?_, ?_, ?_, ?_, (addField_types s identity value).1,
    (addField_types s identity value).2⟩
  · rw [hlen, hc]
    by_cases h : s.used_ ≥ s.capacity_
    · rw [if_pos h]
      exact Nat.le_trans hmore (Nat.le_max_right _ _)
    · rw [if_neg h]
      exact Nat.lt_of_not_le h
  · rw [hf]
    unfold FieldSet.used_
    rw [List.take_left]
  · intro index hlt
    have hlt2 : index < s.fields_.length := hlt
    rw [get_of_lt s index hlt]
    apply get_of_getElem
    rw [hf, List.getElem?_append_left hlt2, List.getElem?_eq_getElem hlt2]
    rfl
  · apply get_of_getElem
    rw [hf]
    unfold FieldSet.used_
    rw [List.getElem?_append_right (Nat.le_refl _)]
    simp
  · intro hlt
    rw [hc, if_neg (Nat.not_le.mpr hlt)]
  · intro hge
    rw [hc, if_pos hge]
    refine ⟨Nat.max_eq_right ?_, hmore⟩
    exact Nat.le_of_lt (Nat.lt_of_le_of_lt hge hmore)

/-- C19, witness: a full set of three entries grows to capacity 6 and keeps its
three entries below the new one. -/
theorem addField_appends_witness :
    (sampleFieldSet.addField (plainIdentity "side") { defined := true, content := 1 }).used_
        = sampleFieldSet.used_ + 1 ∧
    (sampleFieldSet.addField (plainIdentity "side") { defined := true, content := 1 }).capacity_
        = 6 ∧
    (sampleFieldSet.addField (plainIdentity "side") { defined := true, content := 1 }).fields_.take
        sampleFieldSet.used_ = sampleFieldSet.fields_ ∧
    (sampleFieldSet.addField (plainIdentity "side") { defined := true, content := 1 }).get
        sampleFieldSet.used_
        = .ok { identity := plainIdentity "side", field := { defined := true, content := 1 } } ∧
    ((FieldSet.new 0).addField (plainIdentity "side") { defined := true, content := 1 }).capacity_
        = 1 :=
  ⟨(addField_appends sampleFieldSet (plainIdentity "side") { defined := true, content := 1 }
      (by decide)).1,
    ((addField_appends sampleFieldSet (plainIdentity "side") { defined := true, content := 1 }
      (by decide)).2.2.2.2.2.2.1 (by decide)).1,
    (addField_appends sampleFieldSet (plainIdentity "side") { defined := true, content := 1 }
      (by decide)).2.2.1,
    (addField_appends sampleFieldSet (plainIdentity "side") { defined := true, content := 1 }
      (by decide)).2.2.2.2.1,
    ((addField_appends (FieldSet.new 0) (plainIdentity "side") { defined := true, content := 1 }
      (by decide)).2.2.2.2.2.2.1 (by decide)).1⟩

/-- C20: for a field set that was cleared and then received the fields `adds`
in order, and every index, `operator[]` fails with the usage error
`Accessing FieldSet entry: index out of range.` if and only if the index is at
least the number of fields added since the clear; otherwise it returns the
field that was added at that position, counting from 0. The same holds for a
newly constructed set. The operator yields a result only: the set is not
changed. -/
theorem get_index_checked (s0 : FieldSet) (capacity : Nat)
    (adds : List (FieldIdentity × Field)) (index : Nat) :
    ((s0.clear capacity).addFields adds).used_ = adds.length ∧
    (((s0.clear capacity).addFields adds).get index
        = .error (.UsageError "Accessing FieldSet entry: index out of range.")
      ↔ index ≥ adds.length) ∧
    (∀ h : index < adds.length,
      ((s0.clear capacity).addFields adds).get index
        = .ok { identity := (adds.get ⟨index, h⟩).1, field := (adds.get ⟨index, h⟩).2 }) ∧
    (((FieldSet.new capacity).addFields adds).get index
        = .error (.UsageError "Accessing FieldSet entry: index out of range.")
      ↔ index ≥ adds.length) ∧
    (∀ h : index < adds.length,
      ((FieldSet.new capacity).addFields adds).get index
        = .ok { identity := (adds.get ⟨index, h⟩).1, field := (adds.get ⟨index, h⟩).2 }) := by
  have key : ∀ base : FieldSet, base.fields_ = [] →
      (base.addFields adds).used_ = adds.length ∧
      ((base.addFields adds).get index
          = .error (.UsageError "Accessing FieldSet entry: index out of range.")
        ↔ index ≥ adds.length) ∧
      (∀ h : index < adds.length,
        (base.addFields adds).get index
          = .ok { identity := (adds.get ⟨index, h⟩).1, field := (adds.get ⟨index, h⟩).2 }) := by
    intro base hbase
    have hf := addFields_fields adds base
    rw [hbase, List.nil_append] at hf
    have hlen : (base.addFields adds).used_ = adds.length := by
      unfold FieldSet.used_
      rw [hf, List.length_map]
    have hok : ∀ h : index < adds.length,
        (base.addFields adds).get index
          = .ok { identity := (adds.get ⟨index, h⟩).1, field := (adds.get ⟨index, h⟩).2 } := by
      intro h
      apply get_of_getElem
      rw [hf, List.getElem?_map, List.getElem?_eq_getElem h]
      rfl
    refine ⟨hlen, ⟨?_, ?_⟩, hok⟩
    · intro herr
      by_contra hlt
      rw [hok (Nat.lt_of_not_le hlt)] at herr
      exact Except.noConfusion herr
    · intro hge
      apply get_of_ge
      rw [hlen]
      exact hge
  have hclear : (s0.clear capacity).fields_ = [] := by
    unfold FieldSet.clear
    rw [reserve_fields]
  have h1 := key (s0.clear capacity) hclear
  have h2 := key (FieldSet.new capacity) rfl
  exact ⟨h1.1, h1.2.1, h1.2.2, h2.2.1, h2.2.2⟩

/-- C20, witness: `sampleFieldSet` is cleared and receives two fields: index 1
gives the second of them, index 2 is out of range. -/
theorem get_index_checked_witness :
    ((sampleFieldSet.clear 0).addFields
        [(plainIdentity "bid", { defined := true, content := 7 }),
         (plainIdentity "ask", { defined := false, content := 0 })]).get 1
      = .ok { identity := plainIdentity "ask", field := { defined := false, content := 0 } } ∧
    ((sampleFieldSet.clear 0).addFields
        [(plainIdentity "bid", { defined := true, content := 7 }),
         (plainIdentity "ask", { defined := false, content := 0 })]).get 2
      = .error (.UsageError "Accessing FieldSet entry: index out of range.") :=
  ⟨(get_index_checked sampleFieldSet 0
      [(plainIdentity "bid", { defined := true, content := 7 }),
       (plainIdentity "ask", { defined := false, content := 0 })] 1).2.2.1 (by decide),
    (get_index_checked sampleFieldSet 0
      [(plainIdentity "bid", { defined := true, content := 7 }),
       (plainIdentity "ask", { defined := false, content := 0 })] 2).2.1.mpr (by decide)⟩

end QuickFAST
